import Mathlib

/-!
# Verification of the gradient-accumulation rewrite pass

A shallow embedding of `tensorflow/compiler/xla/service/spmd/grad_acc_rewrite.cc`
(namespace `xla::spmd`) and of the module-group variant
`GradAccCommDelay::RunOnModuleGroup` of the same file family.

The instruction graph is modelled as an association list of node ids to
instructions, with a fresh-id counter and a distinguished root id.  Node
attributes follow the fields the pass reads or writes: opcode, shape,
ordered operand list, the metadata `op_name` string, the optional channel
id, and the all-reduce attributes that are copied when a collective is
rebuilt.  User sets are derived from operand lists, as in the source.

Defensive aborts of the source (out-of-range operand access, `CHECK`
failures, `std::optional::value()` on an empty optional, the element-type
`assert` of the relocation branch) are modelled by `Option`-valued
functions returning `none`.  `HloComputation::RemoveInstruction` returns an
error `Status` that the callers ignore, so removal is modelled as a total
function that leaves the computation unchanged when its preconditions
fail.
-/

/-- Element types (`xla::PrimitiveType`, array cases used by the pass). -/
inductive PType
  | pred
  | s32
  | f16
  | f32
  | f64
deriving DecidableEq, Repr

/-- The element-type tag of a shape: a primitive type for arrays, or the
tuple tag (`xla::PrimitiveType::TUPLE`) for tuple shapes. -/
inductive EType
  | prim (t : PType)
  | tup
deriving DecidableEq, Repr

/-- Shapes (`xla::Shape`, layouts ignored): an array of a primitive element
type and a dimension list, or a tuple of array subshapes.  The pass only
ever manipulates arrays and one-level tuples of arrays. -/
inductive Shape
  | array (ty : PType) (dims : List Nat)
  | tuple (subs : List (PType × List Nat))
deriving DecidableEq, Repr

/-- `Shape::element_type()`. -/
def Shape.elementType : Shape → EType
  | .array t _ => .prim t
  | .tuple _ => .tup

/-- `Shape::IsArray()`. -/
def Shape.isArray : Shape → Bool
  | .array _ _ => true
  | .tuple _ => false

/-- `Shape::IsTuple()`. -/
def Shape.isTuple : Shape → Bool
  | .array _ _ => false
  | .tuple _ => true

/-- `Shape::tuple_shapes_size()`. -/
def Shape.tupleShapesSize : Shape → Nat
  | .array _ _ => 0
  | .tuple subs => subs.length

/-- `ShapeUtil::SameElementType`: the element types of the two shapes are
equal. -/
def sameElementType (a b : Shape) : Bool :=
  a.elementType == b.elementType

/-- `ShapeUtil::Compatible` (layouts ignored): equal element types and
dimensions, tuple structure unwrapped pointwise. -/
def compatibleShape (a b : Shape) : Bool :=
  match a, b with
  | .array t d, .array t' d' => t == t' && d == d'
  | .tuple xs, .tuple ys => xs == ys
  | _, _ => false

/-- `ShapeUtil::ChangeElementType`: replace every primitive element type of
the shape.  On tuples the source recurses into the subshapes. -/
def changeElementType (s : Shape) (t : EType) : Shape :=
  match s, t with
  | .array _ d, .prim u => .array u d
  | .array a d, .tup => .array a d
  | .tuple subs, .prim u => .tuple (subs.map (fun p => (u, p.2)))
  | .tuple subs, .tup => .tuple subs

/-- Opcodes (`xla::HloOpcode`, the cases this pass inspects plus generic
extras so that the "any other opcode" branches are inhabited). -/
inductive HloOpcode
  | add
  | convert
  | reshape
  | copy
  | bitcast
  | transpose
  | multiply
  | allReduce
  | parameter
  | outTuple
  | constant
  | subtract
deriving DecidableEq, Repr

/-- An instruction node (`xla::HloInstruction`): the attributes the pass
reads or writes.  `metadataOpName` models `metadata().op_name()`;
`paramNo` is the parameter number of `kParameter` instructions;
`replicaGroups`, `constrainLayout` and `useGlobalDeviceIds` are the
all-reduce attributes copied when a collective is rebuilt. -/
structure Instruction where
  opcode : HloOpcode
  shape : Shape
  operands : List Nat
  metadataOpName : String := ""
  channelId : Option Int := none
  paramNo : Nat := 0
  replicaGroups : List (List Int) := []
  constrainLayout : Bool := false
  useGlobalDeviceIds : Bool := false
deriving DecidableEq, Repr

/-- A computation (`xla::HloComputation`): an association list from node
ids to instructions, a fresh-id counter, and the distinguished root id. -/
structure HloComputation where
  insts : List (Nat × Instruction)
  nextId : Nat
  rootId : Nat
deriving DecidableEq, Repr

/-- Node lookup by id (dereferencing an `HloInstruction*`). -/
def HloComputation.find (c : HloComputation) (id : Nat) : Option Instruction :=
  c.insts.lookup id

/-- `HloComputation::AddInstruction`: append a node under a fresh id and
return it. -/
def HloComputation.addInstruction (c : HloComputation) (i : Instruction) :
    HloComputation × Nat :=
  ({ insts := c.insts ++ [(c.nextId, i)], nextId := c.nextId + 1,
     rootId := c.rootId }, c.nextId)

/-- Rewrite the instruction stored under `id` in place. -/
def HloComputation.modifyInst (c : HloComputation) (id : Nat)
    (f : Instruction → Instruction) : HloComputation :=
  { c with insts := c.insts.map (fun p => if p.1 = id then (p.1, f p.2) else p) }

/-- `HloInstruction::ReplaceOperandWith` on the node `id`: overwrite
operand slot `k`. -/
def HloComputation.replaceOperandWith (c : HloComputation) (id : Nat) (k : Nat)
    (newOp : Nat) : HloComputation :=
  c.modifyInst id (fun i => { i with operands := i.operands.set k newOp })

/-- `HloInstruction::set_metadata_op_name` on the node `id`. -/
def HloComputation.setMetadataOpName (c : HloComputation) (id : Nat) (s : String) :
    HloComputation :=
  c.modifyInst id (fun i => { i with metadataOpName := s })

/-- The derived user list of `id`: the nodes whose operand list mentions
`id` (each user once, in graph order), as `HloInstruction::users`. -/
def HloComputation.users (c : HloComputation) (id : Nat) : List Nat :=
  (c.insts.filter (fun p => id ∈ p.2.operands)).map Prod.fst

/-- Replace every occurrence of `old` in an instruction's operand list by
`new`. -/
def substOperands (old new : Nat) (i : Instruction) : Instruction :=
  { i with operands := i.operands.map (fun o => if o = old then new else o) }

/-- `HloInstruction::ReplaceAllUsesWith`: every user other than the new
producer itself has its uses of `old` replaced by `new`; if `old` is the
computation root, the root becomes `new`. -/
def HloComputation.replaceAllUsesWith (c : HloComputation) (old new : Nat) :
    HloComputation :=
  { insts := c.insts.map (fun p =>
      if p.1 = new then p else (p.1, substOperands old new p.2)),
    nextId := c.nextId,
    rootId := if c.rootId = old then new else c.rootId }

/-- `HloComputation::RemoveInstruction`, whose error `Status` the callers
of this pass discard: the node is removed only when it exists, it is dead
(no users), it is not the root, and it is not a parameter; otherwise the
computation is returned unchanged. -/
def HloComputation.removeInstructionIgnored (c : HloComputation) (id : Nat) :
    HloComputation :=
  match c.find id with
  | none => c
  | some i =>
    if c.users id = [] ∧ id ≠ c.rootId ∧ i.opcode ≠ .parameter then
      { c with insts := c.insts.filter (fun p => p.1 ≠ id) }
    else c

/-- `HloComputation::parameter_instruction`: the node with opcode
`kParameter` and the given parameter number; `none` models the index
`CHECK` failing. -/
def HloComputation.paramInstruction (c : HloComputation) (i : Int) : Option Nat :=
  if i < 0 then none
  else ((c.insts.find? (fun p =>
    p.2.opcode == .parameter && p.2.paramNo == i.toNat)).map Prod.fst)

/-- The shape of the node `id` (`src->shape()`); a junk default stands in
for the undefined behaviour of dereferencing an absent node. -/
def shapeOf (c : HloComputation) (id : Nat) : Shape :=
  ((c.find id).map Instruction.shape).getD (.array .f32 [])

/-- Operand slot `k` of node `id`. -/
def opnd (c : HloComputation) (id : Nat) (k : Nat) : Option Nat :=
  (c.find id).bind (fun i => i.operands[k]?)

/-- `operand_count()` of node `id`. -/
def operandCount (c : HloComputation) (id : Nat) : Nat :=
  ((c.find id).map (fun i => i.operands.length)).getD 0

/-- A compiled unit (`xla::HloModule`): its entry computation. -/
structure HloModule where
  entry : HloComputation
deriving DecidableEq, Repr

/-- `HloInstruction::CreateConvert`. -/
def createConvert (sh : Shape) (src : Nat) : Instruction :=
  { opcode := .convert, shape := sh, operands := [src] }

/-- `HloInstruction::CreateReshape` (its element-count `CHECK` is not
modelled; the pass only reshapes between shapes of one logical tensor). -/
def createReshape (sh : Shape) (src : Nat) : Instruction :=
  { opcode := .reshape, shape := sh, operands := [src] }

/-- `MaybeConvert` from the source: return `src` when the element types
already agree, otherwise add one convert node to `src`'s computation. -/
def maybeConvert (c : HloComputation) (src : Nat) (dst : Shape) :
    HloComputation × Nat :=
  if sameElementType (shapeOf c src) dst then (c, src)
  else
    c.addInstruction (createConvert
      (changeElementType (shapeOf c src) dst.elementType) src)

/-- `MaybeReshapeConvert` from the source: return `src` when its shape is
already `ShapeUtil::Compatible` with `dst`, otherwise add a reshape to
`dst` over `MaybeConvert src dst`. -/
def maybeReshapeConvert (c : HloComputation) (src : Nat) (dst : Shape) :
    HloComputation × Nat :=
  if compatibleShape (shapeOf c src) dst then (c, src)
  else
    let r := maybeConvert c src dst
    r.1.addInstruction (createReshape dst r.2)

/-- `MaybeReshapeConvertTuple` from the source; `none` models its two
`CHECK`s (tuple arity mismatch, or a non-array target with arity other
than one) failing. -/
def maybeReshapeConvertTuple (c : HloComputation) (srcs : List Nat)
    (dst : Shape) : Option (HloComputation × List Nat) :=
  match dst with
  | .tuple subs =>
    if subs.length = srcs.length then
      some ((List.range srcs.length).foldl (fun acc k =>
        match acc, srcs[k]?, subs[k]? with
        | (c', out), some s, some sub =>
          let r := maybeReshapeConvert c' s (.array sub.1 sub.2)
          (r.1, out ++ [r.2])
        | acc, _, _ => acc) (c, []))
    else none
  | .array t d =>
    if srcs.length = 1 then
      match srcs[0]? with
      | some s =>
        let r := maybeReshapeConvert c s (.array t d)
        some (r.1, [r.2])
      | none => none
    else none

/-- `GetAllReduce` from the source: walk from `src` to a reachable
all-reduce.  The recursion of the source terminates because the graph is
acyclic; the embedding uses a fuel argument (callers pass `c.nextId`,
which is enough fuel on id-ordered graphs).  An absent node or a missing
operand (undefined behaviour in the source) yields `none`. -/
def getAllReduce (c : HloComputation) : Nat → Nat → Option Nat
  | 0, _ => none
  | fuel + 1, id =>
    match c.find id with
    | none => none
    | some i =>
      match i.opcode with
      | .allReduce => some id
      | .convert | .reshape | .copy | .bitcast | .transpose =>
        match i.operands[0]? with
        | some y => getAllReduce c fuel y
        | none => none
      | .multiply =>
        match i.operands[0]?, i.operands[1]? with
        | some a, some b =>
          match getAllReduce c fuel a, getAllReduce c fuel b with
          | some l, none => some l
          | none, some r => some r
          | _, _ => none
        | _, _ => none
      | _ => none

/-- Modelled from the spec: the metadata marker `kSkippableAllReduce`
declared in `grad_acc_rewrite.h`, which is not among the sources; only its
identity matters ("elidable" tag of §3 of the spec). -/
def kSkippableAllReduce : String := "grad_acc_skippable_all_reduce"

/-- Modelled from the spec: the metadata marker `kDelayedAllReduce`
declared in `grad_acc_rewrite.h`, which is not among the sources
("relocated / pending-delay" tag of §3 of the spec). -/
def kDelayedAllReduce : String := "grad_acc_delayed_all_reduce"

/-- The ambient configuration store (`pass_context`), made explicit:
the feature toggle `auto_sharding::rewrite_for_grad_acc` and the index
lists `auto_sharding::rewrite_indices` /
`auto_sharding::rewrite_applygrad_indices`. -/
structure PassContext where
  rewriteForGradAcc : Bool
  rewriteIndices : List Int
  rewriteApplygradIndices : List Int := []

/-- The `int64 → size_t` conversion performed by `for (size_t i : indices)`. -/
def sizeT (i : Int) : Nat := (i % (2 ^ 64)).toNat

/-- One slot of the detach loop: if operand `k` of `uId` is the
collective `arId`, rewire it to the collective's own operand 0, bridged to
the slot's current shape (the shape of the collective). -/
def detachStep (uId arId : Nat) (c : HloComputation) (k : Nat) :
    HloComputation :=
  if opnd c uId k = some arId then
    let src := (opnd c arId 0).getD 0
    let r := maybeReshapeConvert c src (shapeOf c arId)
    r.1.replaceOperandWith uId k r.2
  else c

/-- The detach phase: every operand slot of the collective's single user
`uId` that holds `arId` is rewired to the collective's own operand 0,
bridged to the slot's current shape (the shape of the collective). -/
def detachCollective (c : HloComputation) (uId arId : Nat) (n : Nat) :
    HloComputation :=
  (List.range n).foldl (detachStep uId arId) c

/-- The reinsert phase: the collective's operand 0 becomes the Add
(bridged to the collective's shape), output position `iN` becomes the
collective (bridged to the Add's shape), and the collective is tagged
`kSkippableAllReduce`. -/
def reinsertCollective (c : HloComputation) (outId iN addId arId : Nat) :
    HloComputation :=
  let r1 := maybeReshapeConvert c addId (shapeOf c arId)
  let c2 := r1.1.replaceOperandWith arId 0 r1.2
  let r2 := maybeReshapeConvert c2 arId (shapeOf c2 addId)
  let c4 := r2.1.replaceOperandWith outId iN r2.2
  c4.setMetadataOpName arId kSkippableAllReduce

/-- The type-fix phase: when the collective's element type no longer
matches the Add's, rebuild the collective with the Add's shape (same
replica groups, layout constraint, channel id, global-device-id policy,
copied metadata), redirect all uses of the old collective to the bridged
new one, and schedule the old collective for removal. -/
def typeFixCollective (c : HloComputation) (addId arId : Nat)
    (rem : List Nat) : Option (HloComputation × List Nat) :=
  if sameElementType (shapeOf c arId) (shapeOf c addId) then some (c, rem)
  else
    let newShape := shapeOf c addId
    let old := (c.find arId).getD
      { opcode := .allReduce, shape := shapeOf c arId, operands := [] }
    match maybeReshapeConvertTuple c old.operands newShape with
    | none => none
    | some (c1, newOps) =>
      let r := c1.addInstruction
        { opcode := .allReduce, shape := newShape, operands := newOps,
          metadataOpName := "", channelId := old.channelId,
          replicaGroups := old.replicaGroups,
          constrainLayout := old.constrainLayout,
          useGlobalDeviceIds := old.useGlobalDeviceIds }
      let c3 := r.1.setMetadataOpName r.2 old.metadataOpName
      let rb := maybeReshapeConvert c3 r.2 (shapeOf c3 arId)
      some (rb.1.replaceAllUsesWith arId rb.2, rem ++ [arId])

/-- One iteration of `GradAccRewrite::Run`'s index loop on the computation
`c` with pending-removal list `rem`; `outId` is the root captured before
the loop.  `none` models a fatal abort (out-of-range access or a failing
`CHECK`); a soft mismatch returns the state unchanged. -/
def gradAccStep (outId : Nat) (st : HloComputation × List Nat) (idx : Int) :
    Option (HloComputation × List Nat) :=
  let c := st.1
  match c.find outId with
  | none => none
  | some root =>
    match root.operands[sizeT idx]? with
    | none => none
    | some addId =>
      match c.find addId with
      | none => none
      | some addIns =>
        if addIns.opcode ≠ .add then some st
        else
          match addIns.operands[1]? with
          | none => none
          | some xId =>
            match getAllReduce c c.nextId xId with
            | none => some st
            | some arId =>
              if (c.users arId).length ≠ 1 then some st
              else if operandCount c arId ≠ 1 then none
              else
                let uId := ((c.users arId).headD 0)
                let c1 := detachCollective c uId arId (operandCount c uId)
                let c2 := reinsertCollective c1 outId (sizeT idx) addId arId
                typeFixCollective c2 addId arId st.2

/-- The index loop of `GradAccRewrite::Run`. -/
def runIndices (outId : Nat) : List Int → HloComputation × List Nat →
    Option (HloComputation × List Nat)
  | [], st => some st
  | i :: is, st =>
    match gradAccStep outId st i with
    | none => none
    | some st' => runIndices outId is st'

/-- `GradAccRewrite::Run`: when the feature toggle is off, report `false`
with the module untouched; otherwise run the index loop on the entry
computation (whose root is captured once, before the loop), remove the
scheduled instructions, and report `true`. -/
def gradAccRewriteRun (ctx : PassContext) (m : HloModule) :
    Option (HloModule × Bool) :=
  if ctx.rewriteForGradAcc = false then some (m, false)
  else
    match runIndices m.entry.rootId ctx.rewriteIndices (m.entry, []) with
    | none => none
    | some (c, rem) =>
      some (⟨rem.foldl HloComputation.removeInstructionIgnored c⟩, true)

/-- `GetGradSyncChannelIds`: the dotted string of the channel ids of every
all-reduce in the entry computation tagged `kSkippableAllReduce`.  The
source reads `inst->channel_id().value()` unconditionally, so a tagged
all-reduce without a channel id makes the result undefined (`none`). -/
def getGradSyncChannelIds (m : HloModule) : Option String :=
  m.entry.insts.foldl (fun acc p =>
    acc.bind (fun s =>
      if p.2.opcode = .allReduce ∧ p.2.metadataOpName = kSkippableAllReduce
      then (p.2.channelId).map (fun v => s ++ toString v ++ ".")
      else some s)) (some ".")

/-- The channel ids present in a computation. -/
def chanIds (c : HloComputation) : List Int :=
  c.insts.filterMap (fun p => p.2.channelId)

/-- Modelled from the spec: `hlo_query::NextChannelId`, which is not among
the sources.  Per §4.4 of the spec, "the allocator scans the consumer unit
once at entry to seed a monotonically increasing counter strictly above
the current maximum": one more than the maximum channel id present (at
least 1). -/
def nextChannelId (m : HloModule) : Int :=
  1 + (chanIds m.entry).foldl max 0

/-- The rewiring loop of the relocation branch: every snapshotted consumer
of the parameter has each of its parameter-operand slots replaced by the
new collective, bridged to the parameter's shape. -/
def rewireParamUsers (c : HloComputation) (paramId newAr : Nat)
    (userList : List Nat) : HloComputation :=
  userList.foldl (fun c u =>
    (List.range (operandCount c u)).foldl (fun c k =>
      if opnd c u k = some paramId then
        let r := maybeReshapeConvert c newAr (shapeOf c paramId)
        r.1.replaceOperandWith u k r.2
      else c) c) c

/-- The relocation branch of `GradAccCommDelay::RunOnModuleGroup`
(`in_index != -1`): tag the detached collective "delayed", snapshot the
consumers of the consumer-unit parameter, rebuild the collective over
that parameter in the consumer unit (allocating a fresh channel id only
when the original carried one), rewire the snapshotted consumers, and
schedule the old collective for removal from the producer unit. -/
def relocateCollective (bw ag : HloComputation) (ctr : Int)
    (rem : List Nat) (addId arId : Nat) (inIdx : Int) :
    Option (HloComputation × HloComputation × Int × List Nat) :=
  let bw2 := bw.setMetadataOpName arId kDelayedAllReduce
  match ag.paramInstruction inIdx with
  | none => none
  | some paramId =>
    let paramUsers := ag.users paramId
    if sameElementType (shapeOf bw2 addId) (shapeOf ag paramId) = false
    then none
    else
      let old := (bw2.find arId).getD
        { opcode := .allReduce, shape := shapeOf bw2 arId, operands := [] }
      let newShape := shapeOf ag paramId
      let chan : Option Int := if old.channelId.isSome then some ctr else none
      let ctr' : Int := if old.channelId.isSome then ctr + 1 else ctr
      match maybeReshapeConvertTuple ag [paramId] newShape with
      | none => none
      | some (ag1, newOps) =>
        let r := ag1.addInstruction
          { opcode := .allReduce, shape := newShape, operands := newOps,
            metadataOpName := "", channelId := chan,
            replicaGroups := old.replicaGroups,
            constrainLayout := old.constrainLayout,
            useGlobalDeviceIds := old.useGlobalDeviceIds }
        let ag3 := r.1.setMetadataOpName r.2 old.metadataOpName
        let ag4 := rewireParamUsers ag3 paramId r.2 paramUsers
        some (bw2, ag4, ctr', rem ++ [arId])

/-- One iteration of the `GradAccCommDelay::RunOnModuleGroup` index loop:
producer-unit state `bw` (with the captured root `outId`), consumer-unit
state `ag`, the channel-id counter, and the pending-removal list.  The
`in_index = -1` sentinel keeps the single-unit behaviour in the producer
unit; other values relocate the collective into the consumer unit. -/
def commDelayStep (outId : Nat)
    (st : HloComputation × HloComputation × Int × List Nat)
    (ii : Int × Int) :
    Option (HloComputation × HloComputation × Int × List Nat) :=
  let bw := st.1
  let ag := st.2.1
  let ctr := st.2.2.1
  let rem := st.2.2.2
  match bw.find outId with
  | none => none
  | some root =>
    match root.operands[sizeT ii.1]? with
    | none => none
    | some addId =>
      match bw.find addId with
      | none => none
      | some addIns =>
        if addIns.opcode ≠ .add then some st
        else
          match addIns.operands[1]? with
          | none => none
          | some xId =>
            match getAllReduce bw bw.nextId xId with
            | none => some st
            | some arId =>
              if (bw.users arId).length ≠ 1 then some st
              else if operandCount bw arId ≠ 1 then none
              else
                let uId := ((bw.users arId).headD 0)
                let bw1 := detachCollective bw uId arId (operandCount bw uId)
                if ii.2 = -1 then
                  let bw2 := reinsertCollective bw1 outId (sizeT ii.1) addId arId
                  match typeFixCollective bw2 addId arId rem with
                  | none => none
                  | some (bw3, rem') => some (bw3, ag, ctr, rem')
                else
                  relocateCollective bw1 ag ctr rem addId arId ii.2

/-- The index loop of `GradAccCommDelay::RunOnModuleGroup`. -/
def runGroupIndices (outId : Nat) : List (Int × Int) →
    HloComputation × HloComputation × Int × List Nat →
    Option (HloComputation × HloComputation × Int × List Nat)
  | [], st => some st
  | ii :: iis, st =>
    match commDelayStep outId st ii with
    | none => none
    | some st' => runGroupIndices outId iis st'

/-- `GradAccCommDelay::RunOnModuleGroup` on a group of two modules
(producer = backward, consumer = apply-grad): when the toggle is off,
report `false`; otherwise check the index lists have equal length
(`CHECK_EQ`), seed the channel-id counter once from the consumer unit,
run the loop over the paired indices, remove the scheduled instructions
from the producer unit, and report `true`. -/
def gradAccCommDelayRun (ctx : PassContext) (mg : HloModule × HloModule) :
    Option ((HloModule × HloModule) × Bool) :=
  if ctx.rewriteForGradAcc = false then some (mg, false)
  else if ctx.rewriteIndices.length ≠ ctx.rewriteApplygradIndices.length
  then none
  else
    match runGroupIndices mg.1.entry.rootId
      (ctx.rewriteIndices.zip ctx.rewriteApplygradIndices)
      (mg.1.entry, mg.2.entry, nextChannelId mg.2, []) with
    | none => none
    | some (bw, ag, _, rem) =>
      some ((⟨rem.foldl HloComputation.removeInstructionIgnored bw⟩, ⟨ag⟩),
        true)


/-! ## Basic graph lemmas -/

/-- Well-formedness: every stored id is below the fresh-id counter. -/
def KeysLt (c : HloComputation) : Prop :=
  ∀ p ∈ c.insts, p.1 < c.nextId

instance (c : HloComputation) : Decidable (KeysLt c) :=
  inferInstanceAs (Decidable (∀ p ∈ c.insts, p.1 < c.nextId))

theorem lookup_eq_none_of_forall_ne {l : List (Nat × Instruction)} {k : Nat}
    (h : ∀ p ∈ l, p.1 ≠ k) : List.lookup k l = none := by
  induction l with
  | nil => rfl
  | cons a t ih =>
    obtain ⟨ak, av⟩ := a
    have ha : ak ≠ k := h (ak, av) (List.mem_cons_self _ t)
    have hb : (k == ak) = false := by
      simp
      exact fun hk => ha hk.symm
    simp only [List.lookup, hb]
    exact ih (fun p hp => h p (List.mem_cons_of_mem _ hp))

theorem lookup_append_left {l₁ l₂ : List (Nat × Instruction)} {k : Nat}
    {v : Instruction} (h : List.lookup k l₁ = some v) :
    List.lookup k (l₁ ++ l₂) = some v := by
  induction l₁ with
  | nil => simp [List.lookup] at h
  | cons a t ih =>
    obtain ⟨ak, av⟩ := a
    by_cases hk : (k == ak) = true
    · simp only [List.cons_append, List.lookup, hk] at h ⊢
      exact h
    · have hk' : (k == ak) = false := by
        cases hh : (k == ak) with
        | true => exact absurd hh hk
        | false => rfl
      simp only [List.cons_append, List.lookup, hk'] at h ⊢
      exact ih h

theorem lookup_append_right {l₁ l₂ : List (Nat × Instruction)} {k : Nat}
    (h : List.lookup k l₁ = none) :
    List.lookup k (l₁ ++ l₂) = List.lookup k l₂ := by
  induction l₁ with
  | nil => rfl
  | cons a t ih =>
    obtain ⟨ak, av⟩ := a
    cases hk : (k == ak) with
    | true =>
      simp only [List.lookup, hk] at h
      exact Option.noConfusion h
    | false =>
      simp only [List.lookup, hk] at h
      simp only [List.cons_append, List.lookup, hk]
      exact ih h

theorem find_addInstruction_old {c : HloComputation} {i : Instruction}
    {n : Nat} (h : n ≠ c.nextId) :
    (c.addInstruction i).1.find n = c.find n := by
  show List.lookup n (c.insts ++ [(c.nextId, i)]) = List.lookup n c.insts
  cases hl : List.lookup n c.insts with
  | some v => exact lookup_append_left hl
  | none =>
    rw [lookup_append_right hl]
    have hb : (n == c.nextId) = false := by
      simp
      exact h
    simp [List.lookup, hb]

theorem find_addInstruction_new {c : HloComputation} (i : Instruction)
    (hk : KeysLt c) :
    (c.addInstruction i).1.find c.nextId = some i := by
  show List.lookup c.nextId (c.insts ++ [(c.nextId, i)]) = some i
  have hl : List.lookup c.nextId c.insts = none :=
    lookup_eq_none_of_forall_ne (fun p hp => Nat.ne_of_lt (hk p hp))
  rw [lookup_append_right hl]
  simp [List.lookup]

theorem find_none_of_ge {c : HloComputation} {n : Nat} (hk : KeysLt c)
    (h : c.nextId ≤ n) : c.find n = none :=
  lookup_eq_none_of_forall_ne
    (fun p hp => Nat.ne_of_lt (Nat.lt_of_lt_of_le (hk p hp) h))

theorem lookup_map_key_preserving (l : List (Nat × Instruction))
    (g : Nat → Instruction → Instruction) (k : Nat) :
    List.lookup k (l.map (fun p => (p.1, g p.1 p.2))) =
      (List.lookup k l).map (g k) := by
  induction l with
  | nil => rfl
  | cons a t ih =>
    obtain ⟨ak, av⟩ := a
    by_cases hk : k = ak
    · subst hk
      simp only [List.map, List.lookup, beq_self_eq_true]
      rfl
    · have hb : (k == ak) = false := by
        simp
        exact hk
      simp only [List.map, List.lookup, hb]
      exact ih

theorem find_modifyInst (c : HloComputation) (n : Nat)
    (f : Instruction → Instruction) (k : Nat) :
    (c.modifyInst n f).find k =
      if k = n then (c.find n).map f else c.find k := by
  show List.lookup k (c.insts.map
      (fun p => if p.1 = n then (p.1, f p.2) else p)) = _
  have hmap : (fun p : Nat × Instruction =>
      if p.1 = n then (p.1, f p.2) else p) =
      (fun p : Nat × Instruction =>
        (p.1, if p.1 = n then f p.2 else p.2)) := by
    funext p
    by_cases h : p.1 = n
    · simp [h]
    · simp [h]
  rw [hmap,
    lookup_map_key_preserving c.insts (fun k v => if k = n then f v else v)]
  by_cases h : k = n
  · subst h
    simp [HloComputation.find]
  · simp [h, HloComputation.find]

theorem find_replaceAllUsesWith (c : HloComputation) (old new : Nat)
    (k : Nat) :
    (c.replaceAllUsesWith old new).find k =
      if k = new then c.find k
      else (c.find k).map (substOperands old new) := by
  show List.lookup k (c.insts.map _) = _
  have hmap : (fun p : Nat × Instruction =>
      if p.1 = new then p else (p.1, substOperands old new p.2)) =
      (fun p : Nat × Instruction =>
        (p.1, if p.1 = new then p.2 else substOperands old new p.2)) := by
    funext p
    obtain ⟨pk, pv⟩ := p
    by_cases h : pk = new
    · simp [h]
    · simp [h]
  rw [hmap, lookup_map_key_preserving c.insts
    (fun k v => if k = new then v else substOperands old new v)]
  by_cases h : k = new
  · subst h
    simp only [if_pos rfl, HloComputation.find]
    cases List.lookup k c.insts with
    | none => rfl
    | some v => simp
  · simp [h, HloComputation.find]

theorem lookup_filter_ne (l : List (Nat × Instruction)) (tgt k : Nat) :
    List.lookup k (l.filter (fun p => p.1 ≠ tgt)) =
      if k = tgt then none else List.lookup k l := by
  induction l with
  | nil => simp [List.lookup]
  | cons a t ih =>
    obtain ⟨ak, av⟩ := a
    by_cases ha : ak = tgt
    · have hc : (decide ((ak, av).1 ≠ tgt)) = false := by simp [ha]
      rw [List.filter_cons, hc, if_neg (by simp), ih]
      by_cases hk : k = tgt
      · simp [hk]
      · have hkak : (k == ak) = false := by
          simp
          intro h
          exact hk (by rw [h, ha])
        simp only [hk, if_neg, ite_false, List.lookup, hkak]
    · have hc : (decide ((ak, av).1 ≠ tgt)) = true := by simp [ha]
      rw [List.filter_cons, hc, if_pos rfl]
      cases hk : (k == ak) with
      | true =>
        have hkn : k = ak := by
          simpa using hk
        simp only [List.lookup, hk]
        have : ¬ k = tgt := by
          rw [hkn]
          exact ha
        simp [this]
      | false =>
        simp only [List.lookup, hk]
        exact ih

theorem removeIgnored_find_of_ne {c : HloComputation} {tgt k : Nat}
    (h : k ≠ tgt) :
    (c.removeInstructionIgnored tgt).find k = c.find k := by
  unfold HloComputation.removeInstructionIgnored
  cases hf : c.find tgt with
  | none => rfl
  | some i =>
    by_cases hcond : c.users tgt = [] ∧ tgt ≠ c.rootId ∧ i.opcode ≠ .parameter
    · dsimp only
      rw [if_pos hcond]
      show List.lookup k (c.insts.filter (fun p => p.1 ≠ tgt)) = _
      rw [lookup_filter_ne, if_neg h]
      rfl
    · dsimp only
      rw [if_neg hcond]

theorem removeIgnored_rootId (c : HloComputation) (tgt : Nat) :
    (c.removeInstructionIgnored tgt).rootId = c.rootId := by
  unfold HloComputation.removeInstructionIgnored
  cases hf : c.find tgt with
  | none => rfl
  | some i =>
    by_cases hcond : c.users tgt = [] ∧ tgt ≠ c.rootId ∧ i.opcode ≠ .parameter
    · simp [hcond]
    · simp [hcond]

theorem removeIgnored_find_rootId (c : HloComputation) (tgt : Nat) :
    (c.removeInstructionIgnored tgt).find c.rootId = c.find c.rootId := by
  by_cases h : c.rootId = tgt
  · unfold HloComputation.removeInstructionIgnored
    cases hf : c.find tgt with
    | none => rfl
    | some i =>
      have hcond : ¬ (c.users tgt = [] ∧ tgt ≠ c.rootId ∧
          i.opcode ≠ .parameter) := by
        intro hc
        exact hc.2.1 h.symm
      simp [hcond]
  · exact removeIgnored_find_of_ne h

/-! ## Shape and bridge lemmas -/

theorem compatibleShape_refl (s : Shape) : compatibleShape s s = true := by
  cases s <;> simp [compatibleShape]

theorem sameElementType_of_compatibleShape {a b : Shape}
    (h : compatibleShape a b = true) : sameElementType a b = true := by
  cases a <;> cases b <;>
    simp [compatibleShape, sameElementType, Shape.elementType] at h ⊢
  exact h.1

theorem compatibleShape_eq_false_of_sameET_false {a b : Shape}
    (h : sameElementType a b = false) : compatibleShape a b = false := by
  cases hc : compatibleShape a b with
  | false => rfl
  | true => rw [sameElementType_of_compatibleShape hc] at h; exact h

theorem maybeConvert_sameET {c : HloComputation} {src : Nat} {dst : Shape}
    (h : sameElementType (shapeOf c src) dst = true) :
    maybeConvert c src dst = (c, src) := by
  unfold maybeConvert
  rw [if_pos h]

theorem maybeConvert_not_sameET {c : HloComputation} {src : Nat} {dst : Shape}
    (h : sameElementType (shapeOf c src) dst = false) :
    maybeConvert c src dst = c.addInstruction
      (createConvert (changeElementType (shapeOf c src) dst.elementType)
        src) := by
  unfold maybeConvert
  rw [if_neg (by simp [h])]

theorem mrc_of_compatible {c : HloComputation} {src : Nat} {dst : Shape}
    (h : compatibleShape (shapeOf c src) dst = true) :
    maybeReshapeConvert c src dst = (c, src) := by
  unfold maybeReshapeConvert
  rw [if_pos h]

theorem mrc_not_compat_sameET {c : HloComputation} {src : Nat} {dst : Shape}
    (hc : compatibleShape (shapeOf c src) dst = false)
    (he : sameElementType (shapeOf c src) dst = true) :
    maybeReshapeConvert c src dst =
      c.addInstruction (createReshape dst src) := by
  unfold maybeReshapeConvert
  rw [if_neg (by simp [hc]), maybeConvert_sameET he]

theorem mrc_not_sameET {c : HloComputation} {src : Nat} {dst : Shape}
    (he : sameElementType (shapeOf c src) dst = false) :
    maybeReshapeConvert c src dst =
      (c.addInstruction (createConvert
        (changeElementType (shapeOf c src) dst.elementType) src)).1.addInstruction
        (createReshape dst c.nextId) := by
  unfold maybeReshapeConvert
  rw [if_neg (by simp [compatibleShape_eq_false_of_sameET_false he]),
    maybeConvert_not_sameET he]
  rfl

theorem keysLt_addInstruction {c : HloComputation} (i : Instruction)
    (hk : KeysLt c) : KeysLt (c.addInstruction i).1 := by
  intro p hp
  show p.1 < c.nextId + 1
  have : p ∈ c.insts ++ [(c.nextId, i)] := hp
  rcases List.mem_append.mp this with h | h
  · exact Nat.lt_succ_of_lt (hk p h)
  · simp at h
    rw [h]
    simp

theorem keysLt_modifyInst {c : HloComputation} (n : Nat)
    (f : Instruction → Instruction) (hk : KeysLt c) :
    KeysLt (c.modifyInst n f) := by
  intro p hp
  show p.1 < c.nextId
  have hp' : p ∈ c.insts.map (fun p => if p.1 = n then (p.1, f p.2) else p) :=
    hp
  simp only [List.mem_map] at hp'
  obtain ⟨q, hq, hpq⟩ := hp'
  have hlt := hk q hq
  subst hpq
  by_cases h : q.1 = n
  · simp [h]
    exact h ▸ hlt
  · simp [h]
    exact hlt

theorem mrc_keysLt {c : HloComputation} (src : Nat) (dst : Shape)
    (hk : KeysLt c) : KeysLt (maybeReshapeConvert c src dst).1 := by
  by_cases hc : compatibleShape (shapeOf c src) dst = true
  · rw [mrc_of_compatible hc]
    exact hk
  · have hc' : compatibleShape (shapeOf c src) dst = false := by
      cases h : compatibleShape (shapeOf c src) dst
      · rfl
      · exact absurd h hc
    by_cases he : sameElementType (shapeOf c src) dst = true
    · rw [mrc_not_compat_sameET hc' he]
      exact keysLt_addInstruction _ hk
    · have he' : sameElementType (shapeOf c src) dst = false := by
        cases h : sameElementType (shapeOf c src) dst
        · rfl
        · exact absurd h he
      rw [mrc_not_sameET he']
      exact keysLt_addInstruction _ (keysLt_addInstruction _ hk)

theorem mrc_nextId_le {c : HloComputation} (src : Nat) (dst : Shape) :
    c.nextId ≤ (maybeReshapeConvert c src dst).1.nextId := by
  by_cases hc : compatibleShape (shapeOf c src) dst = true
  · rw [mrc_of_compatible hc]
  · have hc' : compatibleShape (shapeOf c src) dst = false := by
      cases h : compatibleShape (shapeOf c src) dst
      · rfl
      · exact absurd h hc
    by_cases he : sameElementType (shapeOf c src) dst = true
    · rw [mrc_not_compat_sameET hc' he]
      exact Nat.le_succ _
    · have he' : sameElementType (shapeOf c src) dst = false := by
        cases h : sameElementType (shapeOf c src) dst
        · rfl
        · exact absurd h he
      rw [mrc_not_sameET he']
      show c.nextId ≤ c.nextId + 1 + 1
      omega

theorem mrc_find_old {c : HloComputation} {src : Nat} {dst : Shape}
    {n : Nat} (h : n < c.nextId) :
    (maybeReshapeConvert c src dst).1.find n = c.find n := by
  by_cases hc : compatibleShape (shapeOf c src) dst = true
  · rw [mrc_of_compatible hc]
  · have hc' : compatibleShape (shapeOf c src) dst = false := by
      cases hh : compatibleShape (shapeOf c src) dst
      · rfl
      · exact absurd hh hc
    by_cases he : sameElementType (shapeOf c src) dst = true
    · rw [mrc_not_compat_sameET hc' he]
      exact find_addInstruction_old (Nat.ne_of_lt h)
    · have he' : sameElementType (shapeOf c src) dst = false := by
        cases hh : sameElementType (shapeOf c src) dst
        · rfl
        · exact absurd hh he
      rw [mrc_not_sameET he']
      rw [find_addInstruction_old
        (show n ≠ c.nextId + 1 by omega)]
      exact find_addInstruction_old (Nat.ne_of_lt h)

theorem mrc_shape {c : HloComputation} (src : Nat) (dst : Shape)
    (hk : KeysLt c) :
    shapeOf (maybeReshapeConvert c src dst).1
        (maybeReshapeConvert c src dst).2 =
      if compatibleShape (shapeOf c src) dst = true then shapeOf c src
      else dst := by
  by_cases hc : compatibleShape (shapeOf c src) dst = true
  · rw [mrc_of_compatible hc, if_pos hc]
  · have hc' : compatibleShape (shapeOf c src) dst = false := by
      cases hh : compatibleShape (shapeOf c src) dst
      · rfl
      · exact absurd hh hc
    rw [if_neg hc]
    by_cases he : sameElementType (shapeOf c src) dst = true
    · rw [mrc_not_compat_sameET hc' he]
      unfold shapeOf
      rw [show (c.addInstruction (createReshape dst src)).2 = c.nextId from
        rfl]
      rw [find_addInstruction_new _ hk]
      rfl
    · have he' : sameElementType (shapeOf c src) dst = false := by
        cases hh : sameElementType (shapeOf c src) dst
        · rfl
        · exact absurd hh he
      rw [mrc_not_sameET he']
      rw [show ((c.addInstruction (createConvert
          (changeElementType (shapeOf c src) dst.elementType)
            src)).1.addInstruction (createReshape dst c.nextId)).2 =
        (c.addInstruction (createConvert
          (changeElementType (shapeOf c src) dst.elementType)
            src)).1.nextId from rfl]
      unfold shapeOf
      rw [find_addInstruction_new _
        (keysLt_addInstruction _ hk)]
      rfl

theorem mrc_ret_lt {c : HloComputation} {src : Nat} {dst : Shape}
    (hsrc : src < c.nextId) :
    (maybeReshapeConvert c src dst).2 <
      (maybeReshapeConvert c src dst).1.nextId := by
  by_cases hc : compatibleShape (shapeOf c src) dst = true
  · rw [mrc_of_compatible hc]
    exact hsrc
  · have hc' : compatibleShape (shapeOf c src) dst = false := by
      cases hh : compatibleShape (shapeOf c src) dst
      · rfl
      · exact absurd hh hc
    by_cases he : sameElementType (shapeOf c src) dst = true
    · rw [mrc_not_compat_sameET hc' he]
      exact Nat.lt_succ_self _
    · have he' : sameElementType (shapeOf c src) dst = false := by
        cases hh : sameElementType (shapeOf c src) dst
        · rfl
        · exact absurd hh he
      rw [mrc_not_sameET he']
      show c.nextId + 1 < c.nextId + 1 + 1
      omega

/-! ## Claims about the shape/type bridge (C5, C8) -/

/-- The spec's notion of structural compatibility (§4.2): equal rank and
dimension sizes, ignoring element types. -/
def structCompatible (a b : Shape) : Bool :=
  match a, b with
  | .array _ d, .array _ d' => d == d'
  | .tuple xs, .tuple ys => xs.map Prod.snd == ys.map Prod.snd
  | _, _ => false

/-- A one-node computation holding an `f16[4]` constant, used as a
concrete input for the bridge claims. -/
def cexBridge : HloComputation :=
  { insts := [(0,
      { opcode := .constant, shape := .array .f16 [4], operands := [] })],
    nextId := 1, rootId := 0 }

/-- C8: the node returned by the shape/type bridge always has a shape
`ShapeUtil::Compatible` (structurally and element-type compatible) with
the target, and consequently a second application of the bridge to that
result with the same target returns it unchanged and creates no node. -/
theorem grad_acc_bridge_compatible_idempotent (c : HloComputation)
    (src : Nat) (dst : Shape) (hk : KeysLt c) :
    compatibleShape
        (shapeOf (maybeReshapeConvert c src dst).1
          (maybeReshapeConvert c src dst).2) dst = true ∧
      maybeReshapeConvert (maybeReshapeConvert c src dst).1
          (maybeReshapeConvert c src dst).2 dst =
        ((maybeReshapeConvert c src dst).1,
          (maybeReshapeConvert c src dst).2) := by
  have h1 : compatibleShape
      (shapeOf (maybeReshapeConvert c src dst).1
        (maybeReshapeConvert c src dst).2) dst = true := by
    rw [mrc_shape src dst hk]
    by_cases hc : compatibleShape (shapeOf c src) dst = true
    · rw [if_pos hc]
      exact hc
    · rw [if_neg hc]
      exact compatibleShape_refl dst
  exact ⟨h1, mrc_of_compatible h1⟩

/-- Witness for C8 at a concrete computation and target shape. -/
theorem grad_acc_bridge_compatible_idempotent_witness :
    compatibleShape
        (shapeOf (maybeReshapeConvert cexBridge 0 (Shape.array .f32 [4])).1
          (maybeReshapeConvert cexBridge 0 (Shape.array .f32 [4])).2)
        (Shape.array .f32 [4]) = true ∧
      maybeReshapeConvert
          (maybeReshapeConvert cexBridge 0 (Shape.array .f32 [4])).1
          (maybeReshapeConvert cexBridge 0 (Shape.array .f32 [4])).2
          (Shape.array .f32 [4]) =
        ((maybeReshapeConvert cexBridge 0 (Shape.array .f32 [4])).1,
          (maybeReshapeConvert cexBridge 0 (Shape.array .f32 [4])).2) :=
  grad_acc_bridge_compatible_idempotent cexBridge 0 (Shape.array .f32 [4])
    (by decide)

/-- Counterexample to C5 as stated: on an `f16[4]` source bridged to an
`f32[4]` target (structurally compatible, element types differ), the
bridge creates two nodes — a convert and a reshape — and returns the
reshape, not "exactly one element-conversion node with no reshape". -/
theorem grad_acc_bridge_single_convert_counterexample :
    structCompatible (shapeOf cexBridge 0) (Shape.array .f32 [4]) = true ∧
      sameElementType (shapeOf cexBridge 0) (Shape.array .f32 [4]) = false ∧
      (maybeReshapeConvert cexBridge 0 (Shape.array .f32 [4])).1.insts.length
          = 3 ∧
      ((maybeReshapeConvert cexBridge 0 (Shape.array .f32 [4])).1.find
          (maybeReshapeConvert cexBridge 0 (Shape.array .f32 [4])).2).map
            Instruction.opcode = some .reshape := by
  decide

/-- C5 (amended): the bridge returns the source unchanged, creating no
node, exactly when source shape and element type both already match the
target (`ShapeUtil::Compatible`); when the shapes are structurally
compatible but the element types differ, it inserts two nodes — one
element-conversion node and one reshape node wrapping it (both in the
source's computation) — and returns the reshape. -/
theorem grad_acc_bridge_amended (c : HloComputation) (src : Nat)
    (dst : Shape) :
    (compatibleShape (shapeOf c src) dst = true →
      maybeReshapeConvert c src dst = (c, src)) ∧
    (structCompatible (shapeOf c src) dst = true →
      sameElementType (shapeOf c src) dst = false →
      maybeReshapeConvert c src dst =
        (c.addInstruction (createConvert
          (changeElementType (shapeOf c src) dst.elementType)
            src)).1.addInstruction (createReshape dst c.nextId)) := by
  constructor
  · intro hc
    exact mrc_of_compatible hc
  · intro _hstruct he
    exact mrc_not_sameET he

/-- Witness for the amended C5 at concrete inputs: both the no-op case and
the two-node case. -/
theorem grad_acc_bridge_amended_witness :
    maybeReshapeConvert cexBridge 0 (Shape.array .f16 [4]) = (cexBridge, 0) ∧
      maybeReshapeConvert cexBridge 0 (Shape.array .f32 [4]) =
        (cexBridge.addInstruction
          (createConvert (Shape.array .f32 [4]) 0)).1.addInstruction
          (createReshape (Shape.array .f32 [4]) 1) := by
  constructor
  · exact (grad_acc_bridge_amended cexBridge 0 (Shape.array .f16 [4])).1
      (by decide)
  · exact (grad_acc_bridge_amended cexBridge 0 (Shape.array .f32 [4])).2
      (by decide) (by decide)

/-! ## Claims about the run result and skip behaviour (C3, C6, C9) -/

/-- A two-output module: output 0 is `Add(p0, AllReduce(p1))` with the
collective having exactly one user, output 1 is a plain parameter. -/
def egSimple : HloModule :=
  ⟨{ insts := [
      (0,
        { opcode := .parameter, shape := .array .f32 [4], operands := [],
          paramNo := 0 }),
      (1,
        { opcode := .parameter, shape := .array .f32 [4], operands := [],
          paramNo := 1 }),
      (2,
        { opcode := .allReduce, shape := .array .f32 [4], operands := [1],
          channelId := some 7 }),
      (3, { opcode := .add, shape := .array .f32 [4], operands := [0, 2] }),
      (4,
        { opcode := .outTuple,
          shape := .tuple [(.f32, [4]), (.f32, [4])],
          operands := [3, 0] })],
     nextId := 5, rootId := 4 }⟩

/-- C3 (amended): the run reports `false` exactly when the feature toggle
is disabled (in which case the module is returned untouched); whenever the
toggle is enabled and the run completes, it reports `true`, whether or not
any requested index was actually rewritten. -/
theorem grad_acc_run_changed_amended (ctx : PassContext) (m : HloModule) :
    (ctx.rewriteForGradAcc = false →
      gradAccRewriteRun ctx m = some (m, false)) ∧
    (∀ m' b, ctx.rewriteForGradAcc = true →
      gradAccRewriteRun ctx m = some (m', b) → b = true) := by
  constructor
  · intro h
    unfold gradAccRewriteRun
    rw [if_pos h]
  · intro m' b htog hrun
    unfold gradAccRewriteRun at hrun
    rw [if_neg (by simp [htog])] at hrun
    cases hr : runIndices m.entry.rootId ctx.rewriteIndices (m.entry, []) with
    | none => rw [hr] at hrun; exact Option.noConfusion hrun
    | some st =>
      obtain ⟨c, rem⟩ := st
      rw [hr] at hrun
      simp at hrun
      exact hrun.2

/-- Witness for the amended C3: toggle off on a concrete module. -/
theorem grad_acc_run_changed_amended_witness :
    gradAccRewriteRun
        { rewriteForGradAcc := false, rewriteIndices := [0] } egSimple =
      some (egSimple, false) :=
  (grad_acc_run_changed_amended
    { rewriteForGradAcc := false, rewriteIndices := [0] } egSimple).1 rfl

/-- Counterexample to C3 as stated: with the toggle enabled and an empty
index list, no index is rewritten and the module is unchanged, yet the run
reports `true` rather than "no changes made". -/
theorem grad_acc_run_changed_counterexample :
    gradAccRewriteRun
        { rewriteForGradAcc := true, rewriteIndices := [] } egSimple =
      some (egSimple, true) := by
  decide

/-- C6 (amended): for an in-range requested index whose output-tuple
operand is not an Add, or whose chain match finds no collective, or whose
matched collective has more than one user, the iteration leaves the state
unchanged and raises no fatal error, and the loop continues with the next
index; an out-of-range index, by contrast, is an out-of-bounds operand
access (fatal).  Skips never affect the reported result. -/
theorem grad_acc_step_soft_skip (outId : Nat) (c : HloComputation)
    (rem : List Nat) (i : Int) (root : Instruction) (addId : Nat)
    (addIns : Instruction)
    (hroot : c.find outId = some root)
    (haddId : root.operands[sizeT i]? = some addId)
    (hadd : c.find addId = some addIns) :
    (addIns.opcode ≠ .add → gradAccStep outId (c, rem) i = some (c, rem)) ∧
    (∀ xId, addIns.opcode = .add → addIns.operands[1]? = some xId →
      getAllReduce c c.nextId xId = none →
      gradAccStep outId (c, rem) i = some (c, rem)) ∧
    (∀ xId arId, addIns.opcode = .add → addIns.operands[1]? = some xId →
      getAllReduce c c.nextId xId = some arId →
      (c.users arId).length ≠ 1 →
      gradAccStep outId (c, rem) i = some (c, rem)) ∧
    (gradAccStep outId (c, rem) i = some (c, rem) →
      ∀ is, runIndices outId (i :: is) (c, rem) =
        runIndices outId is (c, rem)) := by
  refine ⟨?_, ?_, ?_, ?_⟩
  · intro hop
    unfold gradAccStep
    dsimp only
    rw [hroot]
    simp only [haddId, hadd]
    rw [if_pos hop]
  · intro xId hop hx har
    unfold gradAccStep
    dsimp only
    rw [hroot]
    simp only [haddId, hadd]
    rw [if_neg (by simp [hop]), hx]
    dsimp only
    rw [har]
  · intro xId arId hop hx har husers
    unfold gradAccStep
    dsimp only
    rw [hroot]
    simp only [haddId, hadd]
    rw [if_neg (by simp [hop]), hx]
    dsimp only
    rw [har]
    dsimp only
    rw [if_pos husers]
  · intro hstep is
    show (match gradAccStep outId (c, rem) i with
      | none => none
      | some st' => runIndices outId is st') = runIndices outId is (c, rem)
    rw [hstep]

/-- Witness for the amended C6: index 1 of the concrete module is a
parameter, not an Add, so the step is a silent no-op and the loop moves
on. -/
theorem grad_acc_step_soft_skip_witness :
    gradAccStep 4 (egSimple.entry, []) 1 = some (egSimple.entry, []) ∧
      runIndices 4 [1] (egSimple.entry, []) =
        runIndices 4 [] (egSimple.entry, []) := by
  have h := grad_acc_step_soft_skip 4 egSimple.entry [] 1
    { opcode := .outTuple, shape := .tuple [(.f32, [4]), (.f32, [4])],
      operands := [3, 0] }
    0
    { opcode := .parameter, shape := .array .f32 [4], operands := [],
      paramNo := 0 }
    (by decide) (by decide) (by decide)
  have hstep := h.1 (by decide)
  exact ⟨hstep, h.2.2.2 hstep []⟩

/-- Counterexample to C6 as stated: requesting the out-of-range index 5 on
a two-output module is an out-of-bounds operand access, modelled as a
fatal abort (`none`), not a silent skip. -/
theorem grad_acc_out_of_range_counterexample :
    gradAccRewriteRun
        { rewriteForGradAcc := true, rewriteIndices := [5] } egSimple =
      none := by
  decide

/-- Fold characterization for `getGradSyncChannelIds`: the accumulated
option stays defined exactly when it starts defined and every tagged
all-reduce encountered carries a channel id. -/
theorem gradSync_fold_isSome (l : List (Nat × Instruction))
    (acc : Option String) :
    (l.foldl (fun acc p =>
      acc.bind (fun s =>
        if p.2.opcode = .allReduce ∧ p.2.metadataOpName = kSkippableAllReduce
        then (p.2.channelId).map (fun v => s ++ toString v ++ ".")
        else some s)) acc).isSome = true ↔
    (acc.isSome = true ∧ ∀ p ∈ l, p.2.opcode = .allReduce →
      p.2.metadataOpName = kSkippableAllReduce →
      p.2.channelId.isSome = true) := by
  induction l generalizing acc with
  | nil => simp
  | cons a t ih =>
    rw [List.foldl_cons, ih, List.forall_mem_cons]
    cases acc with
    | none => simp
    | some s =>
      show ((if a.2.opcode = .allReduce ∧
            a.2.metadataOpName = kSkippableAllReduce
          then (a.2.channelId).map (fun v => s ++ toString v ++ ".")
          else some s).isSome = true ∧ _) ↔ _
      by_cases hc : a.2.opcode = .allReduce ∧
          a.2.metadataOpName = kSkippableAllReduce
      · rw [if_pos hc]
        cases hch : a.2.channelId with
        | none =>
          constructor
          · rintro ⟨habs, -⟩
            exact absurd habs (by simp)
          · rintro ⟨-, hQa, -⟩
            exact absurd (hQa hc.1 hc.2) (by simp)
        | some v =>
          constructor
          · rintro ⟨-, ht⟩
            refine ⟨rfl, ?_, ht⟩
            intro h1 h2
            rfl
          · rintro ⟨-, -, ht⟩
            exact ⟨by simp [hch], ht⟩
      · rw [if_neg hc]
        constructor
        · rintro ⟨-, ht⟩
          exact ⟨rfl, fun h1 h2 => absurd ⟨h1, h2⟩ hc, ht⟩
        · rintro ⟨-, -, ht⟩
          exact ⟨rfl, ht⟩

/-- C9: the diagnostic channel-id string is defined exactly when every
all-reduce tagged with the elidable marker carries a channel id; a module
with a tagged all-reduce lacking one (which the data model permits) has no
defined result, because the source reads `channel_id().value()`
unconditionally. -/
theorem grad_sync_channel_ids_defined_iff (m : HloModule) :
    (getGradSyncChannelIds m).isSome = true ↔
      ∀ p ∈ m.entry.insts, p.2.opcode = .allReduce →
        p.2.metadataOpName = kSkippableAllReduce →
        p.2.channelId.isSome = true := by
  unfold getGradSyncChannelIds
  rw [gradSync_fold_isSome]
  simp

/-- A module whose entry holds one elidable-tagged all-reduce carrying a
channel id, and one without the tag. -/
def egTagged : HloModule :=
  ⟨{ insts := [
      (0,
        { opcode := .parameter, shape := .array .f32 [4], operands := [],
          paramNo := 0 }),
      (1,
        { opcode := .allReduce, shape := .array .f32 [4], operands := [0],
          metadataOpName := kSkippableAllReduce, channelId := some 7 })],
     nextId := 2, rootId := 1 }⟩

/-- Witness for C9 at a concrete module. -/
theorem grad_sync_channel_ids_defined_iff_witness :
    (getGradSyncChannelIds egTagged).isSome = true :=
  (grad_sync_channel_ids_defined_iff egTagged).mpr (by decide)

/-! ## The chain matcher (C2) -/

/-- Well-formedness: operands reference strictly smaller ids.  The graphs
this pass runs on are acyclic (§3 of the spec); ids record construction
order, so operands of a node always precede it. -/
def IdOrdered (c : HloComputation) : Prop :=
  ∀ p ∈ c.insts, ∀ o ∈ p.2.operands, o < p.1

instance (c : HloComputation) : Decidable (IdOrdered c) :=
  inferInstanceAs (Decidable (∀ p ∈ c.insts, ∀ o ∈ p.2.operands, o < p.1))

theorem lookup_mem {x : Nat} {i : Instruction} :
    ∀ {l : List (Nat × Instruction)}, List.lookup x l = some i →
      (x, i) ∈ l := by
  intro l
  induction l with
  | nil =>
    intro h
    exact absurd h (by simp [List.lookup])
  | cons a t ih =>
    intro h
    obtain ⟨ak, av⟩ := a
    cases hk : (x == ak) with
    | true =>
      simp only [List.lookup, hk] at h
      have hx : x = ak := by simpa using hk
      have hv : av = i := Option.some.inj h
      rw [hx, hv]
      exact List.mem_cons_self _ _
    | false =>
      simp only [List.lookup, hk] at h
      exact List.mem_cons_of_mem _ (ih h)

theorem find_mem {c : HloComputation} {x : Nat} {i : Instruction}
    (h : c.find x = some i) : (x, i) ∈ c.insts :=
  lookup_mem h

theorem operand_lt {c : HloComputation} (hord : IdOrdered c) {x y : Nat}
    {i : Instruction} (hf : c.find x = some i) (hy : y ∈ i.operands) :
    y < x :=
  hord (x, i) (find_mem hf) y hy

theorem operand_lt_of_getElem {c : HloComputation} (hord : IdOrdered c)
    {x y k : Nat} {i : Instruction} (hf : c.find x = some i)
    (hy : i.operands[k]? = some y) : y < x :=
  operand_lt hord hf (List.getElem?_mem hy)

theorem keysLt_lt_of_find {c : HloComputation} (hk : KeysLt c) {x : Nat}
    {i : Instruction} (hf : c.find x = some i) : x < c.nextId :=
  hk (x, i) (find_mem hf)

/-- Fuel irrelevance: on an id-ordered graph, any fuel above the start id
computes the same match. -/
theorem getAllReduce_fuel (c : HloComputation) (hord : IdOrdered c) :
    ∀ x fuel, x < fuel →
      getAllReduce c fuel x = getAllReduce c (x + 1) x := by
  intro x
  induction x using Nat.strong_induction_on with
  | _ x ih =>
    intro fuel hfuel
    obtain ⟨f, rfl⟩ : ∃ f, fuel = f + 1 := ⟨fuel - 1, by omega⟩
    show getAllReduce c (f + 1) x = getAllReduce c (x + 1) x
    simp only [getAllReduce]
    cases hf : c.find x with
    | none => rfl
    | some i =>
      dsimp only
      cases hop : i.opcode <;> try rfl
      case convert | reshape | copy | bitcast | transpose =>
        cases hy : i.operands[0]? with
        | none => rfl
        | some y =>
          dsimp only
          have hyx : y < x := operand_lt_of_getElem hord hf hy
          rw [ih y hyx f (by omega), ih y hyx x (by omega)]
      case multiply =>
        cases ha : i.operands[0]? with
        | none => rfl
        | some a =>
          cases hb : i.operands[1]? with
          | none => rfl
          | some b =>
            dsimp only
            have hax : a < x := operand_lt_of_getElem hord hf ha
            have hbx : b < x := operand_lt_of_getElem hord hf hb
            rw [ih a hax f (by omega), ih a hax x (by omega),
              ih b hbx f (by omega), ih b hbx x (by omega)]

/-- One-step unfolding of the chain matcher at full fuel, on id-ordered
graphs. -/
theorem getAllReduce_unfold (c : HloComputation) (hk : KeysLt c)
    (hord : IdOrdered c) {x : Nat} {i : Instruction}
    (hf : c.find x = some i) :
    getAllReduce c c.nextId x =
      (match i.opcode with
       | .allReduce => some x
       | .convert | .reshape | .copy | .bitcast | .transpose =>
         (match i.operands[0]? with
          | some y => getAllReduce c c.nextId y
          | none => none)
       | .multiply =>
         (match i.operands[0]?, i.operands[1]? with
          | some a, some b =>
            (match getAllReduce c c.nextId a, getAllReduce c c.nextId b with
             | some l, none => some l
             | none, some r => some r
             | _, _ => none)
          | _, _ => none)
       | _ => none) := by
  have hx : x < c.nextId := keysLt_lt_of_find hk hf
  obtain ⟨f, hnf⟩ : ∃ f, c.nextId = f + 1 := ⟨c.nextId - 1, by omega⟩
  have hfuel : ∀ y, y < x → getAllReduce c f y = getAllReduce c c.nextId y :=
    by
    intro y hy
    rw [getAllReduce_fuel c hord y f (by omega),
      getAllReduce_fuel c hord y c.nextId (by omega)]
  conv_lhs => rw [hnf]
  show getAllReduce c (f + 1) x = _
  simp only [getAllReduce]
  rw [hf]
  dsimp only
  cases hop : i.opcode <;> dsimp only
  case convert | reshape | copy | bitcast | transpose =>
    cases hy : i.operands[0]? with
    | none => rfl
    | some y =>
      dsimp only
      exact hfuel y (operand_lt_of_getElem hord hf hy)
  case multiply =>
    cases ha : i.operands[0]? with
    | none => rfl
    | some a =>
      cases hb : i.operands[1]? with
      | none => rfl
      | some b =>
        dsimp only
        rw [hfuel a (operand_lt_of_getElem hord hf ha),
          hfuel b (operand_lt_of_getElem hord hf hb)]

/-- C2: the chain matcher is a pure traversal whose result is determined
opcode by opcode: an all-reduce resolves to itself; the five pass-through
opcodes resolve to whatever operand 0 resolves to; a multiply resolves to
the unique side that resolves when exactly one side does, and to nothing
when both or neither resolve; every other opcode resolves to nothing. -/
theorem getAllReduce_characterization (c : HloComputation) (hk : KeysLt c)
    (hord : IdOrdered c) :
    (∀ x i, c.find x = some i → i.opcode = .allReduce →
      getAllReduce c c.nextId x = some x) ∧
    (∀ x i y, c.find x = some i →
      (i.opcode = .convert ∨ i.opcode = .reshape ∨ i.opcode = .copy ∨
        i.opcode = .bitcast ∨ i.opcode = .transpose) →
      i.operands[0]? = some y →
      getAllReduce c c.nextId x = getAllReduce c c.nextId y) ∧
    (∀ x i a b, c.find x = some i → i.opcode = .multiply →
      i.operands[0]? = some a → i.operands[1]? = some b →
      (∀ r, getAllReduce c c.nextId a = some r →
        getAllReduce c c.nextId b = none →
        getAllReduce c c.nextId x = some r) ∧
      (∀ r, getAllReduce c c.nextId b = some r →
        getAllReduce c c.nextId a = none →
        getAllReduce c c.nextId x = some r) ∧
      ((getAllReduce c c.nextId a).isSome =
          (getAllReduce c c.nextId b).isSome →
        getAllReduce c c.nextId x = none)) ∧
    (∀ x i, c.find x = some i →
      i.opcode ≠ .allReduce → i.opcode ≠ .convert → i.opcode ≠ .reshape →
      i.opcode ≠ .copy → i.opcode ≠ .bitcast → i.opcode ≠ .transpose →
      i.opcode ≠ .multiply → getAllReduce c c.nextId x = none) := by
  refine ⟨?_, ?_, ?_, ?_⟩
  · intro x i hf hop
    rw [getAllReduce_unfold c hk hord hf, hop]
  · intro x i y hf hop hy
    rw [getAllReduce_unfold c hk hord hf]
    rcases hop with h | h | h | h | h <;> rw [h] <;> dsimp only <;>
      rw [hy]
  · intro x i a b hf hop ha hb
    rw [getAllReduce_unfold c hk hord hf, hop]
    dsimp only
    rw [ha, hb]
    dsimp only
    refine ⟨?_, ?_, ?_⟩
    · intro r hra hrb
      rw [hra, hrb]
    · intro r hrb hra
      rw [hra, hrb]
    · intro hsome
      cases hra : getAllReduce c c.nextId a with
      | none =>
        cases hrb : getAllReduce c c.nextId b with
        | none => rfl
        | some rb =>
          rw [hra, hrb] at hsome
          exact absurd hsome (by simp)
      | some ra =>
        cases hrb : getAllReduce c c.nextId b with
        | none =>
          rw [hra, hrb] at hsome
          exact absurd hsome (by simp)
        | some rb => rfl
  · intro x i hf h1 h2 h3 h4 h5 h6 h7
    rw [getAllReduce_unfold c hk hord hf]
    cases hop : i.opcode <;> first
      | rfl
      | exact absurd hop (by assumption)

/-- Witness for C2: the pass-through and all-reduce clauses evaluated on a
concrete chain `convert → allReduce`. -/
theorem getAllReduce_characterization_witness :
    getAllReduce egSimple.entry egSimple.entry.nextId 2 = some 2 ∧
      getAllReduce egSimple.entry egSimple.entry.nextId 0 = none := by
  have h := getAllReduce_characterization egSimple.entry (by decide)
    (by decide)
  constructor
  · exact h.1 2
      { opcode := .allReduce, shape := .array .f32 [4], operands := [1],
        channelId := some 7 }
      (by decide) rfl
  · exact h.2.2.2 0
      { opcode := .parameter, shape := .array .f32 [4], operands := [],
        paramNo := 0 }
      (by decide) (by decide) (by decide) (by decide) (by decide)
      (by decide) (by decide) (by decide)

/-! ## Well-formed graphs and users lemmas -/

/-- Well-formedness: stored ids are pairwise distinct. -/
def NodupKeys (c : HloComputation) : Prop :=
  (c.insts.map Prod.fst).Nodup

instance (c : HloComputation) : Decidable (NodupKeys c) :=
  inferInstanceAs (Decidable ((c.insts.map Prod.fst).Nodup))

/-- A well-formed instruction graph: ids below the counter, distinct, and
operands pointing strictly downward (acyclicity, §3 of the spec). -/
def WfGraph (c : HloComputation) : Prop :=
  KeysLt c ∧ NodupKeys c ∧ IdOrdered c

instance (c : HloComputation) : Decidable (WfGraph c) :=
  inferInstanceAs (Decidable (KeysLt c ∧ NodupKeys c ∧ IdOrdered c))

theorem nodup_addInstruction {c : HloComputation} (i : Instruction)
    (hk : KeysLt c) (hn : NodupKeys c) :
    NodupKeys (c.addInstruction i).1 := by
  show ((c.insts ++ [(c.nextId, i)]).map Prod.fst).Nodup
  rw [List.map_append]
  simp only [List.map]
  rw [List.nodup_append]
  refine ⟨hn, List.nodup_singleton _, ?_⟩
  intro a ha hb
  simp at hb
  subst hb
  simp only [List.mem_map] at ha
  obtain ⟨p, hp, hpa⟩ := ha
  exact absurd (hpa ▸ hk p hp) (by omega)

theorem nodup_modifyInst {c : HloComputation} (n : Nat)
    (f : Instruction → Instruction) (hn : NodupKeys c) :
    NodupKeys (c.modifyInst n f) := by
  show ((c.insts.map fun p => if p.1 = n then (p.1, f p.2) else p).map
    Prod.fst).Nodup
  have : ((c.insts.map fun p => if p.1 = n then (p.1, f p.2) else p).map
      Prod.fst) = c.insts.map Prod.fst := by
    rw [List.map_map]
    apply List.map_congr_left
    intro p _
    by_cases h : p.1 = n <;> simp [h]
  rw [this]
  exact hn

theorem users_eq_nil_iff (c : HloComputation) (n : Nat) :
    c.users n = [] ↔ ∀ p ∈ c.insts, n ∉ p.2.operands := by
  unfold HloComputation.users
  rw [List.map_eq_nil_iff, List.filter_eq_nil_iff]
  simp

theorem find_of_mem {c : HloComputation} (hn : NodupKeys c)
    {p : Nat × Instruction} (hp : p ∈ c.insts) : c.find p.1 = some p.2 := by
  have : ∀ l : List (Nat × Instruction), (l.map Prod.fst).Nodup →
      p ∈ l → List.lookup p.1 l = some p.2 := by
    intro l
    induction l with
    | nil => intro _ h; exact absurd h (List.not_mem_nil p)
    | cons a t ih =>
      intro hnd hmem
      obtain ⟨ak, av⟩ := a
      rcases List.mem_cons.mp hmem with h | h
      · rw [h]
        simp [List.lookup]
      · have hppt : p.1 ∈ t.map Prod.fst := List.mem_map_of_mem Prod.fst h
        have hnd' : (ak :: t.map Prod.fst).Nodup := hnd
        have hcons := List.nodup_cons.mp hnd'
        have hne : (p.1 == ak) = false := by
          simp
          intro hpk
          exact hcons.1 (hpk ▸ hppt)
        simp only [List.lookup, hne]
        exact ih hcons.2 h

  exact this c.insts hn hp

/-- If the user list of `n` is exactly `[uId]`, then on a nodup graph the
node stored at `uId` mentions `n`, and no other node does. -/
theorem users_singleton_spec {c : HloComputation} (hn : NodupKeys c)
    {n uId : Nat} (h : c.users n = [uId]) :
    (∃ u, c.find uId = some u ∧ n ∈ u.operands) ∧
      ∀ p ∈ c.insts, p.1 ≠ uId → n ∉ p.2.operands := by
  unfold HloComputation.users at h
  have hfil : ∀ q ∈ c.insts.filter (fun p => n ∈ p.2.operands),
      q ∈ c.insts ∧ n ∈ q.2.operands := by
    intro q hq
    have := List.mem_filter.mp hq
    exact ⟨this.1, by simpa using this.2⟩
  cases hl : c.insts.filter (fun p => n ∈ p.2.operands) with
  | nil => rw [hl] at h; exact absurd h (by simp)
  | cons q t =>
    rw [hl] at h
    simp only [List.map] at h
    have hq1 : q.1 = uId := (List.cons.inj h).1
    have ht : t.map Prod.fst = [] := (List.cons.inj h).2
    have htnil : t = [] := List.map_eq_nil_iff.mp ht
    have hqmem : q ∈ c.insts ∧ n ∈ q.2.operands := by
      apply hfil
      rw [hl]
      exact List.mem_cons_self _ _
    constructor
    · exact ⟨q.2, by rw [← hq1]; exact find_of_mem hn hqmem.1, hqmem.2⟩
    · intro p hp hpne hmem
      have hpf : p ∈ c.insts.filter (fun p => n ∈ p.2.operands) :=
        List.mem_filter.mpr ⟨hp, by simpa using hmem⟩
      rw [hl, htnil] at hpf
      simp at hpf
      exact hpne (by rw [hpf]; exact hq1)

/-- Fresh nodes created by the bridge are reshape or convert nodes whose
single operand is the source or the first fresh id. -/
theorem mrc_fresh {c : HloComputation} {src : Nat} {dst : Shape}
    (hk : KeysLt c) :
    ∀ n i, (maybeReshapeConvert c src dst).1.find n = some i →
      c.nextId ≤ n →
      (i.opcode = .reshape ∨ i.opcode = .convert) ∧
        (i.operands = [src] ∨ i.operands = [c.nextId]) := by
  intro n i hf hge
  by_cases hc : compatibleShape (shapeOf c src) dst = true
  · rw [mrc_of_compatible hc] at hf
    exact absurd hf (by rw [find_none_of_ge hk hge]; simp)
  · have hc' : compatibleShape (shapeOf c src) dst = false := by
      cases hh : compatibleShape (shapeOf c src) dst
      · rfl
      · exact absurd hh hc
    by_cases he : sameElementType (shapeOf c src) dst = true
    · rw [mrc_not_compat_sameET hc' he] at hf
      by_cases hne : n = c.nextId
      · subst hne
        rw [find_addInstruction_new _ hk] at hf
        have : i = createReshape dst src := (Option.some.inj hf).symm
        rw [this]
        exact ⟨Or.inl rfl, Or.inl rfl⟩
      · rw [find_addInstruction_old hne] at hf
        exact absurd hf (by rw [find_none_of_ge hk (by omega)]; simp)
    · have he' : sameElementType (shapeOf c src) dst = false := by
        cases hh : sameElementType (shapeOf c src) dst
        · rfl
        · exact absurd hh he
      rw [mrc_not_sameET he'] at hf
      by_cases hne : n = c.nextId
      · subst hne
        rw [find_addInstruction_old (by show c.nextId ≠ c.nextId + 1; omega),
          find_addInstruction_new _ hk] at hf
        have : i = createConvert
            (changeElementType (shapeOf c src) dst.elementType) src :=
          (Option.some.inj hf).symm
        rw [this]
        exact ⟨Or.inr rfl, Or.inl rfl⟩
      · by_cases hne2 : n = c.nextId + 1
        · subst hne2
          have : ((c.addInstruction (createConvert
              (changeElementType (shapeOf c src) dst.elementType)
                src)).1.addInstruction
              (createReshape dst c.nextId)).1.find (c.nextId + 1) =
              some (createReshape dst c.nextId) :=
            find_addInstruction_new _ (keysLt_addInstruction _ hk)
          rw [this] at hf
          have hi : i = createReshape dst c.nextId :=
            (Option.some.inj hf).symm
          rw [hi]
          exact ⟨Or.inl rfl, Or.inr rfl⟩
        · rw [find_addInstruction_old hne2, find_addInstruction_old hne]
            at hf
          exact absurd hf (by rw [find_none_of_ge hk (by omega)]; simp)

theorem mrc_ret_cases (c : HloComputation) (src : Nat) (dst : Shape) :
    (maybeReshapeConvert c src dst).2 = src ∨
      c.nextId ≤ (maybeReshapeConvert c src dst).2 := by
  by_cases hc : compatibleShape (shapeOf c src) dst = true
  · rw [mrc_of_compatible hc]
    exact Or.inl rfl
  · have hc' : compatibleShape (shapeOf c src) dst = false := by
      cases hh : compatibleShape (shapeOf c src) dst
      · rfl
      · exact absurd hh hc
    by_cases he : sameElementType (shapeOf c src) dst = true
    · rw [mrc_not_compat_sameET hc' he]
      exact Or.inr (Nat.le_refl _)
    · have he' : sameElementType (shapeOf c src) dst = false := by
        cases hh : sameElementType (shapeOf c src) dst
        · rfl
        · exact absurd hh he
      rw [mrc_not_sameET he']
      exact Or.inr (by show c.nextId ≤ c.nextId + 1; omega)

theorem mrc_rootId (c : HloComputation) (src : Nat) (dst : Shape) :
    (maybeReshapeConvert c src dst).1.rootId = c.rootId := by
  by_cases hc : compatibleShape (shapeOf c src) dst = true
  · rw [mrc_of_compatible hc]
  · have hc' : compatibleShape (shapeOf c src) dst = false := by
      cases hh : compatibleShape (shapeOf c src) dst
      · rfl
      · exact absurd hh hc
    by_cases he : sameElementType (shapeOf c src) dst = true
    · rw [mrc_not_compat_sameET hc' he]
      rfl
    · have he' : sameElementType (shapeOf c src) dst = false := by
        cases hh : sameElementType (shapeOf c src) dst
        · rfl
        · exact absurd hh he
      rw [mrc_not_sameET he']
      rfl

theorem mrc_nodup {c : HloComputation} (src : Nat) (dst : Shape)
    (hk : KeysLt c) (hn : NodupKeys c) :
    NodupKeys (maybeReshapeConvert c src dst).1 := by
  by_cases hc : compatibleShape (shapeOf c src) dst = true
  · rw [mrc_of_compatible hc]
    exact hn
  · have hc' : compatibleShape (shapeOf c src) dst = false := by
      cases hh : compatibleShape (shapeOf c src) dst
      · rfl
      · exact absurd hh hc
    by_cases he : sameElementType (shapeOf c src) dst = true
    · rw [mrc_not_compat_sameET hc' he]
      exact nodup_addInstruction _ hk hn
    · have he' : sameElementType (shapeOf c src) dst = false := by
        cases hh : sameElementType (shapeOf c src) dst
        · rfl
        · exact absurd hh he
      rw [mrc_not_sameET he']
      exact nodup_addInstruction _ (keysLt_addInstruction _ hk)
        (nodup_addInstruction _ hk hn)

/-- Everything the later phases need to know about the detach fold: the
user keeps its opcode, shape and arity with all processed collective slots
cleared, every other pre-existing node is untouched, well-formedness is
preserved, and all fresh nodes are bridge nodes that do not mention the
collective. -/
def DetachOut (uId arId : Nat) (c : HloComputation) (u : Instruction)
    (ks : List Nat) (c' : HloComputation) : Prop :=
  (∃ u', c'.find uId = some u' ∧
    u'.opcode = u.opcode ∧ u'.shape = u.shape ∧
    u'.operands.length = u.operands.length ∧
    (∀ k, k ∉ ks → u'.operands[k]? = u.operands[k]?) ∧
    (∀ k, k ∈ ks → u'.operands[k]? ≠ some arId)) ∧
  c.nextId ≤ c'.nextId ∧ c'.rootId = c.rootId ∧
  (∀ n, n < c.nextId → n ≠ uId → c'.find n = c.find n) ∧
  KeysLt c' ∧ NodupKeys c' ∧
  (∀ n i, c'.find n = some i → c.nextId ≤ n →
    (i.opcode = .reshape ∨ i.opcode = .convert) ∧ arId ∉ i.operands)

theorem detach_go (uId arId : Nat) (hne : arId ≠ uId) :
    ∀ ks : List Nat, ks.Nodup →
    ∀ (c : HloComputation) (u : Instruction),
      c.find uId = some u → KeysLt c → NodupKeys c → arId < c.nextId →
      (opnd c arId 0).getD 0 ≠ arId →
      DetachOut uId arId c u ks (ks.foldl (detachStep uId arId) c) := by
  intro ks
  induction ks with
  | nil =>
    intro _ c u hf hk hn har hsrc
    simp only [List.foldl_nil]
    refine ⟨⟨u, hf, rfl, rfl, rfl, fun k _ => rfl,
      fun k hk => absurd hk (List.not_mem_nil k)⟩,
      Nat.le_refl _, rfl, fun n _ _ => rfl, hk, hn, ?_⟩
    intro n i hfi hge
    rw [find_none_of_ge hk hge] at hfi
    exact Option.noConfusion hfi
  | cons k ks ih =>
    intro hnodup c u hf hk hn har hsrc
    have hknotin : k ∉ ks := (List.nodup_cons.mp hnodup).1
    have hksnd : ks.Nodup := (List.nodup_cons.mp hnodup).2
    rw [List.foldl_cons]
    by_cases hcase : opnd c uId k = some arId
    · -- the slot holds the collective: bridge + rewire, then recurse
      have hUlt : uId < c.nextId := keysLt_lt_of_find hk hf
      have hstep : detachStep uId arId c k =
          (maybeReshapeConvert c ((opnd c arId 0).getD 0)
            (shapeOf c arId)).1.replaceOperandWith uId k
            (maybeReshapeConvert c ((opnd c arId 0).getD 0)
              (shapeOf c arId)).2 := by
        unfold detachStep
        rw [if_pos hcase]
      set b := (maybeReshapeConvert c ((opnd c arId 0).getD 0)
        (shapeOf c arId)).2 with hbdef
      set m1 := (maybeReshapeConvert c ((opnd c arId 0).getD 0)
        (shapeOf c arId)).1 with hm1def
      set c1 := m1.replaceOperandWith uId k b with hc1def
      rw [hstep]
      have hb : b ≠ arId := by
        rcases mrc_ret_cases c ((opnd c arId 0).getD 0) (shapeOf c arId)
          with h | h
        · rw [hbdef, h]
          exact hsrc
        · rw [hbdef]
          omega
      have hfu1 : c1.find uId =
          some { u with operands := u.operands.set k b } := by
        rw [hc1def]
        unfold HloComputation.replaceOperandWith
        rw [find_modifyInst, if_pos rfl, hm1def, mrc_find_old hUlt, hf]
        rfl
      have hkeys1 : KeysLt c1 := by
        rw [hc1def]
        exact keysLt_modifyInst _ _ (by rw [hm1def]; exact mrc_keysLt _ _ hk)
      have hnod1 : NodupKeys c1 := by
        rw [hc1def]
        exact nodup_modifyInst _ _ (by rw [hm1def]; exact mrc_nodup _ _ hk hn)
      have hnext1 : c.nextId ≤ c1.nextId := by
        rw [hc1def]
        show c.nextId ≤ m1.nextId
        rw [hm1def]
        exact mrc_nextId_le _ _
      have hroot1 : c1.rootId = c.rootId := by
        rw [hc1def]
        show m1.rootId = c.rootId
        rw [hm1def]
        exact mrc_rootId _ _ _
      have hold1 : ∀ n, n < c.nextId → n ≠ uId → c1.find n = c.find n := by
        intro n hlt hnu
        rw [hc1def]
        unfold HloComputation.replaceOperandWith
        rw [find_modifyInst, if_neg hnu, hm1def]
        exact mrc_find_old hlt
      have harfind : c1.find arId = c.find arId := hold1 arId har hne
      have hsrc1 : (opnd c1 arId 0).getD 0 = (opnd c arId 0).getD 0 := by
        unfold opnd
        rw [harfind]
      have hfresh1 : ∀ n i, c1.find n = some i → c.nextId ≤ n →
          (i.opcode = .reshape ∨ i.opcode = .convert) ∧
            arId ∉ i.operands := by
        intro n i hfi hge
        rw [hc1def] at hfi
        unfold HloComputation.replaceOperandWith at hfi
        rw [find_modifyInst, if_neg (by omega : n ≠ uId), hm1def] at hfi
        have := mrc_fresh hk n i hfi hge
        refine ⟨this.1, ?_⟩
        rcases this.2 with hops | hops <;> rw [hops] <;> simp
        · exact fun hh => hsrc hh.symm
        · omega
      have IH := ih hksnd c1 { u with operands := u.operands.set k b }
        hfu1 hkeys1 hnod1 (by omega) (by rw [hsrc1]; exact hsrc)
      obtain ⟨⟨u', hfu', hop', hsh', hlen', huntouched', hmem'⟩,
        hnext', hroot', hold', hkeys', hnod', hfresh'⟩ := IH
      refine ⟨⟨u', hfu', ?_, ?_, ?_, ?_, ?_⟩, ?_, ?_, ?_, hkeys', hnod', ?_⟩
      · exact hop'
      · exact hsh'
      · rw [hlen']
        exact List.length_set u.operands k b
      · intro k' hk'
        have hk'ks : k' ∉ ks := fun h => hk' (List.mem_cons_of_mem _ h)
        have hk'k : k' ≠ k := fun h => hk' (h ▸ List.mem_cons_self _ _)
        rw [huntouched' k' hk'ks]
        show (u.operands.set k b)[k']? = u.operands[k']?
        exact List.getElem?_set_ne (fun h => hk'k h.symm)
      · intro k' hk'
        rcases List.mem_cons.mp hk' with h | h
        · subst h
          rw [huntouched' k' hknotin]
          show (u.operands.set k' b)[k']? ≠ some arId
          by_cases hlen : k' < u.operands.length
          · rw [List.getElem?_set_self hlen]
            intro hcontra
            exact hb (Option.some.inj hcontra)
          · rw [List.getElem?_eq_none (by
              rw [List.length_set]
              omega)]
            simp
        · exact hmem' k' h
      · omega
      · rw [hroot', hroot1]
      · intro n hlt hnu
        rw [hold' n (by omega) hnu]
        exact hold1 n hlt hnu
      · intro n i hfi hge
        by_cases hge1 : c1.nextId ≤ n
        · exact hfresh' n i hfi hge1
        · have : n ≠ uId := by omega
          rw [hold' n (by omega) this] at hfi
          exact hfresh1 n i hfi hge
    · -- the slot does not hold the collective: nothing happens
      have hstep : detachStep uId arId c k = c := by
        unfold detachStep
        rw [if_neg hcase]
      rw [hstep]
      have IH := ih hksnd c u hf hk hn har hsrc
      obtain ⟨⟨u', hfu', hop', hsh', hlen', huntouched', hmem'⟩,
        hnext', hroot', hold', hkeys', hnod', hfresh'⟩ := IH
      refine ⟨⟨u', hfu', hop', hsh', hlen', ?_, ?_⟩,
        hnext', hroot', hold', hkeys', hnod', hfresh'⟩
      · intro k' hk'
        exact huntouched' k' (fun h => hk' (List.mem_cons_of_mem _ h))
      · intro k' hk'
        rcases List.mem_cons.mp hk' with h | h
        · subst h
          rw [huntouched' k' hknotin]
          intro hcontra
          apply hcase
          unfold opnd
          rw [hf]
          exact hcontra
        · exact hmem' k' h

/-! ## Bridged dataflow paths -/

/-- `BridgedTo c x y`: node `x` is `y` seen through zero or more bridge
nodes (reshape or convert, following their single operand). -/
inductive BridgedTo (c : HloComputation) : Nat → Nat → Prop
  | refl (x : Nat) : BridgedTo c x x
  | step (x y z : Nat) (i : Instruction) (hf : c.find x = some i)
      (hop : i.opcode = .reshape ∨ i.opcode = .convert)
      (hops : i.operands = [y]) (h : BridgedTo c y z) : BridgedTo c x z

theorem BridgedTo.trans {c : HloComputation} {x y z : Nat}
    (h1 : BridgedTo c x y) (h2 : BridgedTo c y z) : BridgedTo c x z := by
  induction h1 with
  | refl => exact h2
  | step x y' z' i hf hop hops _ ih =>
    exact BridgedTo.step x y' z i hf hop hops (ih h2)

theorem substOperands_id {old new : Nat} {i : Instruction}
    (h : old ∉ i.operands) : substOperands old new i = i := by
  unfold substOperands
  have heach : ∀ o ∈ i.operands, (if o = old then new else o) = id o := by
    intro o ho
    rw [if_neg]
    · rfl
    · intro hc
      rw [hc] at ho
      exact h ho
  rw [List.map_congr_left heach, List.map_id]

/-- The bridge's return value reaches the source through bridge nodes, in
any later graph that still agrees with the bridge's output on the freshly
created ids. -/
theorem mrc_bridgedTo {c : HloComputation} (src : Nat) (dst : Shape)
    (hk : KeysLt c) :
    ∀ g : HloComputation,
      (∀ n, c.nextId ≤ n → n < (maybeReshapeConvert c src dst).1.nextId →
        g.find n = (maybeReshapeConvert c src dst).1.find n) →
      BridgedTo g (maybeReshapeConvert c src dst).2 src := by
  intro g hg
  by_cases hc : compatibleShape (shapeOf c src) dst = true
  · rw [mrc_of_compatible hc]
    exact BridgedTo.refl src
  · have hc' : compatibleShape (shapeOf c src) dst = false := by
      cases hh : compatibleShape (shapeOf c src) dst
      · rfl
      · exact absurd hh hc
    by_cases he : sameElementType (shapeOf c src) dst = true
    · rw [mrc_not_compat_sameET hc' he] at hg ⊢
      have hfind : g.find c.nextId = some (createReshape dst src) := by
        rw [hg c.nextId (Nat.le_refl _) (by
          show c.nextId < c.nextId + 1
          omega)]
        exact find_addInstruction_new _ hk
      exact BridgedTo.step _ src src _ hfind (Or.inl rfl) rfl
        (BridgedTo.refl src)
    · have he' : sameElementType (shapeOf c src) dst = false := by
        cases hh : sameElementType (shapeOf c src) dst
        · rfl
        · exact absurd hh he
      rw [mrc_not_sameET he'] at hg ⊢
      have hnext2 : ((c.addInstruction (createConvert
          (changeElementType (shapeOf c src) dst.elementType)
            src)).1.addInstruction (createReshape dst c.nextId)).1.nextId =
          c.nextId + 2 := rfl
      have hfind2 : g.find (c.nextId + 1) =
          some (createReshape dst c.nextId) := by
        rw [hg (c.nextId + 1) (by omega) (by rw [hnext2]; omega)]
        exact find_addInstruction_new _ (keysLt_addInstruction _ hk)
      have hfind1 : g.find c.nextId = some (createConvert
          (changeElementType (shapeOf c src) dst.elementType) src) := by
        rw [hg c.nextId (Nat.le_refl _) (by rw [hnext2]; omega)]
        rw [find_addInstruction_old
          (by show c.nextId ≠ c.nextId + 1; omega)]
        exact find_addInstruction_new _ hk
      exact BridgedTo.step _ c.nextId src _ hfind2 (Or.inl rfl) rfl
        (BridgedTo.step _ src src _ hfind1 (Or.inr rfl) rfl
          (BridgedTo.refl src))

/-! ## Chain matcher descent facts -/

theorem getAllReduce_le {c : HloComputation} (hord : IdOrdered c) :
    ∀ fuel x r, getAllReduce c fuel x = some r → r ≤ x := by
  intro fuel
  induction fuel with
  | zero => intro x r h; exact absurd h (by simp [getAllReduce])
  | succ f ih =>
    intro x r h
    simp only [getAllReduce] at h
    cases hf : c.find x with
    | none => rw [hf] at h; exact Option.noConfusion h
    | some i =>
      rw [hf] at h
      dsimp only at h
      cases hop : i.opcode <;> rw [hop] at h <;> dsimp only at h <;>
        try exact Option.noConfusion h
      case allReduce => exact Nat.le_of_eq (Option.some.inj h).symm
      case convert | reshape | copy | bitcast | transpose =>
        cases hy : i.operands[0]? with
        | none => rw [hy] at h; exact Option.noConfusion h
        | some y =>
          rw [hy] at h
          dsimp only at h
          have := ih y r h
          have hyx : y < x := operand_lt_of_getElem hord hf hy
          omega
      case multiply =>
        cases ha : i.operands[0]? with
        | none => rw [ha] at h; exact Option.noConfusion h
        | some a =>
          cases hb : i.operands[1]? with
          | none => rw [ha, hb] at h; exact Option.noConfusion h
          | some b =>
            rw [ha, hb] at h
            dsimp only at h
            cases hra : getAllReduce c f a with
            | some l =>
              cases hrb : getAllReduce c f b with
              | none =>
                rw [hra, hrb] at h
                have hl : l = r := Option.some.inj (by simpa using h)
                have := ih a l hra
                have hax : a < x := operand_lt_of_getElem hord hf ha
                omega
              | some rb =>
                rw [hra, hrb] at h
                exact Option.noConfusion h
            | none =>
              cases hrb : getAllReduce c f b with
              | none =>
                rw [hra, hrb] at h
                exact Option.noConfusion h
              | some rb =>
                rw [hra, hrb] at h
                have hl : rb = r := Option.some.inj (by simpa using h)
                have := ih b rb hrb
                have hbx : b < x := operand_lt_of_getElem hord hf hb
                omega

theorem getAllReduce_found {c : HloComputation} :
    ∀ fuel x r, getAllReduce c fuel x = some r →
      ∃ j, c.find r = some j ∧ j.opcode = .allReduce := by
  intro fuel
  induction fuel with
  | zero => intro x r h; exact absurd h (by simp [getAllReduce])
  | succ f ih =>
    intro x r h
    simp only [getAllReduce] at h
    cases hf : c.find x with
    | none => rw [hf] at h; exact Option.noConfusion h
    | some i =>
      rw [hf] at h
      dsimp only at h
      cases hop : i.opcode <;> rw [hop] at h <;> dsimp only at h <;>
        try exact Option.noConfusion h
      case allReduce =>
        have : x = r := Option.some.inj h
        exact ⟨i, this ▸ hf, hop⟩
      case convert | reshape | copy | bitcast | transpose =>
        cases hy : i.operands[0]? with
        | none => rw [hy] at h; exact Option.noConfusion h
        | some y =>
          rw [hy] at h
          exact ih y r h
      case multiply =>
        cases ha : i.operands[0]? with
        | none => rw [ha] at h; exact Option.noConfusion h
        | some a =>
          cases hb : i.operands[1]? with
          | none => rw [ha, hb] at h; exact Option.noConfusion h
          | some b =>
            rw [ha, hb] at h
            dsimp only at h
            cases hra : getAllReduce c f a with
            | some l =>
              cases hrb : getAllReduce c f b with
              | none =>
                rw [hra, hrb] at h
                have : l = r := Option.some.inj (by simpa using h)
                exact this ▸ ih a l hra
              | some rb =>
                rw [hra, hrb] at h
                exact Option.noConfusion h
            | none =>
              cases hrb : getAllReduce c f b with
              | none =>
                rw [hra, hrb] at h
                exact Option.noConfusion h
              | some rb =>
                rw [hra, hrb] at h
                have : rb = r := Option.some.inj (by simpa using h)
                exact this ▸ ih b rb hrb

/-- The matched collective is either the start node itself, or appears in
the operand list of some node not above the start. -/
theorem getAllReduce_parent {c : HloComputation} (hord : IdOrdered c) :
    ∀ fuel x r, getAllReduce c fuel x = some r →
      r = x ∨ ∃ q qi, c.find q = some qi ∧ r ∈ qi.operands ∧ q ≤ x := by
  intro fuel
  induction fuel with
  | zero => intro x r h; exact absurd h (by simp [getAllReduce])
  | succ f ih =>
    intro x r h
    simp only [getAllReduce] at h
    cases hf : c.find x with
    | none => rw [hf] at h; exact Option.noConfusion h
    | some i =>
      rw [hf] at h
      dsimp only at h
      cases hop : i.opcode <;> rw [hop] at h <;> dsimp only at h <;>
        try exact Option.noConfusion h
      case allReduce => exact Or.inl (Option.some.inj h).symm
      case convert | reshape | copy | bitcast | transpose =>
        cases hy : i.operands[0]? with
        | none => rw [hy] at h; exact Option.noConfusion h
        | some y =>
          rw [hy] at h
          rcases ih y r h with hre | ⟨q, qi, hq, hmem, hle⟩
          · refine Or.inr ⟨x, i, hf, ?_, Nat.le_refl x⟩
            rw [← hre] at hy
            exact List.getElem?_mem hy
          · have hyx : y < x := operand_lt_of_getElem hord hf hy
            exact Or.inr ⟨q, qi, hq, hmem, by omega⟩
      case multiply =>
        cases ha : i.operands[0]? with
        | none => rw [ha] at h; exact Option.noConfusion h
        | some a =>
          cases hb : i.operands[1]? with
          | none => rw [ha, hb] at h; exact Option.noConfusion h
          | some b =>
            rw [ha, hb] at h
            dsimp only at h
            cases hra : getAllReduce c f a with
            | some l =>
              cases hrb : getAllReduce c f b with
              | none =>
                rw [hra, hrb] at h
                have hlr : l = r := Option.some.inj (by simpa using h)
                subst hlr
                rcases ih a l hra with hre | ⟨q, qi, hq, hmem, hle⟩
                · refine Or.inr ⟨x, i, hf, ?_, Nat.le_refl x⟩
                  rw [← hre] at ha
                  exact List.getElem?_mem ha
                · have hax : a < x := operand_lt_of_getElem hord hf ha
                  exact Or.inr ⟨q, qi, hq, hmem, by omega⟩
              | some rb =>
                rw [hra, hrb] at h
                exact Option.noConfusion h
            | none =>
              cases hrb : getAllReduce c f b with
              | none =>
                rw [hra, hrb] at h
                exact Option.noConfusion h
              | some rb =>
                rw [hra, hrb] at h
                have hlr : rb = r := Option.some.inj (by simpa using h)
                subst hlr
                rcases ih b rb hrb with hre | ⟨q, qi, hq, hmem, hle⟩
                · refine Or.inr ⟨x, i, hf, ?_, Nat.le_refl x⟩
                  rw [← hre] at hb
                  exact List.getElem?_mem hb
                · have hbx : b < x := operand_lt_of_getElem hord hf hb
                  exact Or.inr ⟨q, qi, hq, hmem, by omega⟩

/-! ## The single-unit rewrite (C1) -/

theorem sameElementType_symm (a b : Shape) :
    sameElementType a b = sameElementType b a := by
  unfold sameElementType
  by_cases h : a.elementType = b.elementType
  · rw [h]
  · have h1 : (a.elementType == b.elementType) = false := by
      simp
      exact h
    have h2 : (b.elementType == a.elementType) = false := by
      simp
      intro hc
      exact h hc.symm
    rw [h1, h2]

theorem getElem?_some_lt {l : List Nat} {k a : Nat} (h : l[k]? = some a) :
    k < l.length := by
  by_cases hk : k < l.length
  · exact hk
  · rw [List.getElem?_eq_none (by omega)] at h
    exact Option.noConfusion h

theorem mem_of_getElem?_ne {l : List Nat} {v : Nat}
    (h : ∀ k, k < l.length → l[k]? ≠ some v) : v ∉ l := by
  intro hmem
  obtain ⟨k, hk, hval⟩ := List.getElem_of_mem hmem
  exact h k hk (by rw [List.getElem?_eq_getElem hk, hval])

/-- After the rewrite, output position `iN` of the node `outId` is fed by
a bridged form of an all-reduce tagged elidable, whose operand is a
bridged form of the Add stored at `addId`: the accumulation happens before
the reduction. -/
def RewrittenAt (c : HloComputation) (outId iN addId : Nat) : Prop :=
  ∃ root b arId' arIns b0 addIns,
    c.find outId = some root ∧ root.operands[iN]? = some b ∧
    BridgedTo c b arId' ∧ c.find arId' = some arIns ∧
    arIns.opcode = .allReduce ∧
    arIns.metadataOpName = kSkippableAllReduce ∧
    arIns.operands[0]? = some b0 ∧ BridgedTo c b0 addId ∧
    c.find addId = some addIns ∧ addIns.opcode = .add

/-- Everything the later phases need about the reinsert phase: the
collective's operand becomes the bridged Add, the output slot becomes the
bridged collective, the collective is tagged, all other pre-existing nodes
are untouched, and the two bridges transport to any graph that agrees on
the fresh ids. -/
theorem reinsert_spec (c : HloComputation) (outId iN addId arId : Nat)
    (root1 a1 arIns1 : Instruction) (arOp1 : Nat)
    (hk : KeysLt c) (hn : NodupKeys c)
    (hfout : c.find outId = some root1)
    (hfa : c.find addId = some a1)
    (hfar : c.find arId = some arIns1)
    (harops : arIns1.operands = [arOp1])
    (hne1 : arId ≠ addId) (hne2 : arId ≠ outId) (hne3 : addId ≠ outId) :
    ∃ b1 b2 mid,
      KeysLt (reinsertCollective c outId iN addId arId) ∧
      NodupKeys (reinsertCollective c outId iN addId arId) ∧
      c.nextId ≤ mid ∧
      mid ≤ (reinsertCollective c outId iN addId arId).nextId ∧
      (reinsertCollective c outId iN addId arId).rootId = c.rootId ∧
      (∀ n, n < c.nextId → n ≠ arId → n ≠ outId →
        (reinsertCollective c outId iN addId arId).find n = c.find n) ∧
      (reinsertCollective c outId iN addId arId).find arId =
        some
          { arIns1 with
            operands := [b1],
            metadataOpName := kSkippableAllReduce } ∧
      (reinsertCollective c outId iN addId arId).find outId =
        some { root1 with operands := root1.operands.set iN b2 } ∧
      (b1 = addId ∨ c.nextId ≤ b1) ∧
      b1 < mid ∧
      (b2 = arId ∨ mid ≤ b2) ∧
      b2 < (reinsertCollective c outId iN addId arId).nextId ∧
      (∀ g, (∀ n, c.nextId ≤ n → n < mid →
          g.find n = (reinsertCollective c outId iN addId arId).find n) →
        BridgedTo g b1 addId) ∧
      (∀ g, (∀ n, mid ≤ n →
          n < (reinsertCollective c outId iN addId arId).nextId →
          g.find n = (reinsertCollective c outId iN addId arId).find n) →
        BridgedTo g b2 arId) ∧
      (∀ n j, (reinsertCollective c outId iN addId arId).find n = some j →
        c.nextId ≤ n → n < mid →
        (j.opcode = .reshape ∨ j.opcode = .convert) ∧
        (j.operands = [addId] ∨
          ∃ v, j.operands = [v] ∧ c.nextId ≤ v ∧ v < mid)) ∧
      (∀ n j, (reinsertCollective c outId iN addId arId).find n = some j →
        mid ≤ n →
        (j.opcode = .reshape ∨ j.opcode = .convert) ∧
        (j.operands = [arId] ∨
          ∃ v, j.operands = [v] ∧ mid ≤ v ∧
            v < (reinsertCollective c outId iN addId arId).nextId)) ∧
      (sameElementType arIns1.shape a1.shape = false →
        b2 = mid + 1 ∧
        (reinsertCollective c outId iN addId arId).find b2 =
          some (createReshape a1.shape mid) ∧
        (reinsertCollective c outId iN addId arId).find mid =
          some (createConvert
            (changeElementType arIns1.shape a1.shape.elementType) arId)) := by
  have hlt1 : addId < c.nextId := keysLt_lt_of_find hk hfa
  have hlt2 : arId < c.nextId := keysLt_lt_of_find hk hfar
  have hlt3 : outId < c.nextId := keysLt_lt_of_find hk hfout
  have hshar : shapeOf c arId = arIns1.shape := by
    unfold shapeOf
    rw [hfar]
    rfl
  -- stage 1: bridge the Add to the collective's shape
  set m1 := maybeReshapeConvert c addId (shapeOf c arId) with hm1
  have hk1 : KeysLt m1.1 := mrc_keysLt _ _ hk
  have hn1 : NodupKeys m1.1 := mrc_nodup _ _ hk hn
  have hnx1 : c.nextId ≤ m1.1.nextId := mrc_nextId_le _ _
  have hrt1 : m1.1.rootId = c.rootId := mrc_rootId _ _ _
  have hold1 : ∀ n, n < c.nextId → m1.1.find n = c.find n :=
    fun n h => mrc_find_old h
  have hb1cases : m1.2 = addId ∨ c.nextId ≤ m1.2 := mrc_ret_cases _ _ _
  have hb1lt : m1.2 < m1.1.nextId := mrc_ret_lt hlt1
  -- stage 2: collective's operand 0 becomes the bridged Add
  set c2 := m1.1.replaceOperandWith arId 0 m1.2 with hc2
  have hfar2 : c2.find arId = some { arIns1 with operands := [m1.2] } := by
    rw [hc2]
    unfold HloComputation.replaceOperandWith
    rw [find_modifyInst, if_pos rfl, hold1 arId hlt2, hfar]
    simp only [Option.map_some']
    rw [harops]
    rfl
  have hold2 : ∀ n, n ≠ arId → c2.find n = m1.1.find n := by
    intro n hne
    rw [hc2]
    unfold HloComputation.replaceOperandWith
    rw [find_modifyInst, if_neg hne]
  have hk2 : KeysLt c2 := keysLt_modifyInst _ _ hk1
  have hn2 : NodupKeys c2 := nodup_modifyInst _ _ hn1
  have hnx2 : c2.nextId = m1.1.nextId := rfl
  have hrt2 : c2.rootId = m1.1.rootId := rfl
  have hshar2 : shapeOf c2 arId = arIns1.shape := by
    unfold shapeOf
    rw [hfar2]
    rfl
  have hshadd2 : shapeOf c2 addId = a1.shape := by
    unfold shapeOf
    rw [hold2 addId (Ne.symm hne1), hold1 addId hlt1, hfa]
    rfl
  -- stage 3: bridge the collective back to the Add's shape
  set m2 := maybeReshapeConvert c2 arId (shapeOf c2 addId) with hm2
  have hk3 : KeysLt m2.1 := mrc_keysLt _ _ hk2
  have hn3 : NodupKeys m2.1 := mrc_nodup _ _ hk2 hn2
  have hnx3 : c2.nextId ≤ m2.1.nextId := mrc_nextId_le _ _
  have hrt3 : m2.1.rootId = c2.rootId := mrc_rootId _ _ _
  have hold3 : ∀ n, n < c2.nextId → m2.1.find n = c2.find n :=
    fun n h => mrc_find_old h
  have hb2cases : m2.2 = arId ∨ c2.nextId ≤ m2.2 := mrc_ret_cases _ _ _
  have hb2lt : m2.2 < m2.1.nextId := mrc_ret_lt (by omega)
  -- stage 4: the output slot becomes the bridged collective
  set c4 := m2.1.replaceOperandWith outId iN m2.2 with hc4
  have hfout4 : c4.find outId =
      some { root1 with operands := root1.operands.set iN m2.2 } := by
    rw [hc4]
    unfold HloComputation.replaceOperandWith
    rw [find_modifyInst, if_pos rfl, hold3 outId (by omega),
      hold2 outId (Ne.symm hne2), hold1 outId hlt3, hfout]
    rfl
  have hold4 : ∀ n, n ≠ outId → c4.find n = m2.1.find n := by
    intro n hne
    rw [hc4]
    unfold HloComputation.replaceOperandWith
    rw [find_modifyInst, if_neg hne]
  have hk4 : KeysLt c4 := keysLt_modifyInst _ _ hk3
  have hn4 : NodupKeys c4 := nodup_modifyInst _ _ hn3
  -- stage 5: tag the collective
  have hres : reinsertCollective c outId iN addId arId =
      c4.setMetadataOpName arId kSkippableAllReduce := by
    unfold reinsertCollective
    dsimp only
  rw [hres]
  set c5 := c4.setMetadataOpName arId kSkippableAllReduce with hc5
  have hold5 : ∀ n, n ≠ arId → c5.find n = c4.find n := by
    intro n hne
    rw [hc5]
    unfold HloComputation.setMetadataOpName
    rw [find_modifyInst, if_neg hne]
  have hfar5 : c5.find arId =
      some
        { arIns1 with
          operands := [m1.2],
          metadataOpName := kSkippableAllReduce } := by
    rw [hc5]
    unfold HloComputation.setMetadataOpName
    rw [find_modifyInst, if_pos rfl, hold4 arId hne2, hold3 arId (by omega),
      hfar2]
    rfl
  have hk5 : KeysLt c5 := keysLt_modifyInst _ _ hk4
  have hn5 : NodupKeys c5 := nodup_modifyInst _ _ hn4
  have hnx5 : c5.nextId = m2.1.nextId := rfl
  have hrt5 : c5.rootId = c.rootId := by
    have h1 : c5.rootId = c4.rootId := rfl
    have h2 : c4.rootId = m2.1.rootId := rfl
    rw [h1, h2, hrt3, hrt2, hrt1]
  have holdall : ∀ n, n < c.nextId → n ≠ arId → n ≠ outId →
      c5.find n = c.find n := by
    intro n h hna hno
    rw [hold5 n hna, hold4 n hno, hold3 n (by omega), hold2 n hna,
      hold1 n h]
  have hfresh5 : ∀ n, c.nextId ≤ n → n < c5.nextId →
      (n < c2.nextId → c5.find n = m1.1.find n) ∧
      (c2.nextId ≤ n → c5.find n = m2.1.find n) := by
    intro n hge hlt
    constructor
    · intro hlt2'
      rw [hold5 n (by omega), hold4 n (by omega), hold3 n hlt2',
        hold2 n (by omega)]
    · intro hge2
      rw [hold5 n (by omega), hold4 n (by omega)]
  refine ⟨m1.2, m2.2, c2.nextId, hk5, hn5, by omega, by omega, hrt5,
    holdall, hfar5, ?_, hb1cases, by omega, ?_, by omega, ?_, ?_, ?_, ?_, ?_⟩
  · rw [hold5 outId (Ne.symm hne2), hfout4]
  · rcases hb2cases with h | h
    · exact Or.inl h
    · exact Or.inr h
  · -- bridge 1 transports
    intro g hg
    apply mrc_bridgedTo addId (shapeOf c arId) hk g
    intro n hge hltn
    rw [← hm1] at hltn
    rw [hg n hge (by omega)]
    rw [← hm1]
    exact (hfresh5 n hge (by omega)).1 (by omega)
  · -- bridge 2 transports
    intro g hg
    apply mrc_bridgedTo arId (shapeOf c2 addId) hk2 g
    intro n hge hltn
    rw [← hm2] at hltn
    rw [hg n hge (by omega)]
    rw [← hm2]
    exact (hfresh5 n (by omega) (by omega)).2 hge
  · -- fresh nodes below `mid` are bridge nodes over the Add or a smaller
    -- fresh id
    intro n j hfj hge hltm
    rw [(hfresh5 n hge (by omega)).1 hltm] at hfj
    rw [hm1] at hfj
    have hmf := mrc_fresh hk n j hfj hge
    refine ⟨hmf.1, ?_⟩
    rcases hmf.2 with h | h
    · exact Or.inl h
    · exact Or.inr ⟨c.nextId, h, Nat.le_refl _, by omega⟩
  · -- fresh nodes at or above `mid` are bridge nodes over the collective
    -- or a smaller fresh id
    intro n j hfj hge
    have hnlt : n < c5.nextId := keysLt_lt_of_find hk5 hfj
    rw [(hfresh5 n (by omega) hnlt).2 hge] at hfj
    rw [hm2] at hfj
    have hmf := mrc_fresh hk2 n j hfj hge
    refine ⟨hmf.1, ?_⟩
    rcases hmf.2 with h | h
    · exact Or.inl h
    · exact Or.inr ⟨c2.nextId, h, Nat.le_refl _, by omega⟩
  · -- explicit structure of bridge 2 when the element types differ
    intro hsame
    have hsame2 : sameElementType (shapeOf c2 arId) (shapeOf c2 addId)
        = false := by
      rw [hshar2, hshadd2]
      exact hsame
    have hm2eq : m2 = (c2.addInstruction (createConvert
        (changeElementType (shapeOf c2 arId)
          (shapeOf c2 addId).elementType) arId)).1.addInstruction
        (createReshape (shapeOf c2 addId) c2.nextId) := by
      rw [hm2]
      exact mrc_not_sameET hsame2
    have hb2val : m2.2 = c2.nextId + 1 := by
      rw [hm2eq]
      rfl
    have hb2ne_ar : m2.2 ≠ arId := by
      rw [hb2val]
      omega
    have hb2ne_out : m2.2 ≠ outId := by
      rw [hb2val]
      omega
    have hcvne_ar : c2.nextId ≠ arId := by omega
    have hcvne_out : c2.nextId ≠ outId := by omega
    refine ⟨hb2val, ?_, ?_⟩
    · rw [hold5 m2.2 hb2ne_ar, hold4 m2.2 hb2ne_out, hb2val]
      have h2 := find_addInstruction_new
        (createReshape (shapeOf c2 addId) c2.nextId)
        (keysLt_addInstruction (createConvert
          (changeElementType (shapeOf c2 arId)
            (shapeOf c2 addId).elementType) arId) hk2)
      rw [show ((c2.addInstruction (createConvert
          (changeElementType (shapeOf c2 arId)
            (shapeOf c2 addId).elementType) arId)).1.nextId) =
          c2.nextId + 1 from rfl] at h2
      rw [hm2eq, h2, hshadd2]
    · rw [hold5 c2.nextId hcvne_ar, hold4 c2.nextId hcvne_out, hm2eq]
      rw [find_addInstruction_old
        (show c2.nextId ≠ c2.nextId + 1 by omega)]
      rw [find_addInstruction_new _ hk2, hshar2, hshadd2]

/-- Evaluation of the tuple bridge on a single source against an array
target. -/
theorem mrct_single (c : HloComputation) (s : Nat) (t : PType)
    (d : List Nat) :
    maybeReshapeConvertTuple c [s] (.array t d) =
      some ((maybeReshapeConvert c s (.array t d)).1,
        [(maybeReshapeConvert c s (.array t d)).2]) := rfl

theorem substOperands_createConvert (old new : Nat) (sh : Shape) :
    substOperands old new (createConvert sh old) = createConvert sh new := by
  unfold substOperands createConvert
  simp

/-- After the detach fold, every pre-existing node keeps its opcode, shape
and arity, and no longer mentions the collective: the single user had its
slots cleared, and every other node never mentioned it. -/
theorem detach_node_pres {c c1 : HloComputation} {uId arId : Nat}
    {u : Instruction} {ks : List Nat}
    (hk : KeysLt c) (hn : NodupKeys c)
    (husers : c.users arId = [uId])
    (hfu : c.find uId = some u)
    (hks : ∀ k, k < u.operands.length → k ∈ ks)
    (hd : DetachOut uId arId c u ks c1)
    {t : Nat} {tIns : Instruction} (hft : c.find t = some tIns) :
    ∃ t1, c1.find t = some t1 ∧ t1.opcode = tIns.opcode ∧
      t1.shape = tIns.shape ∧ t1.operands.length = tIns.operands.length ∧
      arId ∉ t1.operands := by
  obtain ⟨⟨u', hfu', hop', hsh', hlen', _, hclr⟩, _, _, hold, _, _, _⟩ := hd
  by_cases h : t = uId
  · subst h
    have huu : u = tIns := by
      rw [hfu] at hft
      exact Option.some.inj hft
    refine ⟨u', hfu', by rw [hop', huu], by rw [hsh', huu],
      by rw [hlen', huu], ?_⟩
    apply mem_of_getElem?_ne
    intro k hklt
    apply hclr
    apply hks
    rw [hlen'] at hklt
    exact hklt
  · refine ⟨tIns, ?_, rfl, rfl, rfl, ?_⟩
    · rw [hold t (keysLt_lt_of_find hk hft) h]
      exact hft
    · exact (users_singleton_spec hn husers).2 (t, tIns) (find_mem hft) h

set_option maxHeartbeats 1600000 in
/-- C1: when output position `i` of the entry root is an Add whose second
operand chain-matches to a single-user all-reduce, the enabled single-unit
run reorders the graph so that position `i` is fed by a bridged form of an
all-reduce tagged elidable whose operand is a bridged form of the Add. -/
theorem grad_acc_single_unit_rewrite (ctx : PassContext)
    (c : HloComputation) (i : Int) (addId xId arId uId : Nat)
    (root addIns arIns : Instruction)
    (hen : ctx.rewriteForGradAcc = true)
    (hidx : ctx.rewriteIndices = [i])
    (hk : KeysLt c) (hn : NodupKeys c) (hord : IdOrdered c)
    (hfroot : c.find c.rootId = some root)
    (hroot_op : root.opcode = .outTuple)
    (hslot : root.operands[sizeT i]? = some addId)
    (hfadd : c.find addId = some addIns)
    (hadd_op : addIns.opcode = .add)
    (hx : addIns.operands[1]? = some xId)
    (har : getAllReduce c c.nextId xId = some arId)
    (hfar : c.find arId = some arIns)
    (husers : c.users arId = [uId])
    (harity : arIns.operands.length = 1)
    (haddarr : addIns.shape.isArray = true) :
    ∃ c', gradAccRewriteRun ctx ⟨c⟩ = some (⟨c'⟩, true) ∧
      RewrittenAt c' c.rootId (sizeT i) addId := by
  -- basic facts about the matched pattern
  obtain ⟨j0, hfj0, hj0op⟩ := getAllReduce_found c.nextId xId arId har
  have harIns_op : arIns.opcode = .allReduce := by
    rw [hfar] at hfj0
    have he : arIns = j0 := Option.some.inj hfj0
    rw [he]
    exact hj0op
  have harlt : arId < c.nextId := keysLt_lt_of_find hk hfar
  have haddlt : addId < c.nextId := keysLt_lt_of_find hk hfadd
  have hrootlt : c.rootId < c.nextId := keysLt_lt_of_find hk hfroot
  obtain ⟨arOp, harops⟩ := List.length_eq_one.mp harity
  have harOp_lt : arOp < arId :=
    operand_lt hord hfar (by rw [harops]; exact List.mem_singleton.mpr rfl)
  have hne1 : arId ≠ addId := by
    intro h
    rw [h, hfadd] at hfar
    have he : arIns = addIns := (Option.some.inj hfar).symm
    rw [he, hadd_op] at harIns_op
    exact HloOpcode.noConfusion harIns_op
  have hne2 : arId ≠ c.rootId := by
    intro h
    rw [h, hfroot] at hfar
    have he : arIns = root := (Option.some.inj hfar).symm
    rw [he, hroot_op] at harIns_op
    exact HloOpcode.noConfusion harIns_op
  have hne3 : addId ≠ c.rootId := by
    intro h
    rw [h, hfroot] at hfadd
    have he : addIns = root := (Option.some.inj hfadd).symm
    rw [he, hroot_op] at hadd_op
    exact HloOpcode.noConfusion hadd_op
  obtain ⟨⟨u, hfu, harmemu⟩, honly⟩ := users_singleton_spec hn husers
  have hne_ar_u : arId ≠ uId := by
    intro h
    rw [← h, hfar] at hfu
    have he : arIns = u := Option.some.inj hfu
    rw [← he, harops] at harmemu
    have := List.mem_singleton.mp harmemu
    omega
  have husers_len : (c.users arId).length = 1 := by rw [husers]; rfl
  have hocar : operandCount c arId = 1 := by
    unfold operandCount
    rw [hfar]
    exact harity
  have hhead : (c.users arId).headD 0 = uId := by rw [husers]; rfl
  have hOCu : operandCount c uId = u.operands.length := by
    unfold operandCount
    rw [hfu]
    rfl
  have hopnd : opnd c arId 0 = some arOp := by
    unfold opnd
    rw [hfar]
    show arIns.operands[0]? = some arOp
    rw [harops]
    rfl
  have hsrc : (opnd c arId 0).getD 0 ≠ arId := by
    rw [hopnd]
    show arOp ≠ arId
    omega
  -- step 1: the index loop takes the full-match path
  have hstep : gradAccStep c.rootId (c, []) i =
      typeFixCollective
        (reinsertCollective
          (detachCollective c uId arId (operandCount c uId))
          c.rootId (sizeT i) addId arId) addId arId [] := by
    unfold gradAccStep
    dsimp only
    rw [hfroot]
    simp only [hslot, hfadd]
    rw [if_neg (by simp [hadd_op]), hx]
    dsimp only
    rw [har]
    dsimp only
    rw [if_neg (by simp [husers_len]), if_neg (by simp [hocar]), hhead]
  -- step 2: the detach phase
  have hdetach := detach_go uId arId hne_ar_u
    (List.range (operandCount c uId)) (List.nodup_range _) c u hfu hk hn
    harlt hsrc
  set c1 := detachCollective c uId arId (operandCount c uId) with hc1
  have hdetach' : DetachOut uId arId c u
      (List.range (operandCount c uId)) c1 := hdetach
  have hks : ∀ k, k < u.operands.length →
      k ∈ List.range (operandCount c uId) := by
    intro k hk'
    rw [List.mem_range, hOCu]
    exact hk'
  have hdetachKeep := hdetach'
  obtain ⟨⟨u', hfu', hopu', hshu', hlenu', hunt, hclr⟩,
    hnx1, hrt1, hold1, hk1, hn1, hfr1⟩ := hdetachKeep
  have hfar1 : c1.find arId = some arIns := by
    rw [hold1 arId harlt hne_ar_u]
    exact hfar
  obtain ⟨a1, hfa1, ha1op, ha1sh, ha1len, ha1noar⟩ :=
    detach_node_pres hk hn husers hfu hks hdetach' hfadd
  obtain ⟨root1, hfroot1, hroot1op, hroot1sh, hroot1len, hroot1noar⟩ :=
    detach_node_pres hk hn husers hfu hks hdetach' hfroot
  -- step 3: the reinsert phase
  have hrs := reinsert_spec c1 c.rootId (sizeT i) addId arId root1 a1
    arIns arOp hk1 hn1 hfroot1 hfa1 hfar1 harops hne1 hne2 hne3
  set R := reinsertCollective c1 c.rootId (sizeT i) addId arId with hR
  obtain ⟨b1, b2, mid, hk5, hn5, hmid1, hmid2, hrt5, hold5, hfar5, hfout5,
    hb1c, hb1m, hb2c, hb2lt, hbr1, hbr2, hflo, hfhi, hBs⟩ := hrs
  have hb1_ne_ar : b1 ≠ arId := by
    rcases hb1c with h | h
    · rw [h]
      exact Ne.symm hne1
    · omega
  have hfindR_add : R.find addId = some a1 := by
    rw [hold5 addId (by omega) (Ne.symm hne1) hne3]
    exact hfa1
  have hshR_ar : shapeOf R arId = arIns.shape := by
    unfold shapeOf
    rw [hfar5]
    rfl
  have hshR_add : shapeOf R addId = addIns.shape := by
    unfold shapeOf
    rw [hfindR_add]
    exact ha1sh
  have hslotset : (root1.operands.set (sizeT i) b2)[sizeT i]? = some b2 :=
    List.getElem?_set_self (by
      rw [hroot1len]
      exact getElem?_some_lt hslot)
  by_cases hsame : sameElementType arIns.shape addIns.shape = true
  -- branch A: the collective's element type already matches the Add's
  · have htf : typeFixCollective R addId arId [] = some (R, []) := by
      unfold typeFixCollective
      rw [hshR_ar, hshR_add, if_pos hsame]
    refine ⟨R, ?_, ?_⟩
    · have hrun : runIndices c.rootId [i] (c, []) = some (R, []) := by
        unfold runIndices
        rw [hstep, htf]
        rfl
      unfold gradAccRewriteRun
      rw [if_neg (by simp [hen])]
      dsimp only
      rw [hidx, hrun]
      rfl
    · exact ⟨{ root1 with operands := root1.operands.set (sizeT i) b2 },
        b2, arId,
        { arIns with operands := [b1], metadataOpName := kSkippableAllReduce },
        b1, a1, hfout5, hslotset, hbr2 R (fun n _ _ => rfl), hfar5,
        harIns_op, rfl, rfl, hbr1 R (fun n _ _ => rfl), hfindR_add,
        by rw [ha1op]; exact hadd_op⟩
  -- branch B: element types differ, so the collective is rebuilt
  · have hsameF : sameElementType arIns.shape addIns.shape = false := by
      cases hval : sameElementType arIns.shape addIns.shape
      · rfl
      · exact absurd hval hsame
    cases haddsh : addIns.shape with
    | tuple subs =>
      rw [haddsh] at haddarr
      exact absurd haddarr (by simp [Shape.isArray])
    | array t d =>
    have hBsame : sameElementType arIns.shape a1.shape = false := by
      rw [ha1sh]
      exact hsameF
    obtain ⟨hb2eq, hfb2, hfmid⟩ := hBs hBsame
    -- the rebuilt collective and its bridges
    set m3 := maybeReshapeConvert R b1 (.array t d) with hm3
    set c6 := m3.1 with hc6
    set nop := m3.2 with hnop
    set newArIns : Instruction :=
      { opcode := .allReduce, shape := .array t d, operands := [nop],
        metadataOpName := "", channelId := arIns.channelId,
        replicaGroups := arIns.replicaGroups,
        constrainLayout := arIns.constrainLayout,
        useGlobalDeviceIds := arIns.useGlobalDeviceIds } with hnewArIns
    set newAr := c6.nextId with hnewAr
    set c7 := (c6.addInstruction newArIns).1.setMetadataOpName newAr
      kSkippableAllReduce with hc7
    set rb := maybeReshapeConvert c7 newAr (shapeOf c7 arId) with hrb
    set c8 := rb.1.replaceAllUsesWith arId rb.2 with hc8
    set c9 := c8.removeInstructionIgnored arId with hc9
    have hk6 : KeysLt c6 := mrc_keysLt _ _ hk5
    have hn6 : NodupKeys c6 := mrc_nodup _ _ hk5 hn5
    have hnx6 : R.nextId ≤ c6.nextId := mrc_nextId_le _ _
    have hold6 : ∀ n, n < R.nextId → c6.find n = R.find n := by
      intro n h
      rw [hc6, hm3]
      exact mrc_find_old h
    have hb1ltR : b1 < R.nextId := by omega
    have hnoplt : nop < c6.nextId := by
      rw [hnop, hc6, hm3]
      exact mrc_ret_lt hb1ltR
    have hnopcases : nop = b1 ∨ R.nextId ≤ nop := by
      rw [hnop, hm3]
      exact mrc_ret_cases _ _ _
    have hnop_ne_ar : nop ≠ arId := by
      rcases hnopcases with h | h
      · rw [h]
        exact hb1_ne_ar
      · omega
    have hk7 : KeysLt c7 :=
      keysLt_modifyInst _ _ (keysLt_addInstruction _ hk6)
    have hn7 : NodupKeys c7 :=
      nodup_modifyInst _ _ (nodup_addInstruction _ hk6 hn6)
    have hnx7 : c7.nextId = c6.nextId + 1 := rfl
    have hold7 : ∀ n, n < c6.nextId → c7.find n = c6.find n := by
      intro n h
      rw [hc7]
      unfold HloComputation.setMetadataOpName
      rw [find_modifyInst, if_neg (by omega : n ≠ newAr),
        find_addInstruction_old (by omega : n ≠ c6.nextId)]
    have hfnewAr7 : c7.find newAr =
        some { newArIns with metadataOpName := kSkippableAllReduce } := by
      rw [hc7]
      unfold HloComputation.setMetadataOpName
      rw [find_modifyInst, if_pos rfl, hnewAr,
        find_addInstruction_new _ hk6]
      rfl
    have harlt7 : arId < c6.nextId := by omega
    have hfar7 : c7.find arId =
        some { arIns with operands := [b1], metadataOpName := kSkippableAllReduce } := by
      rw [hold7 arId harlt7, hold6 arId (by omega), hfar5]
    have hsh7ar : shapeOf c7 arId = arIns.shape := by
      unfold shapeOf
      rw [hfar7]
      rfl
    have hsh7new : shapeOf c7 newAr = .array t d := by
      unfold shapeOf
      rw [hfnewAr7]
      rfl
    have hsymm : sameElementType addIns.shape arIns.shape = false := by
      rw [sameElementType_symm]
      exact hsameF
    have hsame7 : sameElementType (shapeOf c7 newAr) (shapeOf c7 arId)
        = false := by
      rw [hsh7new, hsh7ar, ← haddsh]
      exact hsymm
    have hrbeq : rb = (c7.addInstruction (createConvert
        (changeElementType (shapeOf c7 newAr)
          (shapeOf c7 arId).elementType) newAr)).1.addInstruction
        (createReshape (shapeOf c7 arId) c7.nextId) := by
      rw [hrb]
      exact mrc_not_sameET hsame7
    have hrb2 : rb.2 = c7.nextId + 1 := by
      rw [hrbeq]
      rfl
    have hold_rb : ∀ n, n < c7.nextId → rb.1.find n = c7.find n := by
      intro n h
      rw [hrb]
      exact mrc_find_old h
    have hfrb_cv : rb.1.find c7.nextId = some (createConvert
        (changeElementType (.array t d) arIns.shape.elementType)
        newAr) := by
      rw [hrbeq, find_addInstruction_old
        (show c7.nextId ≠ c7.nextId + 1 by omega),
        find_addInstruction_new _ hk7, hsh7new, hsh7ar]
    have hfrb_rs : rb.1.find (c7.nextId + 1) =
        some (createReshape arIns.shape c7.nextId) := by
      rw [hrbeq]
      have hnew := find_addInstruction_new
        (createReshape (shapeOf c7 arId) c7.nextId)
        (keysLt_addInstruction (createConvert
          (changeElementType (shapeOf c7 newAr)
            (shapeOf c7 arId).elementType) newAr) hk7)
      rw [show (c7.addInstruction (createConvert
          (changeElementType (shapeOf c7 newAr)
            (shapeOf c7 arId).elementType) newAr)).1.nextId =
          c7.nextId + 1 from rfl] at hnew
      rw [hnew, hsh7ar]
    have hfind8 : ∀ n, n ≠ rb.2 →
        c8.find n = (rb.1.find n).map (substOperands arId rb.2) := by
      intro n h
      rw [hc8, find_replaceAllUsesWith, if_neg h]
    have hfind8' : c8.find rb.2 = rb.1.find rb.2 := by
      rw [hc8, find_replaceAllUsesWith, if_pos rfl]
    have hfind9 : ∀ n, n ≠ arId → c9.find n = c8.find n := by
      intro n h
      rw [hc9]
      exact removeIgnored_find_of_ne h
    have hstepfind : ∀ n, n ≠ arId → n < R.nextId →
        c9.find n = (R.find n).map (substOperands arId rb.2) := by
      intro n hna hlt
      rw [hfind9 n hna, hfind8 n (by omega), hold_rb n (by omega),
        hold7 n (by omega), hold6 n hlt]
    have hid9 : ∀ n j, n ≠ arId → n < R.nextId → R.find n = some j →
        arId ∉ j.operands → c9.find n = some j := by
      intro n j hna hlt hfj hnoar
      rw [hstepfind n hna hlt, hfj]
      simp only [Option.map_some']
      rw [substOperands_id hnoar]
    have hmidlt : mid < R.nextId := by omega
    -- the final graph, node by node
    have hfroot9 : c9.find c.rootId =
        some { root1 with operands := root1.operands.set (sizeT i) b2 } := by
      apply hid9 c.rootId _ (Ne.symm hne2) (by omega) hfout5
      intro hmem
      rcases List.mem_or_eq_of_mem_set hmem with h | h
      · exact hroot1noar h
      · omega
    have hfadd9 : c9.find addId = some a1 := by
      apply hid9 addId a1 (Ne.symm hne1) (by omega) hfindR_add ha1noar
    have hfb29 : c9.find b2 = some (createReshape a1.shape mid) := by
      apply hid9 b2 _ (by omega) hb2lt hfb2
      intro hmem
      have := List.mem_singleton.mp hmem
      omega
    have hfmid9 : c9.find mid = some (createConvert
        (changeElementType arIns.shape a1.shape.elementType) rb.2) := by
      rw [hstepfind mid (by omega) hmidlt, hfmid]
      simp only [Option.map_some']
      rw [substOperands_createConvert]
    have hfrb29 : c9.find rb.2 =
        some (createReshape arIns.shape c7.nextId) := by
      rw [hfind9 rb.2 (by omega), hfind8', hrb2, hfrb_rs]
    have hfcv9 : c9.find c7.nextId = some (createConvert
        (changeElementType (.array t d) arIns.shape.elementType)
        newAr) := by
      rw [hfind9 c7.nextId (by omega), hfind8 c7.nextId (by omega),
        hfrb_cv]
      simp only [Option.map_some']
      rw [substOperands_id (by
        show arId ∉ [newAr]
        intro hmem
        have := List.mem_singleton.mp hmem
        omega)]
    have hfnewAr9 : c9.find newAr =
        some { newArIns with metadataOpName := kSkippableAllReduce } := by
      rw [hfind9 newAr (by omega), hfind8 newAr (by omega),
        hold_rb newAr (by omega), hfnewAr7]
      simp only [Option.map_some']
      rw [substOperands_id (by
        show arId ∉ [nop]
        intro hmem
        have := List.mem_singleton.mp hmem
        exact hnop_ne_ar this.symm)]
    -- the bridged chain from the output slot down to the new collective
    have hchain : BridgedTo c9 b2 newAr := by
      refine BridgedTo.step b2 mid newAr _ hfb29 (Or.inl rfl) rfl ?_
      refine BridgedTo.step mid rb.2 newAr _ hfmid9 (Or.inr rfl) rfl ?_
      refine BridgedTo.step rb.2 c7.nextId newAr _ hfrb29
        (Or.inl rfl) rfl ?_
      exact BridgedTo.step c7.nextId newAr newAr _ hfcv9 (Or.inr rfl) rfl
        (BridgedTo.refl newAr)
    -- the bridged chain from the new collective's operand to the Add
    have hag6 : ∀ n, R.nextId ≤ n → n < c6.nextId →
        c9.find n = c6.find n := by
      intro n h1 h2
      rw [hfind9 n (by omega), hfind8 n (by omega), hold_rb n (by omega),
        hold7 n h2]
      cases hf6 : c6.find n with
      | none => rfl
      | some j =>
        rw [hc6, hm3] at hf6
        have hmf := mrc_fresh hk5 n j hf6 h1
        have hnoar : arId ∉ j.operands := by
          rcases hmf.2 with h | h
          · rw [h]
            intro hmem
            exact hb1_ne_ar (List.mem_singleton.mp hmem).symm
          · rw [h]
            intro hmem
            have := List.mem_singleton.mp hmem
            omega
        simp only [Option.map_some']
        rw [substOperands_id hnoar]
    have hbm3 : BridgedTo c9 nop b1 := by
      rw [hnop, hm3]
      apply mrc_bridgedTo b1 (.array t d) hk5 c9
      intro n h1 h2
      rw [← hm3] at h2
      rw [← hm3]
      exact hag6 n h1 h2
    have hag1 : ∀ n, c1.nextId ≤ n → n < mid → c9.find n = R.find n := by
      intro n h1 h2
      rw [hstepfind n (by omega) (by omega)]
      cases hfR : R.find n with
      | none => rfl
      | some j =>
        obtain ⟨_, hops⟩ := hflo n j hfR h1 h2
        have hnoar : arId ∉ j.operands := by
          rcases hops with h | ⟨v, hv, hv1, hv2⟩
          · rw [h]
            intro hmem
            exact hne1 (List.mem_singleton.mp hmem)
          · rw [hv]
            intro hmem
            have := List.mem_singleton.mp hmem
            omega
        simp only [Option.map_some']
        rw [substOperands_id hnoar]
    have hbb1 : BridgedTo c9 b1 addId := hbr1 c9 hag1
    have hb0add : BridgedTo c9 nop addId := hbm3.trans hbb1
    -- the evaluated type-fix phase
    have htf : typeFixCollective R addId arId [] =
        some (c8, [arId]) := by
      unfold typeFixCollective
      rw [hshR_ar, hshR_add, if_neg (by simp [hsameF])]
      dsimp only
      rw [hfar5]
      dsimp only [Option.getD]
      rw [haddsh, mrct_single]
      rfl
    refine ⟨c9, ?_, ?_⟩
    · have hrun : runIndices c.rootId [i] (c, []) =
          some (c8, [arId]) := by
        unfold runIndices
        rw [hstep, htf]
        rfl
      unfold gradAccRewriteRun
      rw [if_neg (by simp [hen])]
      dsimp only
      rw [hidx, hrun]
      dsimp only
      simp only [List.foldl_cons, List.foldl_nil]
    · exact ⟨{ root1 with operands := root1.operands.set (sizeT i) b2 },
        b2, newAr,
        { newArIns with metadataOpName := kSkippableAllReduce },
        nop, a1, hfroot9, hslotset, hchain, hfnewAr9, rfl, rfl, rfl,
        hb0add, hfadd9, by rw [ha1op]; exact hadd_op⟩

/-- Witness for C1 on the concrete two-output module: index 0 is
`Add(p0, AllReduce(p1))`, and the enabled run reorders it. -/
theorem grad_acc_single_unit_rewrite_witness :
    ∃ c', gradAccRewriteRun
        { rewriteForGradAcc := true, rewriteIndices := [0] }
        ⟨egSimple.entry⟩ = some (⟨c'⟩, true) ∧
      RewrittenAt c' egSimple.entry.rootId (sizeT 0) 3 :=
  grad_acc_single_unit_rewrite
    { rewriteForGradAcc := true, rewriteIndices := [0] }
    egSimple.entry 0 3 2 2 3
    { opcode := .outTuple, shape := .tuple [(.f32, [4]), (.f32, [4])],
      operands := [3, 0] }
    { opcode := .add, shape := .array .f32 [4], operands := [0, 2] }
    { opcode := .allReduce, shape := .array .f32 [4], operands := [1],
      channelId := some 7 }
    rfl rfl (by decide) (by decide) (by decide) rfl rfl rfl rfl rfl rfl
    rfl rfl rfl rfl rfl

/-! ## Root-signature preservation (C7) -/

/-- The caller-visible signature of a node: its declared shape and its
output arity (operand count of the output tuple). -/
def sigOf (j : Instruction) : Shape × Nat := (j.shape, j.operands.length)

/-- The signature stored at node `n`. -/
def sigAt (c : HloComputation) (n : Nat) : Option (Shape × Nat) :=
  (c.find n).map sigOf

/-- The signature of the computation's root. -/
def rootSig (c : HloComputation) : Option (Shape × Nat) :=
  sigAt c c.rootId

theorem sigAt_isSome (c : HloComputation) (n : Nat) :
    (sigAt c n).isSome = (c.find n).isSome := by
  unfold sigAt
  cases c.find n <;> rfl

theorem sigOf_subst (old new : Nat) (j : Instruction) :
    sigOf (substOperands old new j) = sigOf j := by
  unfold sigOf substOperands
  simp

/-- A graph transformation that keeps the root pointer and the signature
of every present node. -/
def SigPres (c c' : HloComputation) : Prop :=
  c'.rootId = c.rootId ∧
  ∀ n, (c.find n).isSome → sigAt c' n = sigAt c n

theorem sigPres_refl (c : HloComputation) : SigPres c c :=
  ⟨rfl, fun _ _ => rfl⟩

theorem sigPres_trans {a b c : HloComputation}
    (h1 : SigPres a b) (h2 : SigPres b c) : SigPres a c := by
  refine ⟨by rw [h2.1, h1.1], ?_⟩
  intro n hn
  have hb := h1.2 n hn
  have hbs : (b.find n).isSome := by
    rw [← sigAt_isSome, hb, sigAt_isSome]
    exact hn
  rw [h2.2 n hbs, hb]

theorem sigPres_rootSig {c c' : HloComputation} (h : SigPres c c')
    {s : Shape × Nat} (hr : rootSig c = some s) : rootSig c' = some s := by
  unfold rootSig at hr ⊢
  rw [h.1, h.2 c.rootId (by
    rw [← sigAt_isSome, hr]
    rfl)]
  exact hr

theorem sigPres_modifyInst (c : HloComputation) (id : Nat)
    (f : Instruction → Instruction) (hf : ∀ j, sigOf (f j) = sigOf j) :
    SigPres c (c.modifyInst id f) := by
  refine ⟨rfl, ?_⟩
  intro n _
  unfold sigAt
  rw [find_modifyInst]
  by_cases h : n = id
  · subst h
    rw [if_pos rfl]
    cases c.find n with
    | none => rfl
    | some j => simp [hf j]
  · rw [if_neg h]

theorem find_addInstruction_pres {c : HloComputation} {i : Instruction}
    {n : Nat} {v : Instruction} (h : c.find n = some v) :
    (c.addInstruction i).1.find n = some v :=
  lookup_append_left h

theorem sigPres_addInstruction (c : HloComputation) (i : Instruction) :
    SigPres c (c.addInstruction i).1 := by
  refine ⟨rfl, ?_⟩
  intro n hn
  cases hf : c.find n with
  | none => rw [hf] at hn; exact Bool.noConfusion hn
  | some v =>
    unfold sigAt
    rw [hf, find_addInstruction_pres hf]

theorem sigPres_mrc (c : HloComputation) (src : Nat) (dst : Shape) :
    SigPres c (maybeReshapeConvert c src dst).1 := by
  by_cases hc : compatibleShape (shapeOf c src) dst = true
  · rw [mrc_of_compatible hc]
    exact sigPres_refl c
  · have hc' : compatibleShape (shapeOf c src) dst = false := by
      cases hh : compatibleShape (shapeOf c src) dst
      · rfl
      · exact absurd hh hc
    by_cases he : sameElementType (shapeOf c src) dst = true
    · rw [mrc_not_compat_sameET hc' he]
      exact sigPres_addInstruction _ _
    · have he' : sameElementType (shapeOf c src) dst = false := by
        cases hh : sameElementType (shapeOf c src) dst
        · rfl
        · exact absurd hh he
      rw [mrc_not_sameET he']
      exact sigPres_trans (sigPres_addInstruction _ _)
        (sigPres_addInstruction _ _)

theorem sigPres_foldl {β : Type} (f : HloComputation → β → HloComputation)
    (hf : ∀ c b, SigPres c (f c b)) :
    ∀ (l : List β) (c : HloComputation), SigPres c (l.foldl f c) := by
  intro l
  induction l with
  | nil => intro c; exact sigPres_refl c
  | cons b t ih =>
    intro c
    rw [List.foldl_cons]
    exact sigPres_trans (hf c b) (ih (f c b))

theorem keysLt_foldl {β : Type} (f : HloComputation → β → HloComputation)
    (hf : ∀ c b, KeysLt c → KeysLt (f c b)) :
    ∀ (l : List β) (c : HloComputation), KeysLt c → KeysLt (l.foldl f c) := by
  intro l
  induction l with
  | nil => intro c h; exact h
  | cons b t ih =>
    intro c h
    rw [List.foldl_cons]
    exact ih (f c b) (hf c b h)

theorem compatibleShape_eq {a b : Shape}
    (h : compatibleShape a b = true) : a = b := by
  unfold compatibleShape at h
  cases a with
  | array t d =>
    cases b with
    | array t2 d2 =>
      simp at h
      rw [h.1, h.2]
    | tuple ys => exact Bool.noConfusion h
  | tuple xs =>
    cases b with
    | array t2 d2 => exact Bool.noConfusion h
    | tuple ys =>
      simp at h
      rw [h]

/-- Accumulator-fold preservation: if every step preserves signatures and
well-formedness and appends exactly one output, so does the fold. -/
theorem foldl_acc_pres
    (f : HloComputation × List Nat → Nat → HloComputation × List Nat) :
    ∀ (l : List Nat),
      (∀ acc k, k ∈ l → SigPres acc.1 (f acc k).1 ∧
        (KeysLt acc.1 → KeysLt (f acc k).1) ∧
        (f acc k).2.length = acc.2.length + 1) →
      ∀ acc c' outs, l.foldl f acc = (c', outs) →
        SigPres acc.1 c' ∧ (KeysLt acc.1 → KeysLt c') ∧
        outs.length = acc.2.length + l.length := by
  intro l
  induction l with
  | nil =>
    intro _ acc c' outs he
    have h1 : acc.1 = c' := congrArg Prod.fst he
    have h2 : acc.2 = outs := congrArg Prod.snd he
    rw [← h1, ← h2]
    exact ⟨sigPres_refl _, fun hk => hk, rfl⟩
  | cons k tl ih =>
    intro hf acc c' outs he
    rw [List.foldl_cons] at he
    have hstep := hf acc k (List.mem_cons_self _ _)
    have hrest := ih (fun acc' k' hk' => hf acc' k'
      (List.mem_cons_of_mem _ hk')) (f acc k) c' outs he
    refine ⟨sigPres_trans hstep.1 hrest.1, ?_, ?_⟩
    · intro hkc
      exact hrest.2.1 (hstep.2.1 hkc)
    · rw [hrest.2.2, hstep.2.2]
      simp
      omega

/-- The tuple bridge preserves signatures and well-formedness, and returns
one bridged operand per source. -/
theorem mrct_pres {c : HloComputation} {srcs : List Nat} {dst : Shape}
    {c' : HloComputation} {outs : List Nat}
    (h : maybeReshapeConvertTuple c srcs dst = some (c', outs)) :
    SigPres c c' ∧ (KeysLt c → KeysLt c') ∧ outs.length = srcs.length := by
  unfold maybeReshapeConvertTuple at h
  cases dst with
  | array t d =>
    dsimp only at h
    by_cases hl : srcs.length = 1
    · rw [if_pos hl] at h
      cases hs0 : srcs[0]? with
      | none => rw [hs0] at h; exact Option.noConfusion h
      | some s0 =>
        rw [hs0] at h
        dsimp only at h
        have he := Option.some.inj h
        have h1 : (maybeReshapeConvert c s0 (.array t d)).1 = c' :=
          congrArg Prod.fst he
        have h2 : [(maybeReshapeConvert c s0 (.array t d)).2] = outs :=
          congrArg Prod.snd he
        rw [← h1, ← h2, hl]
        exact ⟨sigPres_mrc _ _ _, fun hk => mrc_keysLt _ _ hk, rfl⟩
    · rw [if_neg hl] at h
      exact Option.noConfusion h
  | tuple subs =>
    dsimp only at h
    by_cases hl : subs.length = srcs.length
    · rw [if_pos hl] at h
      have he := Option.some.inj h
      have hres := foldl_acc_pres _ (List.range srcs.length)
        (by
          intro acc k hkmem
          obtain ⟨c0, o0⟩ := acc
          have hk1 : k < srcs.length := List.mem_range.mp hkmem
          have hk2 : k < subs.length := by omega
          have hsk : srcs[k]? = some srcs[k] := List.getElem?_eq_getElem hk1
          have hsub : subs[k]? = some subs[k] := List.getElem?_eq_getElem hk2
          dsimp only
          rw [hsk, hsub]
          dsimp only
          refine ⟨sigPres_mrc _ _ _, fun hkc => mrc_keysLt _ _ hkc, ?_⟩
          simp)
        (c, []) c' outs he
      refine ⟨hres.1, hres.2.1, ?_⟩
      rw [hres.2.2]
      simp
    · rw [if_neg hl] at h
      exact Option.noConfusion h

theorem keysLt_rauw {c : HloComputation} (old new : Nat)
    (hk : KeysLt c) : KeysLt (c.replaceAllUsesWith old new) := by
  intro p hp
  show p.1 < c.nextId
  obtain ⟨q, hq, hfq⟩ := List.mem_map.mp hp
  have hp1 : p.1 = q.1 := by
    rw [← hfq]
    by_cases hqn : q.1 = new
    · rw [if_pos hqn]
    · rw [if_neg hqn]
  rw [hp1]
  exact hk q hq

theorem rauw_rootSig_ne {c : HloComputation} {old : Nat} (new : Nat)
    (hne : c.rootId ≠ old) :
    rootSig (c.replaceAllUsesWith old new) = rootSig c := by
  unfold rootSig sigAt
  have hrid : (c.replaceAllUsesWith old new).rootId = c.rootId := by
    show (if c.rootId = old then new else c.rootId) = c.rootId
    rw [if_neg hne]
  rw [hrid, find_replaceAllUsesWith]
  by_cases h : c.rootId = new
  · rw [if_pos h]
  · rw [if_neg h]
    cases c.find c.rootId with
    | none => rfl
    | some j => simp [sigOf_subst]

theorem rauw_rootSig_root {c : HloComputation} {old : Nat} (new : Nat)
    (hro : c.rootId = old) (hnew : new ≠ old) :
    rootSig (c.replaceAllUsesWith old new) = (c.find new).map sigOf := by
  unfold rootSig sigAt
  have hrid : (c.replaceAllUsesWith old new).rootId = new := by
    show (if c.rootId = old then new else c.rootId) = new
    rw [if_pos hro]
  rw [hrid, find_replaceAllUsesWith, if_pos rfl]

theorem rootSig_removeIgnored (c : HloComputation) (tgt : Nat) :
    rootSig (c.removeInstructionIgnored tgt) = rootSig c := by
  unfold rootSig sigAt
  rw [removeIgnored_rootId, removeIgnored_find_rootId]

theorem rootSig_removeFold :
    ∀ (rem : List Nat) (c : HloComputation),
      rootSig (rem.foldl HloComputation.removeInstructionIgnored c) =
        rootSig c := by
  intro rem
  induction rem with
  | nil => intro c; rfl
  | cons r t ih =>
    intro c
    rw [List.foldl_cons, ih, rootSig_removeIgnored]

theorem sigPres_replaceOperandWith (c : HloComputation) (id k newOp : Nat) :
    SigPres c (c.replaceOperandWith id k newOp) :=
  sigPres_modifyInst c id _ (fun j => by
    unfold sigOf
    simp)

theorem sigPres_setMetadataOpName (c : HloComputation) (id : Nat)
    (str : String) : SigPres c (c.setMetadataOpName id str) :=
  sigPres_modifyInst c id _ (fun j => by
    unfold sigOf
    simp)

theorem sigPres_detachStep (uId arId : Nat) (c : HloComputation) (k : Nat) :
    SigPres c (detachStep uId arId c k) := by
  unfold detachStep
  by_cases h : opnd c uId k = some arId
  · rw [if_pos h]
    dsimp only
    exact sigPres_trans (sigPres_mrc _ _ _)
      (sigPres_replaceOperandWith _ _ _ _)
  · rw [if_neg h]
    exact sigPres_refl c

theorem keysLt_detachStep (uId arId : Nat) (c : HloComputation) (k : Nat)
    (hk : KeysLt c) : KeysLt (detachStep uId arId c k) := by
  unfold detachStep
  by_cases h : opnd c uId k = some arId
  · rw [if_pos h]
    dsimp only
    exact keysLt_modifyInst _ _ (mrc_keysLt _ _ hk)
  · rw [if_neg h]
    exact hk

theorem detach_pres (c : HloComputation) (uId arId n : Nat) :
    SigPres c (detachCollective c uId arId n) ∧
    (KeysLt c → KeysLt (detachCollective c uId arId n)) := by
  unfold detachCollective
  constructor
  · exact sigPres_foldl _ (fun c' k => sigPres_detachStep uId arId c' k) _ c
  · exact fun hk => keysLt_foldl _
      (fun c' k hk' => keysLt_detachStep uId arId c' k hk') _ c hk

theorem reinsert_pres (c : HloComputation) (outId iN addId arId : Nat) :
    SigPres c (reinsertCollective c outId iN addId arId) ∧
    (KeysLt c → KeysLt (reinsertCollective c outId iN addId arId)) := by
  set m1 := maybeReshapeConvert c addId (shapeOf c arId) with hm1
  set c2 := m1.1.replaceOperandWith arId 0 m1.2 with hc2
  set m2 := maybeReshapeConvert c2 arId (shapeOf c2 addId) with hm2
  set c4 := m2.1.replaceOperandWith outId iN m2.2 with hc4
  have heq : reinsertCollective c outId iN addId arId =
      c4.setMetadataOpName arId kSkippableAllReduce := by
    unfold reinsertCollective
    dsimp only
  rw [heq]
  constructor
  · exact sigPres_trans (sigPres_mrc c addId (shapeOf c arId))
      (sigPres_trans (sigPres_replaceOperandWith m1.1 arId 0 m1.2)
        (sigPres_trans (sigPres_mrc c2 arId (shapeOf c2 addId))
          (sigPres_trans (sigPres_replaceOperandWith m2.1 outId iN m2.2)
            (sigPres_setMetadataOpName c4 arId kSkippableAllReduce))))
  · intro hk
    exact keysLt_modifyInst _ _ (keysLt_modifyInst _ _
      (mrc_keysLt _ _ (keysLt_modifyInst _ _ (mrc_keysLt _ _ hk))))

/-- The type-fix phase preserves the root signature and well-formedness
whenever it completes, provided the collective has a single operand (the
`CHECK` that guards its only call site). -/
theorem typeFix_rootSig {c : HloComputation} {addId arId : Nat}
    {rem : List Nat} {out : HloComputation × List Nat} {s : Shape × Nat}
    (hk : KeysLt c) (hroot : rootSig c = some s)
    (hlen : ∀ j, c.find arId = some j → j.operands.length = 1)
    (h : typeFixCollective c addId arId rem = some out) :
    KeysLt out.1 ∧ rootSig out.1 = some s := by
  unfold typeFixCollective at h
  by_cases hs : sameElementType (shapeOf c arId) (shapeOf c addId) = true
  · rw [if_pos hs] at h
    have he : (c, rem) = out := Option.some.inj h
    rw [← he]
    exact ⟨hk, hroot⟩
  · rw [if_neg hs] at h
    dsimp only at h
    cases hm : maybeReshapeConvertTuple c ((c.find arId).getD
        { opcode := .allReduce, shape := shapeOf c arId,
          operands := [] }).operands (shapeOf c addId) with
    | none =>
      rw [hm] at h
      exact Option.noConfusion h
    | some pr =>
      obtain ⟨c1, newOps⟩ := pr
      rw [hm] at h
      dsimp only at h
      set old := (c.find arId).getD
        { opcode := .allReduce, shape := shapeOf c arId,
          operands := [] } with hold
      set r := c1.addInstruction
        { opcode := .allReduce, shape := shapeOf c addId,
          operands := newOps, metadataOpName := "",
          channelId := old.channelId,
          replicaGroups := old.replicaGroups,
          constrainLayout := old.constrainLayout,
          useGlobalDeviceIds := old.useGlobalDeviceIds } with hr
      set c3 := r.1.setMetadataOpName r.2 old.metadataOpName with hc3
      set rb := maybeReshapeConvert c3 r.2 (shapeOf c3 arId) with hrb
      have he := Option.some.inj h
      have hout1 : out.1 = rb.1.replaceAllUsesWith arId rb.2 :=
        (congrArg Prod.fst he).symm
      obtain ⟨hsp1, hkk1, hlen1⟩ := mrct_pres hm
      have hk1 : KeysLt c1 := hkk1 hk
      have hsp3 : SigPres c c3 := sigPres_trans hsp1
        (sigPres_trans (sigPres_addInstruction _ _)
          (sigPres_setMetadataOpName _ _ _))
      have hsprb : SigPres c rb.1 := sigPres_trans hsp3
        (by rw [hrb]; exact sigPres_mrc _ _ _)
      have hk3 : KeysLt c3 := keysLt_modifyInst _ _
        (keysLt_addInstruction _ hk1)
      have hkrb : KeysLt rb.1 := by
        rw [hrb]
        exact mrc_keysLt _ _ hk3
      have hkout : KeysLt out.1 := by
        rw [hout1]
        exact keysLt_rauw _ _ hkrb
      refine ⟨hkout, ?_⟩
      rw [hout1]
      by_cases hrid : rb.1.rootId = arId
      · -- the collective was the root: the root moves to the bridged
        -- rebuilt collective, which has the same signature
        have hcrid : c.rootId = arId := by
          rw [← hsprb.1]
          exact hrid
        have hfarc : ∃ j, c.find arId = some j ∧ sigOf j = s := by
          unfold rootSig sigAt at hroot
          rw [hcrid] at hroot
          cases hf : c.find arId with
          | none => rw [hf] at hroot; exact Option.noConfusion hroot
          | some j =>
            rw [hf] at hroot
            exact ⟨j, rfl, Option.some.inj hroot⟩
        obtain ⟨j, hj, hjs⟩ := hfarc
        have hj1 : j.operands.length = 1 := hlen j hj
        have holdj : old = j := by
          rw [hold, hj]
          rfl
        have hlen1' : newOps.length = 1 := by
          rw [hlen1, holdj]
          exact hj1
        have hsig1 : sigAt c1 arId = some (sigOf j) := by
          rw [hsp1.2 arId (by rw [hj]; rfl)]
          unfold sigAt
          rw [hj]
          rfl
        have harlt1 : arId < c1.nextId := by
          cases hf1 : c1.find arId with
          | none =>
            unfold sigAt at hsig1
            rw [hf1] at hsig1
            exact Option.noConfusion hsig1
          | some j1 => exact keysLt_lt_of_find hk1 hf1
        have hr2 : r.2 = c1.nextId := by
          rw [hr]
          rfl
        have hsig3 : sigAt c3 arId = some (sigOf j) := by
          rw [hsp3.2 arId (by rw [hj]; rfl)]
          unfold sigAt
          rw [hj]
          rfl
        obtain ⟨j3, hj3, hj3sh⟩ :
            ∃ j3, c3.find arId = some j3 ∧ j3.shape = j.shape := by
          unfold sigAt at hsig3
          cases hf3 : c3.find arId with
          | none => rw [hf3] at hsig3; exact Option.noConfusion hsig3
          | some j3 =>
            rw [hf3] at hsig3
            have := Option.some.inj hsig3
            exact ⟨j3, rfl, congrArg Prod.fst this⟩
        have hsh3 : shapeOf c3 arId = j.shape := by
          unfold shapeOf
          rw [hj3]
          exact hj3sh
        have hfind3r2 : c3.find r.2 =
            some
              { opcode := .allReduce, shape := shapeOf c addId,
                operands := newOps, metadataOpName := old.metadataOpName,
                channelId := old.channelId,
                replicaGroups := old.replicaGroups,
                constrainLayout := old.constrainLayout,
                useGlobalDeviceIds := old.useGlobalDeviceIds } := by
          rw [hc3]
          unfold HloComputation.setMetadataOpName
          rw [find_modifyInst, if_pos rfl, hr2, hr,
            find_addInstruction_new _ hk1]
          rfl
        have hrb2_ne : rb.2 ≠ arId := by
          rcases mrc_ret_cases c3 r.2 (shapeOf c3 arId) with hcs | hcs
          · rw [← hrb] at hcs
            rw [hcs, hr2]
            omega
          · rw [← hrb] at hcs
            have h3n : c3.nextId = c1.nextId + 1 := by
              rw [hc3, hr]
              rfl
            omega
        rw [rauw_rootSig_root rb.2 hrid hrb2_ne]
        have hss : s = (j.shape, 1) := by
          rw [← hjs]
          unfold sigOf
          rw [hj1]
        rw [hss]
        -- case analysis on the bridge form of the rebuilt collective
        by_cases hcomp : compatibleShape (shapeOf c3 r.2) (shapeOf c3 arId)
            = true
        · have hrbeq : rb = (c3, r.2) := by
            rw [hrb]
            exact mrc_of_compatible hcomp
          have hsheq : shapeOf c3 r.2 = j.shape := by
            rw [compatibleShape_eq hcomp, hsh3]
          have hshnew : shapeOf c addId = j.shape := by
            have : shapeOf c3 r.2 = shapeOf c addId := by
              unfold shapeOf
              rw [hfind3r2]
              rfl
            rw [← this, hsheq]
          rw [hrbeq]
          dsimp only
          rw [hfind3r2]
          simp only [Option.map_some']
          unfold sigOf
          dsimp only
          rw [hlen1', hshnew]
        · have hcomp' : compatibleShape (shapeOf c3 r.2) (shapeOf c3 arId)
              = false := by
            cases hh : compatibleShape (shapeOf c3 r.2) (shapeOf c3 arId)
            · rfl
            · exact absurd hh hcomp
          by_cases hset : sameElementType (shapeOf c3 r.2) (shapeOf c3 arId)
              = true
          · have hrbeq : rb = c3.addInstruction
                (createReshape (shapeOf c3 arId) r.2) := by
              rw [hrb]
              exact mrc_not_compat_sameET hcomp' hset
            rw [hrbeq]
            rw [show (c3.addInstruction
                (createReshape (shapeOf c3 arId) r.2)).2 = c3.nextId
                from rfl]
            rw [find_addInstruction_new _ hk3, hsh3]
            rfl
          · have hset' : sameElementType (shapeOf c3 r.2) (shapeOf c3 arId)
                = false := by
              cases hh : sameElementType (shapeOf c3 r.2) (shapeOf c3 arId)
              · rfl
              · exact absurd hh hset
            have hrbeq : rb = ((c3.addInstruction (createConvert
                (changeElementType (shapeOf c3 r.2)
                  (shapeOf c3 arId).elementType) r.2)).1.addInstruction
                (createReshape (shapeOf c3 arId) c3.nextId)) := by
              rw [hrb]
              exact mrc_not_sameET hset'
            rw [hrbeq]
            rw [show ((c3.addInstruction (createConvert
                (changeElementType (shapeOf c3 r.2)
                  (shapeOf c3 arId).elementType) r.2)).1.addInstruction
                (createReshape (shapeOf c3 arId) c3.nextId)).2 =
                c3.nextId + 1 from rfl]
            have hnew := find_addInstruction_new
              (createReshape (shapeOf c3 arId) c3.nextId)
              (keysLt_addInstruction (createConvert
                (changeElementType (shapeOf c3 r.2)
                  (shapeOf c3 arId).elementType) r.2) hk3)
            rw [show (c3.addInstruction (createConvert
                (changeElementType (shapeOf c3 r.2)
                  (shapeOf c3 arId).elementType) r.2)).1.nextId =
                c3.nextId + 1 from rfl] at hnew
            rw [hnew, hsh3]
            rfl
      · rw [rauw_rootSig_ne rb.2 hrid]
        exact sigPres_rootSig hsprb hroot

/-- Every completed iteration of the single-unit index loop preserves the
root signature and well-formedness. -/
theorem gradAccStep_rootSig {outId : Nat} {st st' : HloComputation × List Nat}
    {idx : Int} {s : Shape × Nat}
    (hk : KeysLt st.1) (hroot : rootSig st.1 = some s)
    (h : gradAccStep outId st idx = some st') :
    KeysLt st'.1 ∧ rootSig st'.1 = some s := by
  obtain ⟨c, rem⟩ := st
  simp only [gradAccStep] at h
  cases hf : c.find outId with
  | none => rw [hf] at h; exact Option.noConfusion h
  | some root =>
    rw [hf] at h
    dsimp only at h
    cases hsl : root.operands[sizeT idx]? with
    | none => rw [hsl] at h; exact Option.noConfusion h
    | some addId =>
      rw [hsl] at h
      dsimp only at h
      cases hfa : c.find addId with
      | none => rw [hfa] at h; exact Option.noConfusion h
      | some addIns =>
        rw [hfa] at h
        dsimp only at h
        by_cases hop : addIns.opcode ≠ .add
        · rw [if_pos hop] at h
          have := Option.some.inj h
          rw [← this]
          exact ⟨hk, hroot⟩
        · rw [if_neg hop] at h
          cases hx1 : addIns.operands[1]? with
          | none => rw [hx1] at h; exact Option.noConfusion h
          | some xId =>
            rw [hx1] at h
            dsimp only at h
            cases hga : getAllReduce c c.nextId xId with
            | none =>
              rw [hga] at h
              have := Option.some.inj h
              rw [← this]
              exact ⟨hk, hroot⟩
            | some arId =>
              rw [hga] at h
              dsimp only at h
              by_cases hus : (c.users arId).length ≠ 1
              · rw [if_pos hus] at h
                have := Option.some.inj h
                rw [← this]
                exact ⟨hk, hroot⟩
              · rw [if_neg hus] at h
                by_cases hoc : operandCount c arId ≠ 1
                · rw [if_pos hoc] at h
                  exact Option.noConfusion h
                · rw [if_neg hoc] at h
                  set uId := (c.users arId).headD 0 with huid
                  set c1 := detachCollective c uId arId
                    (operandCount c uId) with hc1
                  set R := reinsertCollective c1 outId (sizeT idx) addId
                    arId with hR
                  have hd := detach_pres c uId arId (operandCount c uId)
                  have hri := reinsert_pres c1 outId (sizeT idx) addId arId
                  have hsp : SigPres c R := sigPres_trans hd.1 hri.1
                  have hkR : KeysLt R := hri.2 (hd.2 hk)
                  have hrootR : rootSig R = some s := sigPres_rootSig hsp hroot
                  have hoc1 : operandCount c arId = 1 := by omega
                  have hfind_ar : ∃ j, c.find arId = some j ∧
                      j.operands.length = 1 := by
                    unfold operandCount at hoc1
                    cases hfar : c.find arId with
                    | none =>
                      rw [hfar] at hoc1
                      exact absurd hoc1 (by simp)
                    | some j =>
                      rw [hfar] at hoc1
                      exact ⟨j, rfl, hoc1⟩
                  obtain ⟨j, hj, hj1⟩ := hfind_ar
                  have hlenR : ∀ j', R.find arId = some j' →
                      j'.operands.length = 1 := by
                    intro j' hj'
                    have hsg := hsp.2 arId (by rw [hj]; rfl)
                    unfold sigAt at hsg
                    rw [hj', hj] at hsg
                    have := Option.some.inj hsg
                    have hlen := congrArg Prod.snd this
                    unfold sigOf at hlen
                    dsimp only at hlen
                    rw [hlen, hj1]
                  exact typeFix_rootSig hkR hrootR hlenR h

/-- The single-unit index loop preserves the root signature. -/
theorem runIndices_rootSig {outId : Nat} {s : Shape × Nat} :
    ∀ (is : List Int) (st st' : HloComputation × List Nat),
      KeysLt st.1 → rootSig st.1 = some s →
      runIndices outId is st = some st' →
      KeysLt st'.1 ∧ rootSig st'.1 = some s := by
  intro is
  induction is with
  | nil =>
    intro st st' hk hroot h
    have := Option.some.inj h
    rw [← this]
    exact ⟨hk, hroot⟩
  | cons i it ih =>
    intro st st' hk hroot h
    unfold runIndices at h
    cases hstep : gradAccStep outId st i with
    | none => rw [hstep] at h; exact Option.noConfusion h
    | some st1 =>
      rw [hstep] at h
      have h1 := gradAccStep_rootSig hk hroot hstep
      exact ih st1 st' h1.1 h1.2 h

theorem sigPres_rewire (c : HloComputation) (paramId newAr : Nat)
    (userList : List Nat) :
    SigPres c (rewireParamUsers c paramId newAr userList) := by
  unfold rewireParamUsers
  apply sigPres_foldl
  intro c' u
  apply sigPres_foldl
  intro c'' k
  by_cases h : opnd c'' u k = some paramId
  · rw [if_pos h]
    dsimp only
    exact sigPres_trans (sigPres_mrc _ _ _)
      (sigPres_replaceOperandWith _ _ _ _)
  · rw [if_neg h]
    exact sigPres_refl _

theorem sigPres_root_carry {c c' : HloComputation} (h : SigPres c c')
    (hp : (c.find c.rootId).isSome = true) :
    (c'.find c'.rootId).isSome = true ∧ rootSig c' = rootSig c := by
  have hsg := h.2 c.rootId hp
  constructor
  · rw [h.1, ← sigAt_isSome, hsg, sigAt_isSome]
    exact hp
  · unfold rootSig
    rw [h.1, hsg]

/-- The relocation branch: the producer unit only gets the collective
tagged, and the consumer unit's transformation preserves every present
node's signature. -/
theorem relocate_pres {bw ag : HloComputation} {ctr : Int} {rem : List Nat}
    {addId arId : Nat} {inIdx : Int}
    {out : HloComputation × HloComputation × Int × List Nat}
    (h : relocateCollective bw ag ctr rem addId arId inIdx = some out) :
    out.1 = bw.setMetadataOpName arId kDelayedAllReduce ∧
    SigPres ag out.2.1 := by
  unfold relocateCollective at h
  cases hp : ag.paramInstruction inIdx with
  | none => rw [hp] at h; exact Option.noConfusion h
  | some paramId =>
    rw [hp] at h
    dsimp only at h
    by_cases hse : sameElementType (shapeOf (bw.setMetadataOpName arId
        kDelayedAllReduce) addId) (shapeOf ag paramId) = false
    · rw [if_pos hse] at h
      exact Option.noConfusion h
    · rw [if_neg hse] at h
      cases hm : maybeReshapeConvertTuple ag [paramId]
          (shapeOf ag paramId) with
      | none => rw [hm] at h; exact Option.noConfusion h
      | some pr =>
        obtain ⟨ag1, newOps⟩ := pr
        rw [hm] at h
        dsimp only at h
        set bw2 := bw.setMetadataOpName arId kDelayedAllReduce with hbw2
        set old := (bw2.find arId).getD
          { opcode := .allReduce, shape := shapeOf bw2 arId,
            operands := [] } with holdd
        set r := ag1.addInstruction
          { opcode := .allReduce, shape := shapeOf ag paramId,
            operands := newOps, metadataOpName := "",
            channelId := if old.channelId.isSome then some ctr else none,
            replicaGroups := old.replicaGroups,
            constrainLayout := old.constrainLayout,
            useGlobalDeviceIds := old.useGlobalDeviceIds } with hrr
        set ag3 := r.1.setMetadataOpName r.2 old.metadataOpName with hag3
        set ag4 := rewireParamUsers ag3 paramId r.2 (ag.users paramId)
          with hag4
        have he := Option.some.inj h
        have hbwe : out.1 = bw2 := (congrArg Prod.fst he).symm
        have hage : out.2.1 = ag4 := (congrArg (fun x => x.2.1) he).symm
        constructor
        · rw [hbwe, hbw2]
        · rw [hage, hag4]
          exact sigPres_trans (mrct_pres hm).1
            (sigPres_trans (sigPres_addInstruction ag1 _)
              (sigPres_trans
                (sigPres_setMetadataOpName r.1 r.2 old.metadataOpName)
                (sigPres_rewire ag3 paramId r.2 (ag.users paramId))))

/-- Every completed iteration of the cross-unit loop preserves the
producer root signature and well-formedness, and the consumer root's
presence and signature. -/
theorem commDelayStep_pres {outId : Nat}
    {st st' : HloComputation × HloComputation × Int × List Nat}
    {ii : Int × Int} {s : Shape × Nat}
    (hk : KeysLt st.1) (hroot : rootSig st.1 = some s)
    (hagp : (st.2.1.find st.2.1.rootId).isSome = true)
    (h : commDelayStep outId st ii = some st') :
    (KeysLt st'.1 ∧ rootSig st'.1 = some s) ∧
    ((st'.2.1.find st'.2.1.rootId).isSome = true ∧
      rootSig st'.2.1 = rootSig st.2.1) := by
  obtain ⟨bw, ag, ctr, rem⟩ := st
  simp only [commDelayStep] at h
  cases hf : bw.find outId with
  | none => rw [hf] at h; exact Option.noConfusion h
  | some root =>
    rw [hf] at h
    dsimp only at h
    cases hsl : root.operands[sizeT ii.1]? with
    | none => rw [hsl] at h; exact Option.noConfusion h
    | some addId =>
      rw [hsl] at h
      dsimp only at h
      cases hfa : bw.find addId with
      | none => rw [hfa] at h; exact Option.noConfusion h
      | some addIns =>
        rw [hfa] at h
        dsimp only at h
        by_cases hop : addIns.opcode ≠ .add
        · rw [if_pos hop] at h
          have := Option.some.inj h
          rw [← this]
          exact ⟨⟨hk, hroot⟩, hagp, rfl⟩
        · rw [if_neg hop] at h
          cases hx1 : addIns.operands[1]? with
          | none => rw [hx1] at h; exact Option.noConfusion h
          | some xId =>
            rw [hx1] at h
            dsimp only at h
            cases hga : getAllReduce bw bw.nextId xId with
            | none =>
              rw [hga] at h
              have := Option.some.inj h
              rw [← this]
              exact ⟨⟨hk, hroot⟩, hagp, rfl⟩
            | some arId =>
              rw [hga] at h
              dsimp only at h
              by_cases hus : (bw.users arId).length ≠ 1
              · rw [if_pos hus] at h
                have := Option.some.inj h
                rw [← this]
                exact ⟨⟨hk, hroot⟩, hagp, rfl⟩
              · rw [if_neg hus] at h
                by_cases hoc : operandCount bw arId ≠ 1
                · rw [if_pos hoc] at h
                  exact Option.noConfusion h
                · rw [if_neg hoc] at h
                  set uId := (bw.users arId).headD 0 with huid
                  set bw1 := detachCollective bw uId arId
                    (operandCount bw uId) with hbw1
                  have hd := detach_pres bw uId arId (operandCount bw uId)
                  by_cases hii : ii.2 = -1
                  · rw [if_pos hii] at h
                    set R := reinsertCollective bw1 outId (sizeT ii.1)
                      addId arId with hR
                    have hri := reinsert_pres bw1 outId (sizeT ii.1)
                      addId arId
                    have hsp : SigPres bw R := sigPres_trans hd.1 hri.1
                    have hkR : KeysLt R := hri.2 (hd.2 hk)
                    have hrootR : rootSig R = some s :=
                      sigPres_rootSig hsp hroot
                    have hoc1 : operandCount bw arId = 1 := by omega
                    have hfind_ar : ∃ j, bw.find arId = some j ∧
                        j.operands.length = 1 := by
                      unfold operandCount at hoc1
                      cases hfar : bw.find arId with
                      | none =>
                        rw [hfar] at hoc1
                        exact absurd hoc1 (by simp)
                      | some j =>
                        rw [hfar] at hoc1
                        exact ⟨j, rfl, hoc1⟩
                    obtain ⟨j, hj, hj1⟩ := hfind_ar
                    have hlenR : ∀ j', R.find arId = some j' →
                        j'.operands.length = 1 := by
                      intro j' hj'
                      have hsg := hsp.2 arId (by rw [hj]; rfl)
                      unfold sigAt at hsg
                      rw [hj', hj] at hsg
                      have := Option.some.inj hsg
                      have hlen := congrArg Prod.snd this
                      unfold sigOf at hlen
                      dsimp only at hlen
                      rw [hlen, hj1]
                    cases htf : typeFixCollective R addId arId rem with
                    | none => rw [htf] at h; exact Option.noConfusion h
                    | some pr =>
                      obtain ⟨bw3, rem'⟩ := pr
                      rw [htf] at h
                      dsimp only at h
                      have he := Option.some.inj h
                      have hbwe : st'.1 = bw3 :=
                        (congrArg Prod.fst he).symm
                      have hage : st'.2.1 = ag :=
                        (congrArg (fun x => x.2.1) he).symm
                      have htfp := typeFix_rootSig hkR hrootR hlenR htf
                      rw [hbwe, hage]
                      exact ⟨htfp, hagp, rfl⟩
                  · rw [if_neg hii] at h
                    have hrp := relocate_pres h
                    have hbw2 : SigPres bw st'.1 := by
                      rw [hrp.1]
                      exact sigPres_trans hd.1
                        (sigPres_setMetadataOpName bw1 arId
                          kDelayedAllReduce)
                    have hkout : KeysLt st'.1 := by
                      rw [hrp.1]
                      exact keysLt_modifyInst _ _ (hd.2 hk)
                    have hagc := sigPres_root_carry hrp.2 hagp
                    exact ⟨⟨hkout, sigPres_rootSig hbw2 hroot⟩, hagc⟩

/-- The cross-unit index loop preserves both root signatures. -/
theorem runGroupIndices_pres {outId : Nat} {s : Shape × Nat} :
    ∀ (iis : List (Int × Int))
      (st st' : HloComputation × HloComputation × Int × List Nat),
      KeysLt st.1 → rootSig st.1 = some s →
      (st.2.1.find st.2.1.rootId).isSome = true →
      runGroupIndices outId iis st = some st' →
      (KeysLt st'.1 ∧ rootSig st'.1 = some s) ∧
      ((st'.2.1.find st'.2.1.rootId).isSome = true ∧
        rootSig st'.2.1 = rootSig st.2.1) := by
  intro iis
  induction iis with
  | nil =>
    intro st st' hk hroot hagp h
    have := Option.some.inj h
    rw [← this]
    exact ⟨⟨hk, hroot⟩, hagp, rfl⟩
  | cons ii it ih =>
    intro st st' hk hroot hagp h
    unfold runGroupIndices at h
    cases hstep : commDelayStep outId st ii with
    | none => rw [hstep] at h; exact Option.noConfusion h
    | some st1 =>
      rw [hstep] at h
      have h1 := commDelayStep_pres hk hroot hagp hstep
      have h2 := ih st1 st' h1.1.1 h1.1.2 h1.2.1 h
      exact ⟨h2.1, h2.2.1, by rw [h2.2.2, h1.2.2]⟩

/-- C7: for every input graph and index list, a completed run (single-unit
or cross-unit) leaves the entry root's declared shape and output arity
unchanged: rewriting changes what feeds an output position, never the
number of outputs or their declared shapes as seen by the caller. -/
theorem grad_acc_root_signature_preserved :
    (∀ (ctx : PassContext) (m m' : HloModule) (b : Bool),
      KeysLt m.entry → gradAccRewriteRun ctx m = some (m', b) →
      rootSig m'.entry = rootSig m.entry) ∧
    (∀ (ctx : PassContext) (mg mg' : HloModule × HloModule) (b : Bool),
      KeysLt mg.1.entry →
      (mg.2.entry.find mg.2.entry.rootId).isSome = true →
      gradAccCommDelayRun ctx mg = some (mg', b) →
      rootSig mg'.1.entry = rootSig mg.1.entry ∧
      rootSig mg'.2.entry = rootSig mg.2.entry) := by
  constructor
  · intro ctx m m' b hk hrun
    unfold gradAccRewriteRun at hrun
    by_cases ht : ctx.rewriteForGradAcc = false
    · rw [if_pos ht] at hrun
      have he := Option.some.inj hrun
      have hmm : m = m' := congrArg Prod.fst he
      rw [← hmm]
    · rw [if_neg ht] at hrun
      cases hr : runIndices m.entry.rootId ctx.rewriteIndices
          (m.entry, []) with
      | none => rw [hr] at hrun; exact Option.noConfusion hrun
      | some stf =>
        obtain ⟨cf, remf⟩ := stf
        rw [hr] at hrun
        dsimp only at hrun
        have he := Option.some.inj hrun
        have hm' : m' =
            ⟨remf.foldl HloComputation.removeInstructionIgnored cf⟩ :=
          (congrArg Prod.fst he).symm
        rw [hm']
        show rootSig (remf.foldl HloComputation.removeInstructionIgnored cf)
          = rootSig m.entry
        rw [rootSig_removeFold]
        cases hs0 : rootSig m.entry with
        | some s =>
          rw [(runIndices_rootSig ctx.rewriteIndices (m.entry, [])
            (cf, remf) hk hs0 hr).2]
        | none =>
          cases hidx0 : ctx.rewriteIndices with
          | nil =>
            rw [hidx0] at hr
            have he2 := Option.some.inj hr
            have hcf : m.entry = cf := congrArg Prod.fst he2
            rw [← hcf, hs0]
          | cons i0 is0 =>
            rw [hidx0] at hr
            have hfn : m.entry.find m.entry.rootId = none := by
              unfold rootSig sigAt at hs0
              cases hf : m.entry.find m.entry.rootId with
              | none => rfl
              | some j => rw [hf] at hs0; exact Option.noConfusion hs0
            have hstep0 : gradAccStep m.entry.rootId (m.entry, []) i0
                = none := by
              unfold gradAccStep
              dsimp only
              rw [hfn]
            unfold runIndices at hr
            rw [hstep0] at hr
            exact Option.noConfusion hr
  · intro ctx mg mg' b hk hagp hrun
    unfold gradAccCommDelayRun at hrun
    by_cases ht : ctx.rewriteForGradAcc = false
    · rw [if_pos ht] at hrun
      have he := Option.some.inj hrun
      have hmm : mg = mg' := congrArg Prod.fst he
      rw [← hmm]
      exact ⟨rfl, rfl⟩
    · rw [if_neg ht] at hrun
      by_cases hl : ctx.rewriteIndices.length ≠
          ctx.rewriteApplygradIndices.length
      · rw [if_pos hl] at hrun
        exact Option.noConfusion hrun
      · rw [if_neg hl] at hrun
        cases hr : runGroupIndices mg.1.entry.rootId
            (ctx.rewriteIndices.zip ctx.rewriteApplygradIndices)
            (mg.1.entry, mg.2.entry, nextChannelId mg.2, []) with
        | none => rw [hr] at hrun; exact Option.noConfusion hrun
        | some stf =>
          obtain ⟨bwf, agf, ctrf, remf⟩ := stf
          rw [hr] at hrun
          dsimp only at hrun
          have he := Option.some.inj hrun
          have hm' : mg' =
              (⟨remf.foldl HloComputation.removeInstructionIgnored bwf⟩,
                ⟨agf⟩) := (congrArg Prod.fst he).symm
          rw [hm']
          cases hs0 : rootSig mg.1.entry with
          | some s =>
            have hp := runGroupIndices_pres _ _ _ hk hs0 hagp hr
            constructor
            · show rootSig
                  (remf.foldl HloComputation.removeInstructionIgnored bwf)
                = some s
              rw [rootSig_removeFold]
              exact hp.1.2
            · show rootSig agf = rootSig mg.2.entry
              exact hp.2.2
          | none =>
            cases hz : ctx.rewriteIndices.zip
                ctx.rewriteApplygradIndices with
            | nil =>
              rw [hz] at hr
              have he2 := Option.some.inj hr
              have hbwf : mg.1.entry = bwf := congrArg Prod.fst he2
              have hagf : mg.2.entry = agf :=
                congrArg (fun x => x.2.1) he2
              constructor
              · show rootSig
                    (remf.foldl HloComputation.removeInstructionIgnored bwf)
                  = none
                rw [rootSig_removeFold, ← hbwf]
                exact hs0
              · show rootSig agf = rootSig mg.2.entry
                rw [← hagf]
            | cons ii0 iis0 =>
              rw [hz] at hr
              have hfn : mg.1.entry.find mg.1.entry.rootId = none := by
                unfold rootSig sigAt at hs0
                cases hf : mg.1.entry.find mg.1.entry.rootId with
                | none => rfl
                | some j => rw [hf] at hs0; exact Option.noConfusion hs0
              have hstep0 : commDelayStep mg.1.entry.rootId
                  (mg.1.entry, mg.2.entry, nextChannelId mg.2, []) ii0
                  = none := by
                unfold commDelayStep
                dsimp only
                rw [hfn]
              unfold runGroupIndices at hr
              rw [hstep0] at hr
              exact Option.noConfusion hr

/-- The concrete result of the enabled run on `egSimple` at index 0. -/
def egSimpleRewritten : HloModule :=
  ⟨{ insts := [
      (0,
        { opcode := .parameter, shape := .array .f32 [4], operands := [],
          paramNo := 0 }),
      (1,
        { opcode := .parameter, shape := .array .f32 [4], operands := [],
          paramNo := 1 }),
      (2,
        { opcode := .allReduce, shape := .array .f32 [4], operands := [3],
          metadataOpName := "grad_acc_skippable_all_reduce",
          channelId := some 7 }),
      (3, { opcode := .add, shape := .array .f32 [4], operands := [0, 1] }),
      (4,
        { opcode := .outTuple,
          shape := .tuple [(.f32, [4]), (.f32, [4])],
          operands := [2, 0] })],
     nextId := 5, rootId := 4 }⟩

/-- Witness for C7: the enabled single-unit run on the concrete module
rewrites index 0 yet keeps the root signature; the disabled group run
keeps both. -/
theorem grad_acc_root_signature_preserved_witness :
    (rootSig egSimpleRewritten.entry = rootSig egSimple.entry) ∧
    (rootSig egSimple.entry = rootSig egSimple.entry ∧
      rootSig egTagged.entry = rootSig egTagged.entry) :=
  ⟨grad_acc_root_signature_preserved.1
      { rewriteForGradAcc := true, rewriteIndices := [0] }
      egSimple egSimpleRewritten true (by decide) (by decide),
    grad_acc_root_signature_preserved.2
      { rewriteForGradAcc := false, rewriteIndices := [] }
      (egSimple, egTagged) (egSimple, egTagged) false (by decide)
      (by decide) (by decide)⟩

/-! ## Snapshot rewiring and acyclicity (C10) -/

/-- The dataflow edge relation: node `x` consumes node `y`. -/
def Edge (c : HloComputation) (x y : Nat) : Prop :=
  ∃ i, c.find x = some i ∧ y ∈ i.operands

/-- No node transitively consumes itself. -/
def Acyclic (c : HloComputation) : Prop :=
  ∀ x, ¬ Relation.TransGen (Edge c) x x

theorem acyclic_of_rank (c : HloComputation) (rank : Nat → Nat)
    (h : ∀ x y, Edge c x y → rank y < rank x) : Acyclic c := by
  intro x hcyc
  have hdec : ∀ a b, Relation.TransGen (Edge c) a b → rank b < rank a := by
    intro a b hab
    induction hab with
    | single he => exact h _ _ he
    | tail _ he ih => exact Nat.lt_trans (h _ _ he) ih
  exact absurd (hdec x x hcyc) (Nat.lt_irrefl _)

theorem acyclic_of_idOrdered {c : HloComputation} (hord : IdOrdered c) :
    Acyclic c := by
  apply acyclic_of_rank c (fun x => x)
  intro x y he
  obtain ⟨i, hf, hy⟩ := he
  exact operand_lt hord hf hy

theorem shapeOf_replaceOperandWith (c : HloComputation) (id k v n : Nat) :
    shapeOf (c.replaceOperandWith id k v) n = shapeOf c n := by
  unfold shapeOf HloComputation.replaceOperandWith
  rw [find_modifyInst]
  by_cases h : n = id
  · subst h
    rw [if_pos rfl]
    cases c.find n with
    | none => rfl
    | some j => rfl
  · rw [if_neg h]

theorem users_mem_lt {c : HloComputation} (hk : KeysLt c) {id u : Nat}
    (h : u ∈ c.users id) : u < c.nextId := by
  unfold HloComputation.users at h
  obtain ⟨p, hp, hpu⟩ := List.mem_map.mp h
  rw [← hpu]
  exact hk p (List.mem_filter.mp hp).1

theorem paramInstruction_lt {c : HloComputation} (hk : KeysLt c)
    {i : Int} {p : Nat} (h : c.paramInstruction i = some p) :
    p < c.nextId := by
  unfold HloComputation.paramInstruction at h
  by_cases hi : i < 0
  · rw [if_pos hi] at h
    exact Option.noConfusion h
  · rw [if_neg hi] at h
    cases hfq : c.insts.find? (fun p =>
        p.2.opcode == .parameter && p.2.paramNo == i.toNat) with
    | none => rw [hfq] at h; exact Option.noConfusion h
    | some q =>
      rw [hfq] at h
      have hq : q ∈ c.insts := List.mem_of_find?_eq_some hfq
      have : q.1 = p := Option.some.inj h
      rw [← this]
      exact hk q hq

/-- The snapshot rewiring fold: when the new collective's shape already
matches the parameter's (so every bridge is the identity), the fold only
rewrites parameter slots of strictly older snapshotted users to point at
the new collective; the rank function that puts the new collective just
above the parameter keeps decreasing along every edge, and the new
collective's own node is untouched. -/
theorem rewire_pres (paramId N : Nat) (t : PType) (d : List Nat)
    (v : Instruction) (hPN : paramId < N) :
    ∀ (userList : List Nat), (∀ u ∈ userList, u < N) →
    ∀ c : HloComputation,
      (∀ n i, c.find n = some i → ∀ y ∈ i.operands,
        (if y = N then 2 * paramId + 1 else 2 * y) <
        (if n = N then 2 * paramId + 1 else 2 * n)) →
      shapeOf c N = Shape.array t d →
      shapeOf c paramId = Shape.array t d →
      c.find N = some v →
      (∀ n i, (rewireParamUsers c paramId N userList).find n = some i →
        ∀ y ∈ i.operands,
        (if y = N then 2 * paramId + 1 else 2 * y) <
        (if n = N then 2 * paramId + 1 else 2 * n)) ∧
      (rewireParamUsers c paramId N userList).find N = some v := by
  intro userList
  induction userList with
  | nil =>
    intro _ c hrb _ _ hfv
    exact ⟨hrb, hfv⟩
  | cons u us ih =>
    intro hus c hrb hshN hshP hfv
    have huN : u < N := hus u (List.mem_cons_self _ _)
    have hinner : ∀ (ks : List Nat) (c' : HloComputation),
        (∀ n i, c'.find n = some i → ∀ y ∈ i.operands,
          (if y = N then 2 * paramId + 1 else 2 * y) <
          (if n = N then 2 * paramId + 1 else 2 * n)) →
        shapeOf c' N = Shape.array t d →
        shapeOf c' paramId = Shape.array t d →
        c'.find N = some v →
        (∀ n i, (ks.foldl (fun c k =>
            if opnd c u k = some paramId then
              let r := maybeReshapeConvert c N (shapeOf c paramId)
              r.1.replaceOperandWith u k r.2
            else c) c').find n = some i → ∀ y ∈ i.operands,
          (if y = N then 2 * paramId + 1 else 2 * y) <
          (if n = N then 2 * paramId + 1 else 2 * n)) ∧
        shapeOf (ks.foldl (fun c k =>
            if opnd c u k = some paramId then
              let r := maybeReshapeConvert c N (shapeOf c paramId)
              r.1.replaceOperandWith u k r.2
            else c) c') N = Shape.array t d ∧
        shapeOf (ks.foldl (fun c k =>
            if opnd c u k = some paramId then
              let r := maybeReshapeConvert c N (shapeOf c paramId)
              r.1.replaceOperandWith u k r.2
            else c) c') paramId = Shape.array t d ∧
        (ks.foldl (fun c k =>
            if opnd c u k = some paramId then
              let r := maybeReshapeConvert c N (shapeOf c paramId)
              r.1.replaceOperandWith u k r.2
            else c) c').find N = some v := by
      intro ks
      induction ks with
      | nil =>
        intro c' h1 h2 h3 h4
        exact ⟨h1, h2, h3, h4⟩
      | cons k kt ihk =>
        intro c' h1 h2 h3 h4
        rw [List.foldl_cons]
        by_cases hcond : opnd c' u k = some paramId
        · have hstep : (if opnd c' u k = some paramId then
              let r := maybeReshapeConvert c' N (shapeOf c' paramId)
              r.1.replaceOperandWith u k r.2
            else c') = c'.replaceOperandWith u k N := by
            rw [if_pos hcond]
            dsimp only
            rw [mrc_of_compatible (by
              rw [h2, h3]
              exact compatibleShape_refl _)]
          rw [hstep]
          apply ihk
          · -- rank bound after rewiring one slot
            intro n i hfi y hy
            rw [HloComputation.replaceOperandWith, find_modifyInst] at hfi
            by_cases hnu : n = u
            · subst hnu
              rw [if_pos rfl] at hfi
              cases hfu : c'.find n with
              | none =>
                rw [hfu] at hfi
                exact Option.noConfusion hfi
              | some iu =>
                rw [hfu] at hfi
                simp only [Option.map_some'] at hfi
                have hieq := (Option.some.inj hfi).symm
                rw [hieq] at hy
                have hy' : y ∈ iu.operands.set k N := hy
                rcases List.mem_or_eq_of_mem_set hy' with hmem | hEqN
                · exact h1 n iu hfu y hmem
                · have hpmem : paramId ∈ iu.operands := by
                    unfold opnd at hcond
                    rw [hfu] at hcond
                    exact List.getElem?_mem hcond
                  have hlt := h1 n iu hfu paramId hpmem
                  have hnN : n ≠ N := by omega
                  rw [hEqN, if_pos rfl, if_neg hnN]
                  rw [if_neg (by omega : paramId ≠ N), if_neg hnN] at hlt
                  omega
            · rw [if_neg hnu] at hfi
              exact h1 n i hfi y hy
          · rw [shapeOf_replaceOperandWith]
            exact h2
          · rw [shapeOf_replaceOperandWith]
            exact h3
          · rw [HloComputation.replaceOperandWith, find_modifyInst,
              if_neg (by omega : N ≠ u)]
            exact h4
        · rw [if_neg hcond]
          exact ihk c' h1 h2 h3 h4
    have hres := hinner (List.range (operandCount c u)) c hrb hshN hshP hfv
    have hshow : rewireParamUsers c paramId N (u :: us) =
        rewireParamUsers ((List.range (operandCount c u)).foldl
          (fun c k =>
            if opnd c u k = some paramId then
              let r := maybeReshapeConvert c N (shapeOf c paramId)
              r.1.replaceOperandWith u k r.2
            else c) c) paramId N us := by
      unfold rewireParamUsers
      rw [List.foldl_cons]
    rw [hshow]
    exact ih (fun u' hu' => hus u' (List.mem_cons_of_mem _ hu')) _
      hres.1 hres.2.1 hres.2.2.1 hres.2.2.2

/-- C10: the consumer set is snapshotted before the new collective is
added, so the rebuilt collective keeps the parameter as its sole operand
(it is never rewired into itself), and the relocation leaves the consumer
unit acyclic. -/
theorem grad_acc_relocation_snapshot_acyclic
    (bw ag : HloComputation) (ctr : Int) (rem : List Nat)
    (addId arId : Nat) (inIdx : Int)
    (out : HloComputation × HloComputation × Int × List Nat)
    (hk : KeysLt ag) (hord : IdOrdered ag)
    (hpar : ∀ pid, ag.paramInstruction inIdx = some pid →
      (shapeOf ag pid).isArray = true)
    (h : relocateCollective bw ag ctr rem addId arId inIdx = some out) :
    ∃ paramId ins,
      ag.paramInstruction inIdx = some paramId ∧
      out.2.1.find ag.nextId = some ins ∧
      ins.opcode = .allReduce ∧ ins.operands = [paramId] ∧
      Acyclic out.2.1 := by
  unfold relocateCollective at h
  cases hp : ag.paramInstruction inIdx with
  | none => rw [hp] at h; exact Option.noConfusion h
  | some paramId =>
    rw [hp] at h
    dsimp only at h
    by_cases hse : sameElementType (shapeOf (bw.setMetadataOpName arId
        kDelayedAllReduce) addId) (shapeOf ag paramId) = false
    · rw [if_pos hse] at h
      exact Option.noConfusion h
    · rw [if_neg hse] at h
      have hplt : paramId < ag.nextId := paramInstruction_lt hk hp
      have hparr := hpar paramId hp
      cases hsh : shapeOf ag paramId with
      | tuple subs =>
        rw [hsh] at hparr
        exact absurd hparr (by simp [Shape.isArray])
      | array t d =>
      have hmrct : maybeReshapeConvertTuple ag [paramId]
          (shapeOf ag paramId) = some (ag, [paramId]) := by
        rw [hsh, mrct_single, mrc_of_compatible (by
          rw [hsh]
          exact compatibleShape_refl _)]
      rw [hmrct] at h
      dsimp only at h
      set bw2 := bw.setMetadataOpName arId kDelayedAllReduce with hbw2
      set old := (bw2.find arId).getD
        { opcode := .allReduce, shape := shapeOf bw2 arId,
          operands := [] } with hold
      set bigIns : Instruction :=
        { opcode := .allReduce, shape := shapeOf ag paramId,
          operands := [paramId], metadataOpName := "",
          channelId := if old.channelId.isSome then some ctr else none,
          replicaGroups := old.replicaGroups,
          constrainLayout := old.constrainLayout,
          useGlobalDeviceIds := old.useGlobalDeviceIds } with hbig
      set r := ag.addInstruction bigIns with hr
      set ag3 := r.1.setMetadataOpName r.2 old.metadataOpName with hag3
      set ag4 := rewireParamUsers ag3 paramId r.2 (ag.users paramId)
        with hag4
      have he := Option.some.inj h
      have hage : out.2.1 = ag4 := (congrArg (fun x => x.2.1) he).symm
      have hr2val : r.2 = ag.nextId := by
        rw [hr]
        rfl
      have htag : ag3.find r.2 =
          some { bigIns with metadataOpName := old.metadataOpName } := by
        rw [hag3]
        unfold HloComputation.setMetadataOpName
        rw [find_modifyInst, if_pos rfl, hr2val, hr,
          find_addInstruction_new _ hk]
        rfl
      have hold3 : ∀ n, n ≠ r.2 → ag3.find n = ag.find n := by
        intro n hne
        rw [hag3]
        unfold HloComputation.setMetadataOpName
        rw [find_modifyInst, if_neg hne, hr]
        exact find_addInstruction_old (by omega)
      have hrb3 : ∀ n i, ag3.find n = some i → ∀ y ∈ i.operands,
          (if y = r.2 then 2 * paramId + 1 else 2 * y) <
          (if n = r.2 then 2 * paramId + 1 else 2 * n) := by
        intro n i hfi y hy
        by_cases hn : n = r.2
        · rw [hn, htag] at hfi
          have hieq := (Option.some.inj hfi).symm
          rw [hieq] at hy
          have hy' : y ∈ [paramId] := hy
          have hyp : y = paramId := List.mem_singleton.mp hy'
          rw [hn, if_pos rfl, hyp, if_neg (by omega)]
          omega
        · rw [hold3 n hn] at hfi
          have hnlt : n < ag.nextId := keysLt_lt_of_find hk hfi
          have hylt : y < n := operand_lt hord hfi hy
          rw [if_neg hn, if_neg (by omega : y ≠ r.2)]
          omega
      have hsh3N : shapeOf ag3 r.2 = Shape.array t d := by
        unfold shapeOf
        rw [htag]
        show bigIns.shape = Shape.array t d
        rw [hbig]
        exact hsh
      have hsh3P : shapeOf ag3 paramId = Shape.array t d := by
        unfold shapeOf
        rw [hold3 paramId (by omega)]
        rw [← hsh]
        rfl
      have husers : ∀ u ∈ ag.users paramId, u < r.2 := by
        intro u hu
        have := users_mem_lt hk hu
        omega
      have hres := rewire_pres paramId r.2 t d
        { bigIns with metadataOpName := old.metadataOpName }
        (by omega) (ag.users paramId) husers ag3 hrb3 hsh3N hsh3P htag
      refine ⟨paramId,
        { bigIns with metadataOpName := old.metadataOpName }, rfl, ?_,
        rfl, rfl, ?_⟩
      · rw [hage, ← hr2val]
        exact hres.2
      · rw [hage]
        apply acyclic_of_rank ag4
          (fun x => if x = r.2 then 2 * paramId + 1 else 2 * x)
        intro x y he'
        obtain ⟨i, hf, hy⟩ := he'
        exact hres.1 x i hf y hy

/-- A concrete consumer unit: one parameter, one double consumer, an
output tuple. -/
def egAg : HloComputation :=
  { insts := [
      (0,
        { opcode := .parameter, shape := .array .f32 [4], operands := [],
          paramNo := 0 }),
      (1, { opcode := .add, shape := .array .f32 [4], operands := [0, 0] }),
      (2,
        { opcode := .outTuple, shape := .tuple [(.f32, [4])],
          operands := [1] })],
    nextId := 3, rootId := 2 }

/-- The producer unit after the relocation tags its collective. -/
def egBwTagged : HloComputation :=
  { insts := [
      (0,
        { opcode := .parameter, shape := .array .f32 [4], operands := [],
          paramNo := 0 }),
      (1,
        { opcode := .parameter, shape := .array .f32 [4], operands := [],
          paramNo := 1 }),
      (2,
        { opcode := .allReduce, shape := .array .f32 [4], operands := [1],
          metadataOpName := "grad_acc_delayed_all_reduce",
          channelId := some 7 }),
      (3, { opcode := .add, shape := .array .f32 [4], operands := [0, 2] }),
      (4,
        { opcode := .outTuple,
          shape := .tuple [(.f32, [4]), (.f32, [4])],
          operands := [3, 0] })],
    nextId := 5, rootId := 4 }

/-- The consumer unit after the relocation: the rebuilt collective reads
the parameter, and the snapshotted consumer reads the collective. -/
def egAgRelocated : HloComputation :=
  { insts := [
      (0,
        { opcode := .parameter, shape := .array .f32 [4], operands := [],
          paramNo := 0 }),
      (1, { opcode := .add, shape := .array .f32 [4], operands := [3, 3] }),
      (2,
        { opcode := .outTuple, shape := .tuple [(.f32, [4])],
          operands := [1] }),
      (3,
        { opcode := .allReduce, shape := .array .f32 [4], operands := [0],
          metadataOpName := "grad_acc_delayed_all_reduce",
          channelId := some 13 })],
    nextId := 4, rootId := 2 }

/-- Witness for C10 on a concrete relocation. -/
theorem grad_acc_relocation_snapshot_acyclic_witness :
    ∃ paramId ins,
      egAg.paramInstruction 0 = some paramId ∧
      egAgRelocated.find egAg.nextId = some ins ∧
      ins.opcode = .allReduce ∧ ins.operands = [paramId] ∧
      Acyclic egAgRelocated :=
  grad_acc_relocation_snapshot_acyclic egSimple.entry egAg 13 [] 3 2 0
    (egBwTagged, egAgRelocated, 14, [2])
    (by decide) (by decide)
    (fun pid hp => by
      have h2 : (0 : Nat) = pid := Option.some.inj hp
      rw [← h2]
      decide)
    (by decide)

/-! ## Channel-id allocation (C4) -/

theorem mrc_find_some_pres {c : HloComputation} {src : Nat} {dst : Shape}
    {n : Nat} {v : Instruction} (h : c.find n = some v) :
    (maybeReshapeConvert c src dst).1.find n = some v := by
  by_cases hc : compatibleShape (shapeOf c src) dst = true
  · rw [mrc_of_compatible hc]
    exact h
  · have hc' : compatibleShape (shapeOf c src) dst = false := by
      cases hh : compatibleShape (shapeOf c src) dst
      · rfl
      · exact absurd hh hc
    by_cases he : sameElementType (shapeOf c src) dst = true
    · rw [mrc_not_compat_sameET hc' he]
      exact find_addInstruction_pres h
    · have he' : sameElementType (shapeOf c src) dst = false := by
        cases hh : sameElementType (shapeOf c src) dst
        · rfl
        · exact absurd hh he
      rw [mrc_not_sameET he']
      exact find_addInstruction_pres (find_addInstruction_pres h)

/-- The rewiring fold never touches the new collective's own node. -/
theorem rewire_find_at (paramId N : Nat) (v : Instruction) :
    ∀ (userList : List Nat), (∀ u ∈ userList, u ≠ N) →
    ∀ c : HloComputation, c.find N = some v →
    (rewireParamUsers c paramId N userList).find N = some v := by
  intro userList
  induction userList with
  | nil =>
    intro _ c hfv
    exact hfv
  | cons u us ih =>
    intro hus c hfv
    have huN : u ≠ N := hus u (List.mem_cons_self _ _)
    have hinner : ∀ (ks : List Nat) (c' : HloComputation),
        c'.find N = some v →
        (ks.foldl (fun c k =>
            if opnd c u k = some paramId then
              let r := maybeReshapeConvert c N (shapeOf c paramId)
              r.1.replaceOperandWith u k r.2
            else c) c').find N = some v := by
      intro ks
      induction ks with
      | nil =>
        intro c' h4
        exact h4
      | cons k kt ihk =>
        intro c' h4
        rw [List.foldl_cons]
        by_cases hcond : opnd c' u k = some paramId
        · rw [if_pos hcond]
          dsimp only
          apply ihk
          rw [HloComputation.replaceOperandWith, find_modifyInst,
            if_neg huN.symm]
          exact mrc_find_some_pres h4
        · rw [if_neg hcond]
          exact ihk c' h4
    have hres := hinner (List.range (operandCount c u)) c hfv
    have hshow : rewireParamUsers c paramId N (u :: us) =
        rewireParamUsers ((List.range (operandCount c u)).foldl
          (fun c k =>
            if opnd c u k = some paramId then
              let r := maybeReshapeConvert c N (shapeOf c paramId)
              r.1.replaceOperandWith u k r.2
            else c) c) paramId N us := by
      unfold rewireParamUsers
      rw [List.foldl_cons]
    rw [hshow]
    exact ih (fun u' hu' => hus u' (List.mem_cons_of_mem _ hu')) _ hres

theorem le_foldl_max :
    ∀ (l : List Int) (a : Int),
      (∀ x ∈ l, x ≤ l.foldl max a) ∧ a ≤ l.foldl max a := by
  intro l
  induction l with
  | nil =>
    intro a
    exact ⟨fun x hx => absurd hx (List.not_mem_nil x), le_refl a⟩
  | cons y t ih =>
    intro a
    rw [List.foldl_cons]
    have hres := ih (max a y)
    constructor
    · intro x hx
      rcases List.mem_cons.mp hx with hxy | hxt
      · rw [hxy]
        exact le_trans (le_max_right a y) hres.2
      · exact hres.1 x hxt
    · exact le_trans (le_max_left a y) hres.2

theorem relocate_ctr_mono {bw ag : HloComputation} {ctr : Int}
    {rem : List Nat} {addId arId : Nat} {inIdx : Int}
    {out : HloComputation × HloComputation × Int × List Nat}
    (h : relocateCollective bw ag ctr rem addId arId inIdx = some out) :
    ctr ≤ out.2.2.1 := by
  unfold relocateCollective at h
  cases hp : ag.paramInstruction inIdx with
  | none => rw [hp] at h; exact Option.noConfusion h
  | some paramId =>
    rw [hp] at h
    dsimp only at h
    by_cases hse : sameElementType (shapeOf (bw.setMetadataOpName arId
        kDelayedAllReduce) addId) (shapeOf ag paramId) = false
    · rw [if_pos hse] at h
      exact Option.noConfusion h
    · rw [if_neg hse] at h
      cases hm : maybeReshapeConvertTuple ag [paramId]
          (shapeOf ag paramId) with
      | none => rw [hm] at h; exact Option.noConfusion h
      | some pr =>
        obtain ⟨ag1, newOps⟩ := pr
        rw [hm] at h
        dsimp only at h
        have he := Option.some.inj h
        have hctr := (congrArg (fun x => x.2.2.1) he).symm
        dsimp only at hctr
        rw [hctr]
        split
        · omega
        · omega

/-- C4: the relocated collective carries a channel id exactly when the
original collective did, and the id it receives is the current counter
value, which is then bumped; the counter is seeded by scanning the
consumer unit, strictly above every channel id present there; and no loop
iteration ever decreases the counter, so successive allocations receive
strictly increasing, mutually distinct identifiers. -/
theorem grad_acc_channel_id_allocation :
    (∀ (bw ag : HloComputation) (ctr : Int) (rem : List Nat)
        (addId arId : Nat) (inIdx : Int)
        (out : HloComputation × HloComputation × Int × List Nat)
        (j : Instruction),
      KeysLt ag →
      (∀ pid, ag.paramInstruction inIdx = some pid →
        (shapeOf ag pid).isArray = true) →
      bw.find arId = some j →
      relocateCollective bw ag ctr rem addId arId inIdx = some out →
      ∃ ins, out.2.1.find ag.nextId = some ins ∧
        ins.opcode = .allReduce ∧
        ins.channelId = (if j.channelId.isSome then some ctr else none) ∧
        out.2.2.1 = (if j.channelId.isSome then ctr + 1 else ctr)) ∧
    (∀ m : HloModule, ∀ x ∈ chanIds m.entry, x < nextChannelId m) ∧
    (∀ (outId : Nat)
        (st st' : HloComputation × HloComputation × Int × List Nat)
        (ii : Int × Int),
      commDelayStep outId st ii = some st' → st.2.2.1 ≤ st'.2.2.1) := by
  refine ⟨?_, ?_, ?_⟩
  · -- the relocation allocates exactly when the original carried an id
    intro bw ag ctr rem addId arId inIdx out j hk hpar hj h
    unfold relocateCollective at h
    cases hp : ag.paramInstruction inIdx with
    | none => rw [hp] at h; exact Option.noConfusion h
    | some paramId =>
      rw [hp] at h
      dsimp only at h
      by_cases hse : sameElementType (shapeOf (bw.setMetadataOpName arId
          kDelayedAllReduce) addId) (shapeOf ag paramId) = false
      · rw [if_pos hse] at h
        exact Option.noConfusion h
      · rw [if_neg hse] at h
        have hplt : paramId < ag.nextId := paramInstruction_lt hk hp
        have hparr := hpar paramId hp
        cases hsh : shapeOf ag paramId with
        | tuple subs =>
          rw [hsh] at hparr
          exact absurd hparr (by simp [Shape.isArray])
        | array t d =>
        have hmrct : maybeReshapeConvertTuple ag [paramId]
            (shapeOf ag paramId) = some (ag, [paramId]) := by
          rw [hsh, mrct_single, mrc_of_compatible (by
            rw [hsh]
            exact compatibleShape_refl _)]
        rw [hmrct] at h
        dsimp only at h
        set bw2 := bw.setMetadataOpName arId kDelayedAllReduce with hbw2
        set old := (bw2.find arId).getD
          { opcode := .allReduce, shape := shapeOf bw2 arId,
            operands := [] } with hold
        set bigIns : Instruction :=
          { opcode := .allReduce, shape := shapeOf ag paramId,
            operands := [paramId], metadataOpName := "",
            channelId := if old.channelId.isSome then some ctr else none,
            replicaGroups := old.replicaGroups,
            constrainLayout := old.constrainLayout,
            useGlobalDeviceIds := old.useGlobalDeviceIds } with hbig
        set r := ag.addInstruction bigIns with hr
        set ag3 := r.1.setMetadataOpName r.2 old.metadataOpName with hag3
        set ag4 := rewireParamUsers ag3 paramId r.2 (ag.users paramId)
          with hag4
        have he := Option.some.inj h
        have hage : out.2.1 = ag4 := (congrArg (fun x => x.2.1) he).symm
        have hctr : out.2.2.1 =
            (if old.channelId.isSome then ctr + 1 else ctr) :=
          (congrArg (fun x => x.2.2.1) he).symm
        have hr2val : r.2 = ag.nextId := by
          rw [hr]
          rfl
        have htag : ag3.find r.2 =
            some { bigIns with metadataOpName := old.metadataOpName } := by
          rw [hag3]
          unfold HloComputation.setMetadataOpName
          rw [find_modifyInst, if_pos rfl, hr2val, hr,
            find_addInstruction_new _ hk]
          rfl
        have hoc : old.channelId = j.channelId := by
          rw [hold, hbw2]
          unfold HloComputation.setMetadataOpName
          rw [find_modifyInst]
          by_cases har : arId = arId
          · rw [if_pos har, hj]
            rfl
          · exact absurd rfl har
        have husers : ∀ u ∈ ag.users paramId, u ≠ r.2 := by
          intro u hu
          have := users_mem_lt hk hu
          omega
        have hfind4 := rewire_find_at paramId r.2
          { bigIns with metadataOpName := old.metadataOpName }
          (ag.users paramId) husers ag3 htag
        refine ⟨{ bigIns with metadataOpName := old.metadataOpName },
          ?_, rfl, ?_, ?_⟩
        · rw [hage, ← hr2val]
          exact hfind4
        · show bigIns.channelId = _
          rw [hbig]
          show (if old.channelId.isSome then some ctr else none) = _
          rw [hoc]
        · rw [hctr, hoc]
  · -- the seed is strictly above every channel id in the consumer unit
    intro m x hx
    unfold nextChannelId
    have := (le_foldl_max (chanIds m.entry) 0).1 x hx
    omega
  · -- the loop counter never decreases
    intro outId st st' ii h
    obtain ⟨bw, ag, ctr, rem⟩ := st
    simp only [commDelayStep] at h
    cases hf : bw.find outId with
    | none => rw [hf] at h; exact Option.noConfusion h
    | some root =>
      rw [hf] at h
      dsimp only at h
      cases hsl : root.operands[sizeT ii.1]? with
      | none => rw [hsl] at h; exact Option.noConfusion h
      | some addId =>
        rw [hsl] at h
        dsimp only at h
        cases hfa : bw.find addId with
        | none => rw [hfa] at h; exact Option.noConfusion h
        | some addIns =>
          rw [hfa] at h
          dsimp only at h
          by_cases hop : addIns.opcode ≠ .add
          · rw [if_pos hop] at h
            have := Option.some.inj h
            rw [← this]
          · rw [if_neg hop] at h
            cases hx1 : addIns.operands[1]? with
            | none => rw [hx1] at h; exact Option.noConfusion h
            | some xId =>
              rw [hx1] at h
              dsimp only at h
              cases hga : getAllReduce bw bw.nextId xId with
              | none =>
                rw [hga] at h
                have := Option.some.inj h
                rw [← this]
              | some arId =>
                rw [hga] at h
                dsimp only at h
                by_cases hus : (bw.users arId).length ≠ 1
                · rw [if_pos hus] at h
                  have := Option.some.inj h
                  rw [← this]
                · rw [if_neg hus] at h
                  by_cases hoc : operandCount bw arId ≠ 1
                  · rw [if_pos hoc] at h
                    exact Option.noConfusion h
                  · rw [if_neg hoc] at h
                    by_cases hii : ii.2 = -1
                    · rw [if_pos hii] at h
                      cases htf : typeFixCollective
                          (reinsertCollective
                            (detachCollective bw ((bw.users arId).headD 0)
                              arId (operandCount bw
                                ((bw.users arId).headD 0)))
                            outId (sizeT ii.1) addId arId) addId arId
                          rem with
                      | none => rw [htf] at h; exact Option.noConfusion h
                      | some pr =>
                        obtain ⟨bw3, rem'⟩ := pr
                        rw [htf] at h
                        dsimp only at h
                        have he := Option.some.inj h
                        have : ctr = st'.2.2.1 :=
                          congrArg (fun x => x.2.2.1) he
                        rw [← this]
                    · rw [if_neg hii] at h
                      exact relocate_ctr_mono h

/-- Witness for C4: the concrete relocation allocates channel 13 = the
seeded counter and bumps it to 14; the seed is above the consumer's
channel id 7; a skip iteration keeps the counter. -/
theorem grad_acc_channel_id_allocation_witness :
    (∃ ins, egAgRelocated.find egAg.nextId = some ins ∧
      ins.opcode = .allReduce ∧
      ins.channelId =
        (if (some (7 : Int)).isSome then some (13 : Int) else none) ∧
      ((14 : Int) = if (some (7 : Int)).isSome then (13 : Int) + 1
        else (13 : Int))) ∧
    (7 : Int) < nextChannelId egTagged ∧
    (13 : Int) ≤ (13 : Int) :=
  ⟨grad_acc_channel_id_allocation.1 egSimple.entry egAg 13 [] 3 2 0
      (egBwTagged, egAgRelocated, 14, [2])
      { opcode := .allReduce, shape := .array .f32 [4], operands := [1],
        channelId := some 7 }
      (by decide)
      (fun pid hp => by
        have h2 : (0 : Nat) = pid := Option.some.inj hp
        rw [← h2]
        decide)
      (by decide) (by decide),
    grad_acc_channel_id_allocation.2.1 egTagged 7 (by decide),
    grad_acc_channel_id_allocation.2.2 4 (egSimple.entry, egAg, 13, [])
      (egSimple.entry, egAg, 13, []) (1, 0) (by decide)⟩
